import Mathlib

/-!
Shallow embedding of the endpoint-mapping / floating-IP allocation engine of
`opflexagent/gbp_ovs_agent.py` (class `GBPOvsAgent`), covering:

* the per-IP-version internal floating-IP pools and allocation tables
  (`int_fip_pool`, `int_fip_alloc`, `_alloc_int_fip`, `_release_int_fip`,
  `_get_int_fips`, `_get_es_for_port`),
* the external-segment registry and next-hop resolution
  (`ExtSegNextHopInfo`, `_get_next_hop_info_for_es`,
  `_create_host_endpoint_file`),
* the segment usage index (`es_port_dict`, `_associate_port_with_es`,
  `_dissociate_port_from_es`),
* descriptor construction and persistence (`mapping_to_file`,
  `_fill_ip_mapping_info`, `_write_endpoint_file`, `_delete_endpoint_file`,
  `mapping_cleanup`).

Python dictionaries are modelled as association lists with first-occurrence
lookup; Python sets as duplicate-free lists; the `netaddr.IPSet` free pools as
lists of numeric addresses whose iteration starts at the numerically smallest
member (netaddr keeps its CIDRs sorted and iterates in ascending address
order).  `uuidutils.generate_uuid()` is modelled by a counter threaded through
the state.  The uncaught `StopIteration` that `_alloc_int_fip` raises on an
empty pool is modelled by `Except`: an `Except.error` carries the state at the
point the exception escapes.
-/

namespace OpflexAgent

/-- IP version, the keys `4` and `6` of the pool/allocation dictionaries. -/
inductive IpVer where
  | v4
  | v6
deriving DecidableEq, Repr

/-- A (v4 or v6) IP address: version together with its numeric value. -/
structure Ip where
  ver : IpVer
  addr : Nat
deriving DecidableEq, Repr

/-- `METADATA_DEFAULT_IP = '169.254.169.254'` as a numeric v4 address. -/
def metadataAddr : Nat := 169 * 2 ^ 24 + 254 * 2 ^ 16 + 169 * 2 ^ 8 + 254

/-- `METADATA_DEFAULT_IP` as an `Ip` value. -/
def METADATA_DEFAULT_IP : Ip := ⟨IpVer.v4, metadataAddr⟩

/-- `neutron.common.constants.DEVICE_OWNER_ROUTER_INTF`. -/
def DEVICE_OWNER_ROUTER_INTF : String := "network:router_interface"

/-- `neutron.common.constants.DEVICE_OWNER_DHCP`. -/
def DEVICE_OWNER_DHCP : String := "network:dhcp"

/-! ### Association lists (Python dicts) and lists-as-sets (Python sets) -/

/-- Dictionary lookup (`d.get(k)` / `d[k]`). -/
def lookupA {α : Type} : List (String × α) → String → Option α
  | [], _ => none
  | (k, v) :: t, key => if k = key then some v else lookupA t key

/-- Dictionary store (`d[k] = v`): replaces the first binding of `k`,
otherwise appends a new binding. -/
def insertA {α : Type} : List (String × α) → String → α → List (String × α)
  | [], key, v => [(key, v)]
  | (k, w) :: t, key, v =>
      if k = key then (key, v) :: t else (k, w) :: insertA t key v

/-- Dictionary key removal (`d.pop(k)`): removes the binding of `k`. -/
def eraseA {α : Type} : List (String × α) → String → List (String × α)
  | [], _ => []
  | (k0, v) :: t, key =>
      if k0 = key then eraseA t key else (k0, v) :: eraseA t key

/-- Dictionary key list (`d.keys()`); deduplicated so that it matches the
key set of a Python dict even on denormalized association lists. -/
def keysA {α : Type} (l : List (String × α)) : List String :=
  (l.map Prod.fst).dedup

/-- Set insertion (`s.add(x)`). -/
def addSet (x : String) (l : List String) : List String :=
  if x ∈ l then l else l ++ [x]

/-- Set removal (`s.discard(x)`). -/
def removeSet (x : String) (l : List String) : List String :=
  l.filter (fun y => y ≠ x)

/-- Set union (`s1 | s2`). -/
def unionSet (l1 l2 : List String) : List String :=
  l1 ++ l2.filter (fun y => y ∉ l1)

/-- Set difference (`s1 - s2`). -/
def diffSet (l1 l2 : List String) : List String :=
  l1.filter (fun y => y ∉ l2)

/-! ### IPSet primitives (`netaddr.IPSet`) -/

/-- `ipset.__iter__().next()`: the first address in iteration order.  netaddr
iterates an `IPSet` in ascending address order, so this is the numerically
smallest member; on an empty set the iterator raises `StopIteration`,
modelled as `none`. -/
def ipsetFirst : List Nat → Option Nat
  | [] => none
  | x :: xs => some (xs.foldl min x)

/-- `ipset.remove(addr)`. -/
def ipsetRemove (a : Nat) (l : List Nat) : List Nat :=
  l.filter (fun x => x ≠ a)

/-- `ipset.add(addr)` (a no-op when the address is already present). -/
def ipsetAdd (a : Nat) (l : List Nat) : List Nat :=
  if a ∈ l then l else a :: l

/-! ### Records -/

/-- One entry of the `"ip-address-mapping"` list of an endpoint record.
`Option` fields model keys that may be absent from the Python dict. -/
structure IpMapEntry where
  uuid : String
  mappedIp : Ip
  floatingIp : Ip
  policySpaceName : Option String
  endpointGroupName : Option String
  nextHopIf : Option String
  nextHopMac : Option String
deriving DecidableEq, Repr

/-- A persisted endpoint record (`mapping_dict` / `ep_dict`).
`interfaceName` and `mac` are `Option` because the host-endpoint record can
carry `None` for them when SNAT setup failed. -/
structure EpMapping where
  policySpaceName : String
  endpointGroupName : String
  interfaceName : Option String
  ip : List Ip
  mac : Option String
  uuid : String
  promiscuousMode : Bool
  attributes : Option String
  ipAddressMapping : List IpMapEntry
deriving DecidableEq, Repr

/-- One entry of `gbp_details['floating_ip']`. -/
structure FipEntry where
  id : String
  fixedIpAddress : Ip
  floatingIpAddress : Ip
  natEpgTenant : Option String
  natEpgName : Option String
deriving DecidableEq, Repr

/-- One entry of `gbp_details['ip_mapping']` (a segment-based NAT rule);
fields read with `.get`, so absence is `none`. -/
structure IpMappingRule where
  externalSegmentName : Option String
  natEpgTenant : Option String
  natEpgName : Option String
deriving DecidableEq, Repr

/-- The GBP policy binding of a port (`gbp_details` / `mapping`). -/
structure GbpDetails where
  ptgTenant : String
  appProfileName : String
  endpointGroupName : String
  promiscuousMode : Bool
  vmName : Option String
  floatingIp : List FipEntry
  ipMapping : List IpMappingRule
deriving DecidableEq, Repr

/-- The port fields `mapping_to_file` reads. -/
structure PortInfo where
  portName : String
  vifMac : String
  vifId : String
deriving DecidableEq, Repr

/-- `ExtSegNextHopInfo`: per-external-segment next-hop configuration and the
resolved next-hop interface/MAC. -/
structure ExtSegNextHopInfo where
  esName : String
  ipStart : Option Ip
  ipEnd : Option Ip
  ipGateway : Option String
  ip6Start : Option Ip
  ip6End : Option Ip
  ip6Gateway : Option String
  nextHopIface : Option String
  nextHopMac : Option String
deriving DecidableEq, Repr

/-- `ExtSegNextHopInfo.is_valid`. -/
def ExtSegNextHopInfo.isValid (nh : ExtSegNextHopInfo) : Bool :=
  (nh.ipStart.isSome && nh.ipGateway.isSome) ||
    (nh.ip6Start.isSome && nh.ip6Gateway.isSome)

/-! ### Agent state -/

/-- The mutable state of `GBPOvsAgent` relevant to endpoint mapping:
free pools, allocation tables, segment usage index, segment registry,
the endpoint file directory, and the uuid-generator counter. -/
structure AgentState where
  intFipPool4 : List Nat
  intFipPool6 : List Nat
  intFipAlloc4 : List (String × List (String × Nat))
  intFipAlloc6 : List (String × List (String × Nat))
  esPortDict : List (String × List String)
  extSegNextHop : List (String × ExtSegNextHopInfo)
  files : List (String × EpMapping)
  uuidCounter : Nat
deriving DecidableEq, Repr

/-- `self.int_fip_pool[ip_ver]`. -/
def AgentState.pool (s : AgentState) : IpVer → List Nat
  | IpVer.v4 => s.intFipPool4
  | IpVer.v6 => s.intFipPool6

/-- `self.int_fip_alloc[ip_ver]`. -/
def AgentState.alloc (s : AgentState) :
    IpVer → List (String × List (String × Nat))
  | IpVer.v4 => s.intFipAlloc4
  | IpVer.v6 => s.intFipAlloc6

/-- Update one version's free pool. -/
def setPool (s : AgentState) : IpVer → List Nat → AgentState
  | IpVer.v4, l => { s with intFipPool4 := l }
  | IpVer.v6, l => { s with intFipPool6 := l }

/-- Update one version's allocation table. -/
def setAlloc (s : AgentState) :
    IpVer → List (String × List (String × Nat)) → AgentState
  | IpVer.v4, m => { s with intFipAlloc4 := m }
  | IpVer.v6, m => { s with intFipAlloc6 := m }

/-- The external collaborators: `snat_iptables.setup_snat_for_es` either
returns a (interface, MAC) pair or raises (`none`). -/
structure Env where
  snatSetup : String → Option (String × String)

/-- `uuidutils.generate_uuid()`: modelled by the state's counter. -/
def genUuid (s : AgentState) : String × AgentState :=
  (toString s.uuidCounter, { s with uuidCounter := s.uuidCounter + 1 })

/-! ### AddressPool operations -/

/-- `_get_int_fips(ip_ver, port_id)`. -/
def getIntFips (s : AgentState) (v : IpVer) (portId : String) :
    List (String × Nat) :=
  (lookupA (s.alloc v) portId).getD []

/-- `_get_es_for_port(port_id)`: segments with an allocated internal FIP. -/
def getEsForPort (s : AgentState) (portId : String) : List String :=
  unionSet (keysA (getIntFips s IpVer.v4 portId))
    (keysA (getIntFips s IpVer.v6 portId))

/-- `_alloc_int_fip(ip_ver, port_id, es)`: pop the first address of the free
pool's iterator and record it under `(port_id, es)`.  `none` models the
`StopIteration` escaping from `.next()` on an exhausted pool. -/
def allocIntFip (s : AgentState) (v : IpVer) (portId es : String) :
    Option (Nat × AgentState) :=
  match ipsetFirst (s.pool v) with
  | none => none
  | some fip =>
      let s1 := setPool s v (ipsetRemove fip (s.pool v))
      let s2 := setAlloc s1 v
        (insertA (s1.alloc v) portId (insertA (getIntFips s1 v portId) es fip))
      some (fip, s2)

/-- `_release_int_fip(ip_ver, port_id, es)` with a specific segment. -/
def releaseIntFipEs (s : AgentState) (v : IpVer) (portId es : String) :
    AgentState :=
  match lookupA (s.alloc v) portId with
  | none => s
  | some m =>
      match lookupA m es with
      | none => s
      | some fip =>
          setAlloc (setPool s v (ipsetAdd fip (s.pool v))) v
            (insertA (s.alloc v) portId (eraseA m es))

/-- `_release_int_fip(ip_ver, port_id)` without a segment: release every
address allocated to the port for that version. -/
def releaseIntFipAll (s : AgentState) (v : IpVer) (portId : String) :
    AgentState :=
  match lookupA (s.alloc v) portId with
  | none => s
  | some m =>
      setAlloc
        (setPool s v ((m.map Prod.snd).foldl (fun p f => ipsetAdd f p)
          (s.pool v)))
        v (eraseA (s.alloc v) portId)

/-! ### Next-hop resolution and host endpoint records -/

/-- `netaddr.iter_iprange(start, end)`: all addresses from `a` to `b`
inclusive. -/
def iterIprange (a b : Nat) : List Nat :=
  (List.range (b + 1 - a)).map (fun i => a + i)

/-- The IP list of `_create_host_endpoint_file`: expand the configured v4 and
v6 ranges (an absent end means the single start address). -/
def hostEpIps (nh : ExtSegNextHopInfo) : List Ip :=
  (match nh.ipStart with
   | none => []
   | some a =>
       (iterIprange a.addr ((nh.ipEnd.getD a).addr)).map
         (fun n => Ip.mk a.ver n)) ++
  (match nh.ip6Start with
   | none => []
   | some a =>
       (iterIprange a.addr ((nh.ip6End.getD a).addr)).map
         (fun n => Ip.mk a.ver n))

/-- `_create_host_endpoint_file(ipm, nh)`: persist the next-hop host endpoint
record keyed by the segment name. -/
def createHostEndpointFile (tenant epgName : String) (nh : ExtSegNextHopInfo)
    (s : AgentState) : AgentState :=
  let u := genUuid s
  let ep : EpMapping :=
    { policySpaceName := tenant
      endpointGroupName := epgName
      interfaceName := nh.nextHopIface
      ip := hostEpIps nh
      mac := nh.nextHopMac
      uuid := u.1
      promiscuousMode := true
      attributes := none
      ipAddressMapping := [] }
  { u.2 with files := insertA u.2.files nh.esName ep }

/-- `_get_next_hop_info_for_es(ipm)`: resolve (and, if needed, establish) the
next-hop interface/MAC of an external segment.  A failing
`setup_snat_for_es` (`env.snatSetup es = none`) is logged and leaves the
fields unresolved, but the host endpoint record is still written. -/
def getNextHopInfoForEs (env : Env) (s : AgentState)
    (es tenant epgName : String) :
    (Option String × Option String) × AgentState :=
  match lookupA s.extSegNextHop es with
  | none => ((none, none), s)
  | some nh =>
      if nh.isValid then
        match nh.nextHopIface with
        | some i => ((some i, nh.nextHopMac), s)
        | none =>
            let nh1 :=
              match env.snatSetup es with
              | some im =>
                  { nh with nextHopIface := some im.1,
                            nextHopMac := some im.2 }
              | none => nh
            let s1 := { s with extSegNextHop := insertA s.extSegNextHop es nh1 }
            let s2 := createHostEndpointFile tenant epgName nh1 s1
            ((nh1.nextHopIface, nh1.nextHopMac), s2)
      else ((none, none), s)

/-! ### Segment usage index -/

/-- `_associate_port_with_es(port_id, ess)`. -/
def associatePortWithEs (s : AgentState) (portId : String)
    (ess : List String) : AgentState :=
  ess.foldl
    (fun s es =>
      let d := insertA s.esPortDict es
        (addSet portId ((lookupA s.esPortDict es).getD []))
      { s with esPortDict := d })
    s

/-- One step of `_dissociate_port_from_es`: remove the port from one
segment's usage set; when the set becomes empty, tear down (reset the
next-hop fields, delete the segment's host endpoint record, and invoke SNAT
teardown — recorded as an event; its exceptions are swallowed). -/
def dissociateStep (portId : String) (se : AgentState × List String)
    (es : String) : AgentState × List String :=
  match lookupA se.1.esPortDict es with
  | none => se
  | some ports =>
      let rest := removeSet portId ports
      if rest = [] then
        let s1 := { se.1 with esPortDict := eraseA se.1.esPortDict es }
        let s2 :=
          match lookupA s1.extSegNextHop es with
          | some nh =>
              let r := insertA s1.extSegNextHop es
                { nh with nextHopIface := none, nextHopMac := none }
              { s1 with extSegNextHop := r }
          | none => s1
        let s3 := { s2 with files := eraseA s2.files es }
        (s3, se.2 ++ [es])
      else ({ se.1 with esPortDict := insertA se.1.esPortDict es rest }, se.2)

/-- `_dissociate_port_from_es(port_id, ess)`, returning the state and the
list of segments for which SNAT teardown was invoked. -/
def dissociatePortFromEs (s : AgentState) (portId : String)
    (ess : List String) : AgentState × List String :=
  ess.foldl (dissociateStep portId) (s, [])

/-! ### `_fill_ip_mapping_info` -/

/-- Python truthiness of an optional string field (`not ipm.get(k)`):
absent or empty means falsy. -/
def truthyS : Option String → Bool
  | none => false
  | some x => x ≠ ""

/-- The validation of one segment-based NAT rule, including the port having
at least one fixed IP (`not ips or not ... : continue`). -/
def ruleValid (ips : List Ip) (r : IpMappingRule) : Bool :=
  !ips.isEmpty && truthyS r.externalSegmentName && truthyS r.natEpgTenant &&
    truthyS r.natEpgName

/-- The static part of `_fill_ip_mapping_info`: one mapping entry per
pre-assigned floating IP in `gbp_details['floating_ip']`. -/
def staticFipEntries (g : GbpDetails) : List IpMapEntry :=
  g.floatingIp.map
    (fun f =>
      { uuid := f.id
        mappedIp := f.fixedIpAddress
        floatingIp := f.floatingIpAddress
        policySpaceName := f.natEpgTenant
        endpointGroupName :=
          f.natEpgName.map (fun n => g.appProfileName ++ "|" ++ n)
        nextHopIf := none
        nextHopMac := none })

/-- The accumulator of the dynamic NAT-rule loop: current state, mapping
entries emitted so far, and the per-version `es_using_int_fip` sets. -/
structure DynAcc where
  st : AgentState
  entries : List IpMapEntry
  esU4 : List String
  esU6 : List String
deriving Repr

/-- `es_using_int_fip[ip_ver]`. -/
def DynAcc.esU (a : DynAcc) : IpVer → List String
  | IpVer.v4 => a.esU4
  | IpVer.v6 => a.esU6

/-- Record `es` in `es_using_int_fip[v]`. -/
def DynAcc.addUse (a : DynAcc) (v : IpVer) (es : String) : DynAcc :=
  match v with
  | IpVer.v4 => { a with esU4 := addSet es a.esU4 }
  | IpVer.v6 => { a with esU6 := addSet es a.esU6 }

/-- The dynamically allocated mapping entry (`ip_map`) emitted for one
fixed IP under one NAT rule. -/
def dynEntry (tenant epg nhIf nhMac : String) (ip : Ip) (fip : Nat)
    (u : String) : IpMapEntry :=
  { uuid := u
    mappedIp := ip
    floatingIp := ⟨ip.ver, fip⟩
    policySpaceName := some tenant
    endpointGroupName := some epg
    nextHopIf := some nhIf
    nextHopMac := some nhMac }

/-- One iteration of the `for ip in ips` loop after the floating IP `fip`
for `(port, es)` has been determined (with `s1` the state right after the
lookup/allocation): record the segment as in use for the address's version
and emit the mapping entry with a fresh uuid. -/
def ruleIpStep (tenant epg nhIf nhMac es : String) (ip : Ip) (fip : Nat)
    (s1 : AgentState) (acc : DynAcc) : DynAcc :=
  { st := (genUuid s1).2
    entries := acc.entries ++
      [dynEntry tenant epg nhIf nhMac ip fip (genUuid s1).1]
    esU4 := if ip.ver = IpVer.v4 then addSet es acc.esU4 else acc.esU4
    esU6 := if ip.ver = IpVer.v6 then addSet es acc.esU6 else acc.esU6 }

/-- The inner `for ip in ips` loop of `_fill_ip_mapping_info` for one NAT
rule whose next hop resolved to `(nhIf, nhMac)`: reuse or allocate the
internal floating IP for `(port, es)` of the address's version and emit one
mapping entry.  An exhausted pool raises out of the loop
(`Except.error` carrying the state at that point). -/
def processRuleIps (portId es tenant epg nhIf nhMac : String) :
    List Ip → DynAcc → Except AgentState DynAcc
  | [], acc => Except.ok acc
  | ip :: rest, acc =>
      match (match lookupA (getIntFips acc.st ip.ver portId) es with
        | some fip => some (fip, acc.st)
        | none => allocIntFip acc.st ip.ver portId es) with
      | none => Except.error acc.st
      | some (fip, s1) =>
          processRuleIps portId es tenant epg nhIf nhMac rest
            (ruleIpStep tenant epg nhIf nhMac es ip fip s1 acc)

/-- One iteration of the `for ipm in gbp_details.get('ip_mapping', [])`
loop: validate the rule, resolve its next hop (skipping the rule when the
interface or MAC is unresolved), and process the port's fixed IPs. -/
def processOneRule (env : Env) (portId appProfile : String) (ips : List Ip)
    (acc : DynAcc) (r : IpMappingRule) : Except AgentState DynAcc :=
  if ruleValid ips r then
    match getNextHopInfoForEs env acc.st (r.externalSegmentName.getD "")
        (r.natEpgTenant.getD "")
        (appProfile ++ "|" ++ r.natEpgName.getD "") with
    | ((some nhIf, some nhMac), s2) =>
        processRuleIps portId (r.externalSegmentName.getD "")
          (r.natEpgTenant.getD "")
          (appProfile ++ "|" ++ r.natEpgName.getD "") nhIf nhMac ips
          { acc with st := s2 }
    | ((_, _), s2) => Except.ok { acc with st := s2 }
  else Except.ok acc

/-- The `for ipm in gbp_details.get('ip_mapping', [])` loop. -/
def processRules (env : Env) (portId appProfile : String) (ips : List Ip) :
    List IpMappingRule → DynAcc → Except AgentState DynAcc
  | [], acc => Except.ok acc
  | r :: rest, acc =>
      match processOneRule env portId appProfile ips acc r with
      | Except.error st => Except.error st
      | Except.ok acc1 => processRules env portId appProfile ips rest acc1

/-- One step of the stale-allocation release loop: release `(port, es)` for
this version unless the segment is in this pass's in-use set. -/
def relStep (v : IpVer) (p : String) (used : List String) (s2 : AgentState)
    (es : String) : AgentState :=
  if es ∈ used then s2 else releaseIntFipEs s2 v p es

/-- The `for es in self._get_int_fips(ip_ver, port_id).keys()` loop of
`_fill_ip_mapping_info` for one IP version. -/
def releaseStaleVer (v : IpVer) (p : String) (used : List String)
    (s : AgentState) : AgentState :=
  (keysA (getIntFips s v p)).foldl (relStep v p used) s

/-- The phase of `_fill_ip_mapping_info` after the NAT-rule loop: update the
segment usage index from the old and new segment sets and release — per IP
version — the allocations whose segment is no longer in use for that
version.  Returns the final state and the SNAT teardown events. -/
def fillPost (portId : String) (acc : DynAcc) : AgentState × List String :=
  let oldEs := getEsForPort acc.st portId
  let newEs := unionSet acc.esU4 acc.esU6
  let s1 := associatePortWithEs acc.st portId newEs
  let de := dissociatePortFromEs s1 portId (diffSet oldEs newEs)
  (releaseStaleVer IpVer.v6 portId acc.esU6
    (releaseStaleVer IpVer.v4 portId acc.esU4 de.1), de.2)

/-- `_fill_ip_mapping_info(port_id, gbp_details, ips, mapping)`: static
floating-IP entries, the dynamic NAT-rule loop, segment usage index update,
and the per-version release of allocations no longer in use.  Returns the
completed mapping and state (or the escaping exception's state) together
with the SNAT teardown events. -/
def fillIpMappingInfo (env : Env) (s : AgentState) (portId : String)
    (g : GbpDetails) (ips : List Ip) (mapping : EpMapping) :
    Except AgentState (EpMapping × AgentState) × List String :=
  match processRules env portId g.appProfileName ips g.ipMapping
      ⟨s, [], [], []⟩ with
  | Except.error st => (Except.error st, [])
  | Except.ok acc =>
      (Except.ok
        ({ mapping with ipAddressMapping :=
            mapping.ipAddressMapping ++ staticFipEntries g ++ acc.entries },
          (fillPost portId acc).1), (fillPost portId acc).2)

/-! ### `mapping_to_file` and `mapping_cleanup` -/

/-- The base `mapping_dict` built by `mapping_to_file` before
`_fill_ip_mapping_info` runs (the metadata address is appended to the IP
list for DHCP ports). -/
def baseMapping (port : PortInfo) (g : GbpDetails) (ips : List Ip)
    (deviceOwner : String) : EpMapping :=
  { policySpaceName := g.ptgTenant
    endpointGroupName := g.appProfileName ++ "|" ++ g.endpointGroupName
    interfaceName := some port.portName
    ip := ips ++ (if deviceOwner = DEVICE_OWNER_DHCP
      then [METADATA_DEFAULT_IP] else [])
    mac := some port.vifMac
    uuid := port.vifId
    promiscuousMode := g.promiscuousMode
    attributes := g.vmName
    ipAddressMapping := [] }

/-- `mapping_to_file(port, mapping, ips, device_owner)`: skip
router-interface ports, build the base descriptor, fill the IP mappings,
and persist the record.  `Except.error` carries the state left behind by an
escaping exception (the descriptor write does not happen in that case). -/
def mappingToFile (env : Env) (s : AgentState) (port : PortInfo)
    (g : GbpDetails) (ips : List Ip) (deviceOwner : String) :
    Except AgentState AgentState × List String :=
  if deviceOwner = DEVICE_OWNER_ROUTER_INTF then (Except.ok s, [])
  else
    match fillIpMappingInfo env s port.vifId g ips
        (baseMapping port g ips deviceOwner) with
    | (Except.error st, ev) => (Except.error st, ev)
    | (Except.ok ms, ev) =>
        (Except.ok { ms.2 with files := insertA ms.2.files port.vifId ms.1 },
          ev)

/-- `mapping_cleanup(vif_id)`: delete the endpoint record, dissociate the
port from every segment it depends on, then release all its pool
allocations (in that order). -/
def mappingCleanup (s : AgentState) (vifId : String) :
    AgentState × List String :=
  let s1 := { s with files := eraseA s.files vifId }
  let es := getEsForPort s1 vifId
  let de := dissociatePortFromEs s1 vifId es
  let s2 := releaseIntFipAll de.1 IpVer.v4 vifId
  let s3 := releaseIntFipAll s2 IpVer.v6 vifId
  (s3, de.2)

/-- The calls of the reconciliation/cleanup state machine (a port update
leading to `mapping_to_file`, or a port removal leading to
`mapping_cleanup`). -/
inductive AgentCall where
  | recon (port : PortInfo) (g : GbpDetails) (ips : List Ip)
      (deviceOwner : String)
  | cleanup (vifId : String)

/-- Run one call, returning the next state and the SNAT teardown events of
the call (for a reconciliation aborted by an exception, the state the
exception left behind). -/
def runCall (env : Env) (s : AgentState) : AgentCall → AgentState × List String
  | AgentCall.recon port g ips owner =>
      match mappingToFile env s port g ips owner with
      | (Except.ok s1, ev) => (s1, ev)
      | (Except.error s1, ev) => (s1, ev)
  | AgentCall.cleanup vifId => mappingCleanup s vifId

/-- The usage set of a segment (`es_port_dict.get(es, set())`). -/
def usage (s : AgentState) (es : String) : List String :=
  (lookupA s.esPortDict es).getD []

/-- `__init__`: free pools from the configured address lists with the
metadata address removed from the v4 pool when present, empty allocation
tables, empty usage index, the configured segment registry, and (after
`setup_pt_directory` purges the directory) no endpoint files. -/
def initState (base4 base6 : List Nat)
    (esCfg : List (String × ExtSegNextHopInfo)) : AgentState :=
  { intFipPool4 :=
      if metadataAddr ∈ base4 then ipsetRemove metadataAddr base4 else base4
    intFipPool6 := base6
    intFipAlloc4 := []
    intFipAlloc6 := []
    esPortDict := []
    extSegNextHop := esCfg
    files := []
    uuidCounter := 0 }

/-! ### Basic lemmas about the dictionary and set primitives -/

theorem lookupA_insertA {α : Type} (l : List (String × α)) (k k' : String)
    (v : α) :
    lookupA (insertA l k v) k' = if k = k' then some v else lookupA l k' := by
  induction l with
  | nil => by_cases h : k = k' <;> simp [insertA, lookupA, h]
  | cons kv t ih =>
      obtain ⟨k0, v0⟩ := kv
      by_cases h0 : k0 = k
      · subst h0
        by_cases h : k0 = k' <;> simp [insertA, lookupA, h]
      · by_cases h : k0 = k'
        · subst h
          have hkk : ¬ k = k0 := fun he => h0 he.symm
          simp [insertA, lookupA, h0, hkk]
        · simp [insertA, lookupA, h0, h, ih]

theorem lookupA_eraseA {α : Type} (l : List (String × α)) (k k' : String) :
    lookupA (eraseA l k) k' = if k = k' then none else lookupA l k' := by
  induction l with
  | nil => by_cases h : k = k' <;> simp [eraseA, lookupA, h]
  | cons kv t ih =>
      obtain ⟨k0, v0⟩ := kv
      by_cases h0 : k0 = k
      · subst h0
        by_cases h : k0 = k'
        · subst h
          simpa [eraseA, lookupA] using ih
        · simp [eraseA, lookupA, h, ih]
      · by_cases h1 : k0 = k'
        · subst h1
          have hne : ¬ k = k0 := fun he => h0 he.symm
          simp [eraseA, lookupA, h0, hne]
        · simp [eraseA, lookupA, h0, h1, ih]

theorem mem_keysA {α : Type} (l : List (String × α)) (k : String) :
    k ∈ keysA l ↔ ∃ v, lookupA l k = some v := by
  induction l with
  | nil => simp [keysA, lookupA]
  | cons kv t ih =>
      obtain ⟨k0, v0⟩ := kv
      by_cases h : k0 = k
      · subst h
        simp [keysA, lookupA, List.mem_dedup] at ih ⊢
      · simp [keysA, lookupA, List.mem_dedup, h, Ne.symm h] at ih ⊢
        exact ih

theorem keysA_nodup {α : Type} (l : List (String × α)) : (keysA l).Nodup :=
  List.nodup_dedup _

theorem mem_addSet (x y : String) (l : List String) :
    x ∈ addSet y l ↔ x = y ∨ x ∈ l := by
  by_cases h : y ∈ l
  · simp [addSet, h]
    intro he; subst he; exact h
  · simp [addSet, h, or_comm]

theorem self_mem_addSet (y : String) (l : List String) : y ∈ addSet y l := by
  simp [mem_addSet]

theorem mem_removeSet (x y : String) (l : List String) :
    x ∈ removeSet y l ↔ x ∈ l ∧ x ≠ y := by
  simp [removeSet]

theorem removeSet_eq_nil (y : String) (l : List String) :
    removeSet y l = [] ↔ ∀ x ∈ l, x = y := by
  constructor
  · intro h x hx
    by_contra hne
    have : x ∈ removeSet y l := by simp [mem_removeSet, hx, hne]
    simp [h] at this
  · intro h
    simp only [removeSet, List.filter_eq_nil_iff]
    intro a ha
    simp [h a ha]

theorem mem_unionSet (x : String) (l1 l2 : List String) :
    x ∈ unionSet l1 l2 ↔ x ∈ l1 ∨ x ∈ l2 := by
  by_cases h : x ∈ l1 <;> simp [unionSet, h]

theorem mem_diffSet (x : String) (l1 l2 : List String) :
    x ∈ diffSet l1 l2 ↔ x ∈ l1 ∧ x ∉ l2 := by
  simp [diffSet]

theorem unionSet_nodup {l1 l2 : List String} (h1 : l1.Nodup)
    (h2 : l2.Nodup) : (unionSet l1 l2).Nodup := by
  refine List.Nodup.append h1 (h2.filter _) ?_
  intro a ha hb
  simp only [List.mem_filter, decide_eq_true_eq] at hb
  exact hb.2 ha

theorem diffSet_nodup {l1 : List String} (l2 : List String)
    (h1 : l1.Nodup) : (diffSet l1 l2).Nodup := h1.filter _

theorem mem_ipsetAdd (x a : Nat) (l : List Nat) :
    x ∈ ipsetAdd a l ↔ x = a ∨ x ∈ l := by
  by_cases h : a ∈ l
  · simp [ipsetAdd, h]
    intro he; subst he; exact h
  · simp [ipsetAdd, h]

theorem mem_ipsetRemove (x a : Nat) (l : List Nat) :
    x ∈ ipsetRemove a l ↔ x ∈ l ∧ x ≠ a := by
  simp [ipsetRemove]

theorem foldl_min_mem : ∀ (xs : List Nat) (x : Nat),
    xs.foldl min x ∈ x :: xs := by
  intro xs
  induction xs with
  | nil => intro x; simp
  | cons y ys ih =>
      intro x
      have h := ih (min x y)
      simp only [List.foldl_cons]
      rcases List.mem_cons.mp h with h1 | h1
      · rcases min_choice x y with hc | hc
        · rw [h1, hc]; exact List.mem_cons_self _ _
        · rw [h1, hc]
          exact List.mem_cons_of_mem _ (List.mem_cons_self _ _)
      · exact List.mem_cons_of_mem _ (List.mem_cons_of_mem _ h1)

theorem foldl_min_le : ∀ (xs : List Nat) (x : Nat),
    ∀ z ∈ x :: xs, xs.foldl min x ≤ z := by
  intro xs
  induction xs with
  | nil =>
      intro x z hz
      simp at hz
      simp [hz]
  | cons y ys ih =>
      intro x z hz
      simp only [List.foldl_cons]
      have hhead := ih (min x y) (min x y) (List.mem_cons_self _ _)
      rcases List.mem_cons.mp hz with h1 | h1
      · subst h1
        exact hhead.trans (min_le_left _ _)
      · rcases List.mem_cons.mp h1 with h2 | h2
        · subst h2
          exact hhead.trans (min_le_right _ _)
        · exact ih (min x y) z (List.mem_cons_of_mem _ h2)

theorem ipsetFirst_mem (l : List Nat) (f : Nat)
    (h : ipsetFirst l = some f) : f ∈ l := by
  match l with
  | [] => simp [ipsetFirst] at h
  | x :: xs =>
      simp only [ipsetFirst, Option.some.injEq] at h
      subst h
      exact foldl_min_mem xs x

theorem ipsetFirst_le (l : List Nat) (f : Nat)
    (h : ipsetFirst l = some f) : ∀ x ∈ l, f ≤ x := by
  match l with
  | [] => simp [ipsetFirst] at h
  | x :: xs =>
      simp only [ipsetFirst, Option.some.injEq] at h
      subst h
      exact foldl_min_le xs x

/-! ### State accessor lemmas -/

theorem pool_setPool (s : AgentState) (v w : IpVer) (l : List Nat) :
    (setPool s v l).pool w = if w = v then l else s.pool w := by
  cases v <;> cases w <;> simp [setPool, AgentState.pool]

theorem alloc_setPool (s : AgentState) (v w : IpVer) (l : List Nat) :
    (setPool s v l).alloc w = s.alloc w := by
  cases v <;> cases w <;> rfl

theorem alloc_setAlloc (s : AgentState) (v w : IpVer)
    (m : List (String × List (String × Nat))) :
    (setAlloc s v m).alloc w = if w = v then m else s.alloc w := by
  cases v <;> cases w <;> simp [setAlloc, AgentState.alloc]

theorem pool_setAlloc (s : AgentState) (v w : IpVer)
    (m : List (String × List (String × Nat))) :
    (setAlloc s v m).pool w = s.pool w := by
  cases v <;> cases w <;> rfl

@[simp] theorem setPool_esPortDict (s : AgentState) (v : IpVer)
    (l : List Nat) : (setPool s v l).esPortDict = s.esPortDict := by
  cases v <;> rfl

@[simp] theorem setPool_extSegNextHop (s : AgentState) (v : IpVer)
    (l : List Nat) : (setPool s v l).extSegNextHop = s.extSegNextHop := by
  cases v <;> rfl

@[simp] theorem setPool_files (s : AgentState) (v : IpVer)
    (l : List Nat) : (setPool s v l).files = s.files := by
  cases v <;> rfl

@[simp] theorem setPool_uuidCounter (s : AgentState) (v : IpVer)
    (l : List Nat) : (setPool s v l).uuidCounter = s.uuidCounter := by
  cases v <;> rfl

@[simp] theorem setAlloc_esPortDict (s : AgentState) (v : IpVer)
    (m : List (String × List (String × Nat))) :
    (setAlloc s v m).esPortDict = s.esPortDict := by
  cases v <;> rfl

@[simp] theorem setAlloc_extSegNextHop (s : AgentState) (v : IpVer)
    (m : List (String × List (String × Nat))) :
    (setAlloc s v m).extSegNextHop = s.extSegNextHop := by
  cases v <;> rfl

@[simp] theorem setAlloc_files (s : AgentState) (v : IpVer)
    (m : List (String × List (String × Nat))) :
    (setAlloc s v m).files = s.files := by
  cases v <;> rfl

@[simp] theorem setAlloc_uuidCounter (s : AgentState) (v : IpVer)
    (m : List (String × List (String × Nat))) :
    (setAlloc s v m).uuidCounter = s.uuidCounter := by
  cases v <;> rfl

theorem pool_congr {s1 s2 : AgentState} (v : IpVer)
    (h4 : s1.intFipPool4 = s2.intFipPool4)
    (h6 : s1.intFipPool6 = s2.intFipPool6) : s1.pool v = s2.pool v := by
  cases v <;> simp [AgentState.pool, h4, h6]

theorem alloc_congr {s1 s2 : AgentState} (v : IpVer)
    (h4 : s1.intFipAlloc4 = s2.intFipAlloc4)
    (h6 : s1.intFipAlloc6 = s2.intFipAlloc6) : s1.alloc v = s2.alloc v := by
  cases v <;> simp [AgentState.alloc, h4, h6]

theorem ipsetFirst_eq_none (l : List Nat) :
    ipsetFirst l = none ↔ l = [] := by
  cases l <;> simp [ipsetFirst]

/-! ### Frame lemmas -/

/-- The `es_name` fields of the segment registry (the keys under which host
endpoint records can be written). -/
def regEsNames (s : AgentState) : List String :=
  s.extSegNextHop.map (fun kv => kv.2.esName)

theorem lookupA_mem {α : Type} (l : List (String × α)) (k : String) (v : α)
    (h : lookupA l k = some v) : (k, v) ∈ l := by
  induction l with
  | nil => simp [lookupA] at h
  | cons kv t ih =>
      obtain ⟨k0, v0⟩ := kv
      by_cases h0 : k0 = k
      · subst h0
        simp [lookupA] at h
        simp [h]
      · simp [lookupA, h0] at h
        exact List.mem_cons_of_mem _ (ih h)

theorem map_insertA_of_lookup {α β : Type} (f : α → β)
    (l : List (String × α)) (k : String) (v v' : α)
    (h : lookupA l k = some v') (hf : f v = f v') :
    (insertA l k v).map (fun kv => f kv.2) = l.map (fun kv => f kv.2) := by
  induction l with
  | nil => simp [lookupA] at h
  | cons kv t ih =>
      obtain ⟨k0, v0⟩ := kv
      by_cases h0 : k0 = k
      · subst h0
        simp [lookupA] at h
        simp [insertA, hf, h]
      · simp [lookupA, h0] at h
        simp [insertA, h0, ih h]

theorem allocIntFip_frame (s : AgentState) (v : IpVer) (p es : String)
    (f : Nat) (s2 : AgentState) (h : allocIntFip s v p es = some (f, s2)) :
    s2.esPortDict = s.esPortDict ∧ s2.extSegNextHop = s.extSegNextHop ∧
      s2.files = s.files ∧ s2.uuidCounter = s.uuidCounter := by
  unfold allocIntFip at h
  cases hp : ipsetFirst (s.pool v) with
  | none => rw [hp] at h; simp at h
  | some fip =>
      rw [hp] at h
      simp only [Option.some.injEq, Prod.mk.injEq] at h
      rw [← h.2]
      simp

theorem genUuid_frame (s : AgentState) :
    (genUuid s).2.esPortDict = s.esPortDict ∧
      (genUuid s).2.extSegNextHop = s.extSegNextHop ∧
      (genUuid s).2.files = s.files ∧
      (∀ v, (genUuid s).2.pool v = s.pool v) ∧
      (∀ v, (genUuid s).2.alloc v = s.alloc v) := by
  refine ⟨rfl, rfl, rfl, fun v => ?_, fun v => ?_⟩ <;> cases v <;> rfl

@[simp] theorem addUse_st (a : DynAcc) (v : IpVer) (es : String) :
    (a.addUse v es).st = a.st := by
  cases v <;> rfl

@[simp] theorem addUse_entries (a : DynAcc) (v : IpVer) (es : String) :
    (a.addUse v es).entries = a.entries := by
  cases v <;> rfl

theorem processRuleIps_frame (portId es tenant epg nhIf nhMac : String) :
    ∀ (ips : List Ip) (acc : DynAcc),
      (∀ acc2, processRuleIps portId es tenant epg nhIf nhMac ips acc =
          Except.ok acc2 →
        acc2.st.esPortDict = acc.st.esPortDict ∧
        acc2.st.extSegNextHop = acc.st.extSegNextHop ∧
        acc2.st.files = acc.st.files) ∧
      (∀ st, processRuleIps portId es tenant epg nhIf nhMac ips acc =
          Except.error st →
        st.esPortDict = acc.st.esPortDict ∧
        st.extSegNextHop = acc.st.extSegNextHop ∧
        st.files = acc.st.files) := by
  intro ips
  induction ips with
  | nil =>
      intro acc
      constructor
      · intro acc2 h
        simp [processRuleIps] at h
        simp [← h]
      · intro st h
        simp [processRuleIps] at h
  | cons ip rest ih =>
      intro acc
      constructor
      · intro acc2 h
        simp only [processRuleIps] at h
        cases hfip : (match lookupA (getIntFips acc.st ip.ver portId) es with
          | some fip => some (fip, acc.st)
          | none => allocIntFip acc.st ip.ver portId es) with
        | none => rw [hfip] at h; simp at h
        | some p =>
            obtain ⟨fip, s1⟩ := p
            rw [hfip] at h
            simp only at h
            have hs1 : s1.esPortDict = acc.st.esPortDict ∧
                s1.extSegNextHop = acc.st.extSegNextHop ∧
                s1.files = acc.st.files := by
              cases hl : lookupA (getIntFips acc.st ip.ver portId) es with
              | some fip0 =>
                  rw [hl] at hfip
                  simp at hfip
                  rw [← hfip.2]
                  exact ⟨rfl, rfl, rfl⟩
              | none =>
                  rw [hl] at hfip
                  have := allocIntFip_frame acc.st ip.ver portId es fip s1
                    hfip
                  exact ⟨this.1, this.2.1, this.2.2.1⟩
            have := ((ih _).1 acc2 h)
            simp only [addUse_st, genUuid] at this
            exact ⟨this.1.trans hs1.1, this.2.1.trans hs1.2.1,
              this.2.2.trans hs1.2.2⟩
      · intro st h
        simp only [processRuleIps] at h
        cases hfip : (match lookupA (getIntFips acc.st ip.ver portId) es with
          | some fip => some (fip, acc.st)
          | none => allocIntFip acc.st ip.ver portId es) with
        | none =>
            rw [hfip] at h
            simp at h
            subst h
            cases hl : lookupA (getIntFips acc.st ip.ver portId) es with
            | some fip0 => rw [hl] at hfip; simp at hfip
            | none => exact ⟨rfl, rfl, rfl⟩
        | some p =>
            obtain ⟨fip, s1⟩ := p
            rw [hfip] at h
            simp only at h
            have hs1 : s1.esPortDict = acc.st.esPortDict ∧
                s1.extSegNextHop = acc.st.extSegNextHop ∧
                s1.files = acc.st.files := by
              cases hl : lookupA (getIntFips acc.st ip.ver portId) es with
              | some fip0 =>
                  rw [hl] at hfip
                  simp at hfip
                  rw [← hfip.2]
                  exact ⟨rfl, rfl, rfl⟩
              | none =>
                  rw [hl] at hfip
                  have := allocIntFip_frame acc.st ip.ver portId es fip s1
                    hfip
                  exact ⟨this.1, this.2.1, this.2.2.1⟩
            have := ((ih _).2 st h)
            simp only [addUse_st, genUuid] at this
            exact ⟨this.1.trans hs1.1, this.2.1.trans hs1.2.1,
              this.2.2.trans hs1.2.2⟩

theorem createHostEndpointFile_frame (tenant epgName : String)
    (nh : ExtSegNextHopInfo) (s : AgentState) :
    (createHostEndpointFile tenant epgName nh s).esPortDict = s.esPortDict ∧
    (createHostEndpointFile tenant epgName nh s).extSegNextHop =
      s.extSegNextHop ∧
    (∀ v, (createHostEndpointFile tenant epgName nh s).pool v = s.pool v) ∧
    (∀ v, (createHostEndpointFile tenant epgName nh s).alloc v = s.alloc v) ∧
    (∀ key, key ≠ nh.esName →
      lookupA (createHostEndpointFile tenant epgName nh s).files key =
        lookupA s.files key) := by
  refine ⟨rfl, rfl, fun v => by cases v <;> rfl, fun v => by cases v <;> rfl,
    fun key hk => ?_⟩
  show lookupA (insertA s.files nh.esName _) key = _
  rw [lookupA_insertA, if_neg (fun h => hk h.symm)]

theorem getNextHopInfoForEs_frame (env : Env) (s : AgentState)
    (es tenant epgName : String) :
    (getNextHopInfoForEs env s es tenant epgName).2.esPortDict =
      s.esPortDict ∧
    (∀ v, (getNextHopInfoForEs env s es tenant epgName).2.pool v =
      s.pool v) ∧
    (∀ v, (getNextHopInfoForEs env s es tenant epgName).2.alloc v =
      s.alloc v) ∧
    regEsNames (getNextHopInfoForEs env s es tenant epgName).2 =
      regEsNames s ∧
    (∀ key, key ∉ regEsNames s →
      lookupA (getNextHopInfoForEs env s es tenant epgName).2.files key =
        lookupA s.files key) := by
  unfold getNextHopInfoForEs
  cases hl : lookupA s.extSegNextHop es with
  | none => exact ⟨rfl, fun _ => rfl, fun _ => rfl, rfl, fun _ _ => rfl⟩
  | some nh =>
      by_cases hv : nh.isValid
      · simp only [hv, if_true]
        cases hi : nh.nextHopIface with
        | some i => exact ⟨rfl, fun _ => rfl, fun _ => rfl, rfl, fun _ _ => rfl⟩
        | none =>
            simp only
            set nh1 := (match env.snatSetup es with
              | some im =>
                  { nh with nextHopIface := some im.1,
                            nextHopMac := some im.2 }
              | none => nh) with hnh1
            have hname : nh1.esName = nh.esName := by
              rw [hnh1]; cases env.snatSetup es <;> rfl
            set s1 : AgentState :=
              { s with extSegNextHop := insertA s.extSegNextHop es nh1 }
              with hs1
            have hreg : regEsNames s1 = regEsNames s := by
              rw [hs1]
              show (insertA s.extSegNextHop es nh1).map _ = _
              exact map_insertA_of_lookup _ _ _ _ _ hl hname
            have hc := createHostEndpointFile_frame tenant epgName nh1 s1
            refine ⟨hc.1, fun v => (hc.2.2.1 v).trans (by rw [hs1]; rfl),
              fun v => (hc.2.2.2.1 v).trans (by rw [hs1]; rfl), ?_, ?_⟩
            · show regEsNames (createHostEndpointFile tenant epgName nh1 s1)
                = regEsNames s
              unfold regEsNames
              rw [hc.2.1]
              exact hreg
            · intro key hk
              have hk1 : key ≠ nh1.esName := by
                rw [hname]
                intro he
                apply hk
                unfold regEsNames
                exact List.mem_map.mpr ⟨(es, nh), lookupA_mem _ _ _ hl, he.symm⟩
              exact (hc.2.2.2.2 key hk1).trans (by rw [hs1])
      · simp only [hv, if_false]
        exact ⟨rfl, fun _ => rfl, fun _ => rfl, rfl, fun _ _ => rfl⟩

/-- The state relation preserved by the NAT-rule loop that the error-path
and no-write lemmas need. -/
def FrameRel (s2 s1 : AgentState) : Prop :=
  s2.esPortDict = s1.esPortDict ∧
  regEsNames s2 = regEsNames s1 ∧
  (∀ key, key ∉ regEsNames s1 →
    lookupA s2.files key = lookupA s1.files key)

theorem FrameRel.refl (s : AgentState) : FrameRel s s :=
  ⟨rfl, rfl, fun _ _ => rfl⟩

theorem FrameRel.trans {s3 s2 s1 : AgentState} (h32 : FrameRel s3 s2)
    (h21 : FrameRel s2 s1) : FrameRel s3 s1 := by
  refine ⟨h32.1.trans h21.1, h32.2.1.trans h21.2.1, fun key hk => ?_⟩
  rw [h32.2.2 key (by rw [h21.2.1]; exact hk)]
  exact h21.2.2 key hk

theorem frameRel_of_eq {s2 s1 : AgentState}
    (hd : s2.esPortDict = s1.esPortDict)
    (hr : s2.extSegNextHop = s1.extSegNextHop) (hf : s2.files = s1.files) :
    FrameRel s2 s1 := by
  refine ⟨hd, ?_, fun key _ => by rw [hf]⟩
  unfold regEsNames
  rw [hr]

theorem processOneRule_frame (env : Env) (portId appProfile : String)
    (ips : List Ip) (acc : DynAcc) (r : IpMappingRule) :
    (∀ acc2, processOneRule env portId appProfile ips acc r =
        Except.ok acc2 → FrameRel acc2.st acc.st) ∧
    (∀ st, processOneRule env portId appProfile ips acc r =
        Except.error st → FrameRel st acc.st) := by
  unfold processOneRule
  by_cases hval : ruleValid ips r
  · simp only [hval, if_true]
    have hnh := getNextHopInfoForEs_frame env acc.st
      (r.externalSegmentName.getD "") (r.natEpgTenant.getD "")
      (appProfile ++ "|" ++ r.natEpgName.getD "")
    set res := getNextHopInfoForEs env acc.st (r.externalSegmentName.getD "")
      (r.natEpgTenant.getD "")
      (appProfile ++ "|" ++ r.natEpgName.getD "") with hres
    have hrel : FrameRel res.2 acc.st := ⟨hnh.1, hnh.2.2.2.1, hnh.2.2.2.2⟩
    obtain ⟨⟨oIf, oMac⟩, s2⟩ := res
    cases oIf with
    | none =>
        constructor
        · intro acc2 h
          simp only [Except.ok.injEq] at h
          rw [← h]
          exact hrel
        · intro st h
          simp at h
    | some nhIf =>
        cases oMac with
        | none =>
            constructor
            · intro acc2 h
              simp only [Except.ok.injEq] at h
              rw [← h]
              exact hrel
            · intro st h
              simp at h
        | some nhMac =>
            constructor
            · intro acc2 h
              have hfr := (processRuleIps_frame portId
                (r.externalSegmentName.getD "") (r.natEpgTenant.getD "")
                (appProfile ++ "|" ++ r.natEpgName.getD "") nhIf nhMac ips
                { acc with st := s2 }).1 acc2 h
              exact (frameRel_of_eq hfr.1 hfr.2.1 hfr.2.2).trans hrel
            · intro st h
              have hfr := (processRuleIps_frame portId
                (r.externalSegmentName.getD "") (r.natEpgTenant.getD "")
                (appProfile ++ "|" ++ r.natEpgName.getD "") nhIf nhMac ips
                { acc with st := s2 }).2 st h
              exact (frameRel_of_eq hfr.1 hfr.2.1 hfr.2.2).trans hrel
  · constructor
    · intro acc2 h
      rw [if_neg hval] at h
      injection h with h2
      rw [← h2]
      exact FrameRel.refl _
    · intro st h
      rw [if_neg hval] at h
      simp at h

theorem processRules_frame (env : Env) (portId appProfile : String)
    (ips : List Ip) :
    ∀ (rules : List IpMappingRule) (acc : DynAcc),
      (∀ acc2, processRules env portId appProfile ips rules acc =
          Except.ok acc2 → FrameRel acc2.st acc.st) ∧
      (∀ st, processRules env portId appProfile ips rules acc =
          Except.error st → FrameRel st acc.st) := by
  intro rules
  induction rules with
  | nil =>
      intro acc
      constructor
      · intro acc2 h
        simp only [processRules, Except.ok.injEq] at h
        rw [← h]
        exact FrameRel.refl _
      · intro st h
        simp [processRules] at h
  | cons r rest ih =>
      intro acc
      have hstep := processOneRule_frame env portId appProfile ips acc r
      constructor
      · intro acc2 h
        simp only [processRules] at h
        cases hp : processOneRule env portId appProfile ips acc r with
        | error st2 => rw [hp] at h; simp at h
        | ok acc1 =>
            rw [hp] at h
            simp only at h
            exact ((ih acc1).1 acc2 h).trans (hstep.1 acc1 hp)
      · intro st h
        simp only [processRules] at h
        cases hp : processOneRule env portId appProfile ips acc r with
        | error st2 =>
            rw [hp] at h
            simp only [Except.error.injEq] at h
            rw [← h]
            exact hstep.2 st2 hp
        | ok acc1 =>
            rw [hp] at h
            simp only at h
            exact ((ih acc1).2 st h).trans (hstep.1 acc1 hp)

/-! ### Inversion lemmas for the success path -/

theorem fillIpMappingInfo_ok_inv (env : Env) (s : AgentState)
    (portId : String) (g : GbpDetails) (ips : List Ip)
    (mapping : EpMapping) (m : EpMapping) (st : AgentState)
    (ev : List String)
    (h : fillIpMappingInfo env s portId g ips mapping =
      (Except.ok (m, st), ev)) :
    ∃ acc, processRules env portId g.appProfileName ips g.ipMapping
        ⟨s, [], [], []⟩ = Except.ok acc ∧
      m = { mapping with ipAddressMapping :=
        mapping.ipAddressMapping ++ staticFipEntries g ++ acc.entries } ∧
      st = (fillPost portId acc).1 ∧
      ev = (fillPost portId acc).2 := by
  unfold fillIpMappingInfo at h
  cases hp : processRules env portId g.appProfileName ips g.ipMapping
      ⟨s, [], [], []⟩ with
  | error st2 =>
      rw [hp] at h
      simp at h
  | ok acc =>
      rw [hp] at h
      simp only [Prod.mk.injEq, Except.ok.injEq] at h
      exact ⟨acc, rfl, h.1.1.symm, h.1.2.symm, h.2.symm⟩

theorem mappingToFile_ok_inv (env : Env) (s : AgentState) (port : PortInfo)
    (g : GbpDetails) (ips : List Ip) (owner : String) (s2 : AgentState)
    (ev : List String) (hro : owner ≠ DEVICE_OWNER_ROUTER_INTF)
    (h : mappingToFile env s port g ips owner = (Except.ok s2, ev)) :
    ∃ m st, fillIpMappingInfo env s port.vifId g ips
        (baseMapping port g ips owner) = (Except.ok (m, st), ev) ∧
      s2 = { st with files := insertA st.files port.vifId m } := by
  unfold mappingToFile at h
  rw [if_neg hro] at h
  cases hf : fillIpMappingInfo env s port.vifId g ips
      (baseMapping port g ips owner) with
  | mk res ev0 =>
      rw [hf] at h
      cases res with
      | error st =>
          simp at h
      | ok ms =>
          simp only [Prod.mk.injEq, Except.ok.injEq] at h
          exact ⟨ms.1, ms.2, by rw [h.2], h.1.symm⟩

/-! ### Concrete example inputs shared by witnesses and counterexamples -/

/-- An external segment whose next hop is already resolved. -/
def exNhResolved : ExtSegNextHopInfo :=
  { esName := "ext1"
    ipStart := some ⟨IpVer.v4, 100⟩
    ipEnd := some ⟨IpVer.v4, 101⟩
    ipGateway := some "10.0.0.1/24"
    ip6Start := none
    ip6End := none
    ip6Gateway := none
    nextHopIface := some "uplink1"
    nextHopMac := some "aa:bb" }

/-- A SNAT collaborator whose setup calls fail. -/
def exEnv : Env := ⟨fun _ => none⟩

/-- A well-formed segment-NAT rule for segment `ext1`. -/
def exRule : IpMappingRule :=
  ⟨some "ext1", some "nat-tenant", some "nat-grp"⟩

/-- A binding with one segment-NAT rule and no static floating IPs. -/
def exGbp : GbpDetails :=
  { ptgTenant := "pt"
    appProfileName := "ap"
    endpointGroupName := "eg"
    promiscuousMode := false
    vmName := none
    floatingIp := []
    ipMapping := [exRule] }

def exPort : PortInfo := ⟨"tap1", "fa:16:3e:aa", "vif1"⟩

/-- A state whose v4 free pool is exhausted while segment `ext1` is
configured and resolved. -/
def exEmptyPoolState : AgentState :=
  { intFipPool4 := []
    intFipPool6 := []
    intFipAlloc4 := []
    intFipAlloc6 := []
    esPortDict := []
    extSegNextHop := [("ext1", exNhResolved)]
    files := []
    uuidCounter := 0 }

/-- A state with free v4 addresses and segment `ext1` resolved. -/
def exFreshState : AgentState :=
  { exEmptyPoolState with intFipPool4 := [7, 5, 9] }

/-! ### Claim C1 -/

/-- C1, counterexample: with an exhausted v4 free pool and one applicable
segment-NAT rule, the allocation failure does NOT merely skip that rule —
`mapping_to_file` aborts with the escaping `StopIteration` and the endpoint
descriptor is not written (no record for the port exists afterwards),
contradicting the claim that the write is never aborted. -/
theorem claim1_counterexample :
    exEmptyPoolState.intFipPool4 = [] ∧
    mappingToFile exEnv exEmptyPoolState exPort exGbp [⟨IpVer.v4, 11⟩]
      "compute:nova" = (Except.error exEmptyPoolState, []) ∧
    lookupA exEmptyPoolState.files exPort.vifId = none := by
  refine ⟨rfl, ?_, rfl⟩
  rfl

/-- C1 (amended): when the free pool of some IP version is empty as a
segment-NAT rule requests an allocation, the failure propagates as an
exception that aborts the whole reconciliation pass, and the endpoint
descriptor is not written: whenever `mapping_to_file` ends in the error
state, the port's persisted record is exactly what it was before the call
(the port id not being a configured segment name, under which host-endpoint
records are written). -/
theorem claim1_alloc_failure_aborts_write (env : Env) (s : AgentState)
    (port : PortInfo) (g : GbpDetails) (ips : List Ip) (owner : String)
    (st : AgentState) (ev : List String)
    (hk : port.vifId ∉ regEsNames s)
    (h : mappingToFile env s port g ips owner = (Except.error st, ev)) :
    lookupA st.files port.vifId = lookupA s.files port.vifId := by
  unfold mappingToFile at h
  by_cases hro : owner = DEVICE_OWNER_ROUTER_INTF
  · rw [if_pos hro] at h
    simp at h
  · rw [if_neg hro] at h
    unfold fillIpMappingInfo at h
    cases hp : processRules env port.vifId g.appProfileName ips g.ipMapping
        ⟨s, [], [], []⟩ with
    | error st2 =>
        rw [hp] at h
        simp only [Prod.mk.injEq, Except.error.injEq] at h
        rw [← h.1]
        exact ((processRules_frame env port.vifId g.appProfileName ips
          g.ipMapping ⟨s, [], [], []⟩).2 st2 hp).2.2 port.vifId hk
    | ok acc =>
        rw [hp] at h
        simp at h

/-- Witness for C1 (amended) at the concrete exhausted-pool input. -/
theorem claim1_alloc_failure_aborts_write_witness :
    (exPort.vifId ∉ regEsNames exEmptyPoolState) ∧
    lookupA exEmptyPoolState.files exPort.vifId =
      lookupA exEmptyPoolState.files exPort.vifId :=
  ⟨by decide,
    claim1_alloc_failure_aborts_write exEnv exEmptyPoolState exPort exGbp
      [⟨IpVer.v4, 11⟩] "compute:nova" exEmptyPoolState [] (by decide) rfl⟩

/-! ### Claim C8 -/

/-- C8: for a port whose device owner is the router-interface owner,
`mapping_to_file` returns immediately: the state is completely unchanged
(no descriptor write, no allocation, no usage or next-hop change) and no
teardown happens. -/
theorem claim8_router_interface_no_record (env : Env) (s : AgentState)
    (port : PortInfo) (g : GbpDetails) (ips : List Ip) (owner : String)
    (h : owner = DEVICE_OWNER_ROUTER_INTF) :
    mappingToFile env s port g ips owner = (Except.ok s, []) := by
  unfold mappingToFile
  rw [if_pos h]

/-- Witness for C8 at a concrete input. -/
theorem claim8_router_interface_no_record_witness :
    mappingToFile exEnv exFreshState exPort exGbp [⟨IpVer.v4, 11⟩]
      DEVICE_OWNER_ROUTER_INTF = (Except.ok exFreshState, []) :=
  claim8_router_interface_no_record exEnv exFreshState exPort exGbp
    [⟨IpVer.v4, 11⟩] DEVICE_OWNER_ROUTER_INTF rfl

/-! ### Claim C10 -/

/-- C10: on a non-empty free set, `_alloc_int_fip` hands out the
numerically smallest address of that version's free set (netaddr `IPSet`
iteration starts at the lowest address), so repeated allocations return
free addresses in ascending order. -/
theorem claim10_alloc_returns_smallest (s : AgentState) (v : IpVer)
    (portId es : String) (h : s.pool v ≠ []) :
    ∃ f s2, allocIntFip s v portId es = some (f, s2) ∧ f ∈ s.pool v ∧
      ∀ x ∈ s.pool v, f ≤ x := by
  cases hp : ipsetFirst (s.pool v) with
  | none => exact absurd ((ipsetFirst_eq_none _).mp hp) h
  | some f =>
      have he : allocIntFip s v portId es = some (f,
          setAlloc (setPool s v (ipsetRemove f (s.pool v))) v
            (insertA ((setPool s v (ipsetRemove f (s.pool v))).alloc v)
              portId
              (insertA
                (getIntFips (setPool s v (ipsetRemove f (s.pool v))) v
                  portId) es f))) := by
        unfold allocIntFip
        rw [hp]
      exact ⟨f, _, he, ipsetFirst_mem _ _ hp, ipsetFirst_le _ _ hp⟩

/-- Witness for C10: allocation from the pool `{7, 5, 9}` returns `5`. -/
theorem claim10_alloc_returns_smallest_witness :
    ∃ f s2, allocIntFip exFreshState IpVer.v4 "vif1" "ext1" =
        some (f, s2) ∧
      f ∈ exFreshState.pool IpVer.v4 ∧
      ∀ x ∈ exFreshState.pool IpVer.v4, f ≤ x :=
  claim10_alloc_returns_smallest exFreshState IpVer.v4 "vif1" "ext1"
    (by decide)

/-! ### Claim C9 -/

/-- C9: for every non-router port whose reconciliation succeeds, the
persisted record's `"ip"` list is the port's fixed IPs with the metadata
address `169.254.169.254` appended exactly when the device owner is the
DHCP owner. -/
theorem claim9_dhcp_metadata_ip (env : Env) (s : AgentState)
    (port : PortInfo) (g : GbpDetails) (ips : List Ip) (owner : String)
    (s2 : AgentState) (ev : List String)
    (hro : owner ≠ DEVICE_OWNER_ROUTER_INTF)
    (h : mappingToFile env s port g ips owner = (Except.ok s2, ev)) :
    ∃ d, lookupA s2.files port.vifId = some d ∧
      d.ip = ips ++ (if owner = DEVICE_OWNER_DHCP
        then [METADATA_DEFAULT_IP] else []) := by
  obtain ⟨m, st, hf, hs2⟩ := mappingToFile_ok_inv env s port g ips owner s2
    ev hro h
  obtain ⟨acc, hp, hm, _, _⟩ := fillIpMappingInfo_ok_inv env s port.vifId g
    ips (baseMapping port g ips owner) m st ev hf
  refine ⟨m, ?_, ?_⟩
  · rw [hs2]
    show lookupA (insertA st.files port.vifId m) port.vifId = some m
    rw [lookupA_insertA, if_pos rfl]
  · rw [hm]
    rfl

/-- The state after a successful DHCP-owner reconciliation at the concrete
example input (used by the C9 witness). -/
def exDhcpPost : AgentState :=
  match (mappingToFile exEnv exFreshState exPort exGbp [⟨IpVer.v4, 11⟩]
      DEVICE_OWNER_DHCP).1 with
  | Except.ok s => s
  | Except.error s => s

/-- Witness for C9 at a concrete DHCP-owned port. -/
theorem claim9_dhcp_metadata_ip_witness :
    ∃ d, lookupA exDhcpPost.files exPort.vifId = some d ∧
      d.ip = [⟨IpVer.v4, 11⟩] ++
        (if DEVICE_OWNER_DHCP = DEVICE_OWNER_DHCP
          then [METADATA_DEFAULT_IP] else []) :=
  claim9_dhcp_metadata_ip exEnv exFreshState exPort exGbp [⟨IpVer.v4, 11⟩]
    DEVICE_OWNER_DHCP exDhcpPost [] (by decide) rfl

/-! ### Claim C6 -/

theorem processOneRule_invalid (env : Env) (portId appProfile : String)
    (ips : List Ip) (acc : DynAcc) (r : IpMappingRule)
    (hr : ruleValid ips r = false) :
    processOneRule env portId appProfile ips acc r = Except.ok acc := by
  unfold processOneRule
  rw [if_neg (by simp [hr])]

theorem processRules_drop_invalid (env : Env) (portId appProfile : String)
    (ips : List Ip) (r : IpMappingRule) (post : List IpMappingRule)
    (hr : ruleValid ips r = false) :
    ∀ (pre : List IpMappingRule) (acc : DynAcc),
      processRules env portId appProfile ips (pre ++ r :: post) acc =
        processRules env portId appProfile ips (pre ++ post) acc := by
  intro pre
  induction pre with
  | nil =>
      intro acc
      show processRules env portId appProfile ips (r :: post) acc = _
      rw [processRules, processOneRule_invalid env portId appProfile ips acc
        r hr]
      rfl
  | cons r0 pre ih =>
      intro acc
      show processRules env portId appProfile ips (r0 :: (pre ++ r :: post))
          acc = processRules env portId appProfile ips
          (r0 :: (pre ++ post)) acc
      rw [processRules, processRules]
      cases processOneRule env portId appProfile ips acc r0 with
      | error st => rfl
      | ok acc1 => exact ih acc1

theorem fill_congr_rules (env : Env) (s : AgentState) (portId : String)
    (g : GbpDetails) (ips : List Ip) (mapping : EpMapping)
    (rules1 rules2 : List IpMappingRule)
    (h : processRules env portId g.appProfileName ips rules1
        ⟨s, [], [], []⟩ =
      processRules env portId g.appProfileName ips rules2 ⟨s, [], [], []⟩) :
    fillIpMappingInfo env s portId { g with ipMapping := rules1 } ips
        mapping =
      fillIpMappingInfo env s portId { g with ipMapping := rules2 } ips
        mapping := by
  unfold fillIpMappingInfo
  have h2 : processRules env portId
      ({ g with ipMapping := rules1 } : GbpDetails).appProfileName ips
      ({ g with ipMapping := rules1 } : GbpDetails).ipMapping
      ⟨s, [], [], []⟩ =
    processRules env portId
      ({ g with ipMapping := rules2 } : GbpDetails).appProfileName ips
      ({ g with ipMapping := rules2 } : GbpDetails).ipMapping
      ⟨s, [], [], []⟩ := h
  rw [h2]
  rfl

/-- C6: a segment-NAT rule that fails validation (missing external segment
name, NAT tenant or NAT group, counting empty strings as missing, or a port
without fixed IPs) is skipped silently: the whole reconciliation behaves
exactly as if the rule were absent — same error/success outcome, same
persisted descriptor (so only the valid rules' mapping entries appear),
same state and same teardown events. -/
theorem claim6_invalid_rule_skipped (env : Env) (s : AgentState)
    (port : PortInfo) (g : GbpDetails) (ips : List Ip) (owner : String)
    (r : IpMappingRule) (pre post : List IpMappingRule)
    (hr : ruleValid ips r = false) :
    mappingToFile env s port { g with ipMapping := pre ++ r :: post } ips
        owner =
      mappingToFile env s port { g with ipMapping := pre ++ post } ips
        owner := by
  unfold mappingToFile
  by_cases hro : owner = DEVICE_OWNER_ROUTER_INTF
  · rw [if_pos hro, if_pos hro]
  · rw [if_neg hro, if_neg hro]
    have hb : baseMapping port { g with ipMapping := pre ++ r :: post } ips
        owner = baseMapping port { g with ipMapping := pre ++ post } ips
        owner := rfl
    have hfill := fill_congr_rules env s port.vifId g ips
      (baseMapping port { g with ipMapping := pre ++ post } ips owner)
      (pre ++ r :: post) (pre ++ post)
      (processRules_drop_invalid env port.vifId g.appProfileName ips r post
        hr pre ⟨s, [], [], []⟩)
    rw [hb, hfill]

/-- A malformed rule: `nat_epg_tenant` missing (the spec's scenario). -/
def exBadRule : IpMappingRule := ⟨some "ext1", none, some "nat-grp"⟩

/-- Witness for C6: dropping the malformed rule placed between two copies
of the rule list leaves the reconciliation result unchanged. -/
theorem claim6_invalid_rule_skipped_witness :
    mappingToFile exEnv exFreshState exPort
        { exGbp with ipMapping := [exRule] ++ exBadRule :: [] }
        [⟨IpVer.v4, 11⟩] "compute:nova" =
      mappingToFile exEnv exFreshState exPort
        { exGbp with ipMapping := [exRule] ++ [] } [⟨IpVer.v4, 11⟩]
        "compute:nova" :=
  claim6_invalid_rule_skipped exEnv exFreshState exPort exGbp
    [⟨IpVer.v4, 11⟩] "compute:nova" exBadRule [exRule] [] (by decide)

/-! ### Characterization of release and allocation on the tables -/

theorem releaseEs_lookup_none (s : AgentState) (v : IpVer) (p es : String) :
    lookupA (getIntFips (releaseIntFipEs s v p es) v p) es = none := by
  unfold releaseIntFipEs
  split
  · rename_i hm
    simp [getIntFips, hm, lookupA]
  · rename_i m hm
    split
    · rename_i hes
      simp [getIntFips, hm, hes]
    · rename_i fip hes
      simp [getIntFips, alloc_setAlloc, lookupA_insertA, lookupA_eraseA]

theorem releaseEs_lookup_other (s : AgentState) (v : IpVer)
    (p es es2 : String) (h : es2 ≠ es) :
    lookupA (getIntFips (releaseIntFipEs s v p es) v p) es2 =
      lookupA (getIntFips s v p) es2 := by
  unfold releaseIntFipEs
  split
  · rfl
  · rename_i m hm
    split
    · rfl
    · rename_i fip hes
      simp only [getIntFips, alloc_setAlloc, if_pos rfl, lookupA_insertA,
        if_pos rfl, if_true, Option.getD_some, hm, lookupA_eraseA]
      rw [if_neg (show ¬ es = es2 from fun he => h he.symm)]

theorem releaseEs_other_port (s : AgentState) (v : IpVer) (p q es : String)
    (h : q ≠ p) :
    getIntFips (releaseIntFipEs s v p es) v q = getIntFips s v q := by
  unfold releaseIntFipEs
  split
  · rfl
  · rename_i m hm
    split
    · rfl
    · rename_i fip hes
      simp only [getIntFips, alloc_setAlloc, if_pos rfl, if_true,
        lookupA_insertA]
      rw [if_neg (show ¬ p = q from fun he => h he.symm)]

theorem releaseEs_other_ver (s : AgentState) (v w : IpVer) (p es : String)
    (h : w ≠ v) :
    (releaseIntFipEs s v p es).alloc w = s.alloc w ∧
      (releaseIntFipEs s v p es).pool w = s.pool w := by
  unfold releaseIntFipEs
  split
  · exact ⟨rfl, rfl⟩
  · rename_i m hm
    split
    · exact ⟨rfl, rfl⟩
    · rename_i fip hes
      constructor
      · rw [alloc_setAlloc, if_neg h, alloc_setPool]
      · rw [pool_setAlloc, pool_setPool, if_neg h]

theorem releaseEs_pool_mono (s : AgentState) (v w : IpVer) (p es : String)
    (x : Nat) (h : x ∈ s.pool w) :
    x ∈ (releaseIntFipEs s v p es).pool w := by
  unfold releaseIntFipEs
  split
  · exact h
  · rename_i m hm
    split
    · exact h
    · rename_i fip hes
      rw [pool_setAlloc, pool_setPool]
      by_cases hw : w = v
      · subst hw
        rw [if_pos rfl, mem_ipsetAdd]
        exact Or.inr h
      · rw [if_neg hw]
        exact h

theorem releaseEs_pool_self (s : AgentState) (v : IpVer) (p es : String)
    (f : Nat) (h : lookupA (getIntFips s v p) es = some f) :
    f ∈ (releaseIntFipEs s v p es).pool v := by
  unfold releaseIntFipEs
  split
  · rename_i hm
    rw [getIntFips, hm] at h
    simp [lookupA] at h
  · rename_i m hm
    rw [getIntFips, hm, Option.getD_some] at h
    split
    · rename_i hes
      rw [hes] at h
      simp at h
    · rename_i fip hes
      rw [hes] at h
      simp only [Option.some.injEq] at h
      subst h
      rw [pool_setAlloc, pool_setPool, if_pos rfl, mem_ipsetAdd]
      exact Or.inl rfl

theorem releaseEs_frame (s : AgentState) (v : IpVer) (p es : String) :
    (releaseIntFipEs s v p es).esPortDict = s.esPortDict ∧
      (releaseIntFipEs s v p es).extSegNextHop = s.extSegNextHop ∧
      (releaseIntFipEs s v p es).files = s.files ∧
      (releaseIntFipEs s v p es).uuidCounter = s.uuidCounter := by
  unfold releaseIntFipEs
  split
  · exact ⟨rfl, rfl, rfl, rfl⟩
  · rename_i m hm
    split
    · exact ⟨rfl, rfl, rfl, rfl⟩
    · rename_i fip hes
      simp

/-! ### Frames for the usage-index operations -/

theorem associate_frame (s : AgentState) (p : String) (ess : List String) :
    (∀ v, (associatePortWithEs s p ess).alloc v = s.alloc v) ∧
    (∀ v, (associatePortWithEs s p ess).pool v = s.pool v) ∧
    (associatePortWithEs s p ess).extSegNextHop = s.extSegNextHop ∧
    (associatePortWithEs s p ess).files = s.files ∧
    (associatePortWithEs s p ess).uuidCounter = s.uuidCounter := by
  induction ess generalizing s with
  | nil => exact ⟨fun _ => rfl, fun _ => rfl, rfl, rfl, rfl⟩
  | cons e t ih =>
      have h1 := ih
        { s with
            esPortDict := insertA s.esPortDict e
              (addSet p ((lookupA s.esPortDict e).getD [])) }
      exact ⟨fun v => (h1.1 v).trans (alloc_congr v rfl rfl),
        fun v => (h1.2.1 v).trans (pool_congr v rfl rfl),
        h1.2.2.1, h1.2.2.2.1, h1.2.2.2.2⟩

theorem dissociateStep_frame (p : String) (se : AgentState × List String)
    (es : String) (v : IpVer) :
    (dissociateStep p se es).1.alloc v = se.1.alloc v ∧
    (dissociateStep p se es).1.pool v = se.1.pool v ∧
    (dissociateStep p se es).1.uuidCounter = se.1.uuidCounter := by
  unfold dissociateStep
  split
  · exact ⟨rfl, rfl, rfl⟩
  · rename_i ports hl
    dsimp only
    by_cases hr : removeSet p ports = []
    · simp only [hr, if_true]
      cases hnh : lookupA se.1.extSegNextHop es with
      | none => exact ⟨alloc_congr v rfl rfl, pool_congr v rfl rfl, rfl⟩
      | some _ => exact ⟨alloc_congr v rfl rfl, pool_congr v rfl rfl, rfl⟩
    · simp only [if_neg hr]
      exact ⟨alloc_congr v rfl rfl, pool_congr v rfl rfl, trivial⟩

theorem dissociate_frame (s : AgentState) (p : String) (ess : List String) :
    (∀ v, (dissociatePortFromEs s p ess).1.alloc v = s.alloc v) ∧
    (∀ v, (dissociatePortFromEs s p ess).1.pool v = s.pool v) ∧
    (dissociatePortFromEs s p ess).1.uuidCounter = s.uuidCounter := by
  have main : ∀ (l : List String) (se : AgentState × List String),
      (∀ v, (l.foldl (dissociateStep p) se).1.alloc v = se.1.alloc v) ∧
      (∀ v, (l.foldl (dissociateStep p) se).1.pool v = se.1.pool v) ∧
      (l.foldl (dissociateStep p) se).1.uuidCounter = se.1.uuidCounter := by
    intro l
    induction l with
    | nil => exact fun se => ⟨fun _ => rfl, fun _ => rfl, rfl⟩
    | cons e t ih =>
        intro se
        have h2 := ih (dissociateStep p se e)
        exact ⟨fun v => (h2.1 v).trans (dissociateStep_frame p se e v).1,
          fun v => (h2.2.1 v).trans (dissociateStep_frame p se e v).2.1,
          h2.2.2.trans (dissociateStep_frame p se e IpVer.v4).2.2⟩
  exact main ess (s, [])

theorem getIntFips_congr {s1 s2 : AgentState} (v : IpVer) (p : String)
    (h : s1.alloc v = s2.alloc v) : getIntFips s1 v p = getIntFips s2 v p := by
  unfold getIntFips
  rw [h]

theorem allocIntFip_inv (s : AgentState) (v : IpVer) (p es : String)
    (f : Nat) (s2 : AgentState) (h : allocIntFip s v p es = some (f, s2)) :
    ipsetFirst (s.pool v) = some f ∧
    s2.pool v = ipsetRemove f (s.pool v) ∧
    (∀ w, w ≠ v → s2.pool w = s.pool w) ∧
    getIntFips s2 v p = insertA (getIntFips s v p) es f ∧
    (∀ w, w ≠ v → s2.alloc w = s.alloc w) ∧
    (∀ q, q ≠ p → getIntFips s2 v q = getIntFips s v q) ∧
    s2.alloc v = insertA (s.alloc v) p (insertA (getIntFips s v p) es f) := by
  unfold allocIntFip at h
  cases hp : ipsetFirst (s.pool v) with
  | none =>
      rw [hp] at h
      simp at h
  | some fip =>
      rw [hp] at h
      simp only [Option.some.injEq, Prod.mk.injEq] at h
      obtain ⟨hf, hs⟩ := h
      subst hs
      subst hf
      refine ⟨rfl, ?_, ?_, ?_, ?_, ?_, ?_⟩
      · rw [pool_setAlloc, pool_setPool, if_pos rfl]
      · intro w hw
        rw [pool_setAlloc, pool_setPool, if_neg hw]
      · unfold getIntFips
        rw [alloc_setAlloc, if_pos rfl, lookupA_insertA, if_pos rfl,
          Option.getD_some, alloc_setPool]
      · intro w hw
        rw [alloc_setAlloc, if_neg hw, alloc_setPool]
      · intro q hq
        unfold getIntFips
        rw [alloc_setAlloc, if_pos rfl, lookupA_insertA,
          if_neg (fun he => hq he.symm), alloc_setPool]
      · rw [alloc_setAlloc, if_pos rfl, alloc_setPool]
        have hgip : getIntFips (setPool s v (ipsetRemove fip (s.pool v))) v
            p = getIntFips s v p := getIntFips_congr v p (alloc_setPool _ _ _ _)
        rw [hgip]

theorem esU_congr {a b : DynAcc} (w : IpVer) (h4 : a.esU4 = b.esU4)
    (h6 : a.esU6 = b.esU6) : a.esU w = b.esU w := by
  cases w <;> simp [DynAcc.esU, h4, h6]

theorem ruleIpStep_esU (tenant epg nhIf nhMac es : String) (ip : Ip)
    (fip : Nat) (s1 : AgentState) (acc : DynAcc) (v : IpVer) :
    (ruleIpStep tenant epg nhIf nhMac es ip fip s1 acc).esU v =
      if v = ip.ver then addSet es (acc.esU v) else acc.esU v := by
  cases hv : ip.ver <;> cases v <;>
    simp [DynAcc.esU, ruleIpStep, hv]

theorem ruleIpStep_st (tenant epg nhIf nhMac es : String) (ip : Ip)
    (fip : Nat) (s1 : AgentState) (acc : DynAcc) :
    (ruleIpStep tenant epg nhIf nhMac es ip fip s1 acc).st =
      (genUuid s1).2 := rfl

theorem ruleIpStep_entries (tenant epg nhIf nhMac es : String) (ip : Ip)
    (fip : Nat) (s1 : AgentState) (acc : DynAcc) :
    (ruleIpStep tenant epg nhIf nhMac es ip fip s1 acc).entries =
      acc.entries ++
        [dynEntry tenant epg nhIf nhMac ip fip (genUuid s1).1] := rfl

theorem processRuleIps_untouched (portId es0 tenant epg nhIf nhMac : String) :
    ∀ (ips : List Ip) (acc acc2 : DynAcc),
      processRuleIps portId es0 tenant epg nhIf nhMac ips acc =
        Except.ok acc2 →
      ∀ (v : IpVer) (e : String), e ∉ acc2.esU v →
        lookupA (getIntFips acc2.st v portId) e =
          lookupA (getIntFips acc.st v portId) e ∧ e ∉ acc.esU v := by
  intro ips
  induction ips with
  | nil =>
      intro acc acc2 h v e he
      simp only [processRuleIps, Except.ok.injEq] at h
      rw [← h] at he ⊢
      exact ⟨rfl, he⟩
  | cons ip rest ih =>
      intro acc acc2 h v e he
      simp only [processRuleIps] at h
      cases hfip : (match lookupA (getIntFips acc.st ip.ver portId) es0 with
        | some fip => some (fip, acc.st)
        | none => allocIntFip acc.st ip.ver portId es0) with
      | none =>
          rw [hfip] at h
          simp at h
      | some p1 =>
          obtain ⟨fip, s1⟩ := p1
          rw [hfip] at h
          simp only at h
          have hrec := ih _ acc2 h v e he
          have hesU : e ∉ (if v = ip.ver then addSet es0 (acc.esU v)
              else acc.esU v) := by
            have h2 := hrec.2
            rw [ruleIpStep_esU] at h2
            exact h2
          have hs1lookup : lookupA (getIntFips s1 v portId) e =
              lookupA (getIntFips acc.st v portId) e := by
            cases hl : lookupA (getIntFips acc.st ip.ver portId) es0 with
            | some fip0 =>
                rw [hl] at hfip
                simp only [Option.some.injEq, Prod.mk.injEq] at hfip
                rw [← hfip.2]
            | none =>
                rw [hl] at hfip
                have hinv := allocIntFip_inv acc.st ip.ver portId es0 fip s1
                  hfip
                by_cases hv : v = ip.ver
                · subst hv
                  have hne : e ≠ es0 := by
                    rw [if_pos rfl] at hesU
                    intro hcon
                    exact hesU (hcon ▸ self_mem_addSet es0 (acc.esU ip.ver))
                  rw [hinv.2.2.2.1, lookupA_insertA,
                    if_neg (fun hcon => hne hcon.symm)]
                · rw [getIntFips_congr v portId
                    (hinv.2.2.2.2.1 v (fun hcon => hv hcon))]
          have hnotmem : e ∉ acc.esU v := by
            by_cases hv : v = ip.ver
            · rw [if_pos hv] at hesU
              intro hcon
              exact hesU ((mem_addSet e es0 _).mpr (Or.inr hcon))
            · rw [if_neg hv] at hesU
              exact hesU
          refine ⟨?_, hnotmem⟩
          rw [hrec.1, ruleIpStep_st]
          have hu : getIntFips ((genUuid s1).2) v portId =
              getIntFips s1 v portId :=
            getIntFips_congr v portId ((genUuid_frame s1).2.2.2.2 v)
          rw [hu]
          exact hs1lookup

theorem processOneRule_untouched (env : Env) (portId appProfile : String)
    (ips : List Ip) (acc : DynAcc) (r : IpMappingRule) (acc2 : DynAcc)
    (h : processOneRule env portId appProfile ips acc r = Except.ok acc2) :
    ∀ (v : IpVer) (e : String), e ∉ acc2.esU v →
      lookupA (getIntFips acc2.st v portId) e =
        lookupA (getIntFips acc.st v portId) e ∧ e ∉ acc.esU v := by
  intro v e he
  unfold processOneRule at h
  by_cases hval : ruleValid ips r
  · rw [if_pos hval] at h
    have hfr := getNextHopInfoForEs_frame env acc.st
      (r.externalSegmentName.getD "") (r.natEpgTenant.getD "")
      (appProfile ++ "|" ++ r.natEpgName.getD "")
    cases hres : getNextHopInfoForEs env acc.st
        (r.externalSegmentName.getD "") (r.natEpgTenant.getD "")
        (appProfile ++ "|" ++ r.natEpgName.getD "") with
    | mk pr s2 =>
        rw [hres] at h hfr
        have halloc : ∀ w, s2.alloc w = acc.st.alloc w := hfr.2.2.1
        obtain ⟨oIf, oMac⟩ := pr
        have hlk : lookupA (getIntFips s2 v portId) e =
            lookupA (getIntFips acc.st v portId) e := by
          rw [getIntFips_congr v portId (halloc v)]
        cases oIf with
        | none =>
            simp only [Except.ok.injEq] at h
            rw [← h] at he ⊢
            exact ⟨hlk, he⟩
        | some nhIf =>
            cases oMac with
            | none =>
                simp only [Except.ok.injEq] at h
                rw [← h] at he ⊢
                exact ⟨hlk, he⟩
            | some nhMac =>
                have hu := processRuleIps_untouched portId
                  (r.externalSegmentName.getD "") (r.natEpgTenant.getD "")
                  (appProfile ++ "|" ++ r.natEpgName.getD "") nhIf nhMac ips
                  { acc with st := s2 } acc2 h v e he
                refine ⟨hu.1.trans hlk, ?_⟩
                have h3 := hu.2
                rwa [esU_congr v rfl rfl] at h3
  · rw [if_neg hval] at h
    injection h with h2
    rw [← h2] at he ⊢
    exact ⟨rfl, he⟩

theorem processRules_untouched (env : Env) (portId appProfile : String)
    (ips : List Ip) :
    ∀ (rules : List IpMappingRule) (acc acc2 : DynAcc),
      processRules env portId appProfile ips rules acc = Except.ok acc2 →
      ∀ (v : IpVer) (e : String), e ∉ acc2.esU v →
        lookupA (getIntFips acc2.st v portId) e =
          lookupA (getIntFips acc.st v portId) e ∧ e ∉ acc.esU v := by
  intro rules
  induction rules with
  | nil =>
      intro acc acc2 h v e he
      simp only [processRules, Except.ok.injEq] at h
      rw [← h] at he ⊢
      exact ⟨rfl, he⟩
  | cons r rest ih =>
      intro acc acc2 h v e he
      simp only [processRules] at h
      cases hp : processOneRule env portId appProfile ips acc r with
      | error st =>
          rw [hp] at h
          simp at h
      | ok acc1 =>
          rw [hp] at h
          simp only at h
          have h2 := ih acc1 acc2 h v e he
          have h1 := processOneRule_untouched env portId appProfile ips acc
            r acc1 hp v e h2.2
          exact ⟨h2.1.trans h1.1, h1.2⟩

/-! ### The stale-allocation release loop -/

theorem relStep_lookup_stays_none (v : IpVer) (p : String)
    (used : List String) (s : AgentState) (k es : String)
    (h : lookupA (getIntFips s v p) es = none) :
    lookupA (getIntFips (relStep v p used s k) v p) es = none := by
  unfold relStep
  by_cases hk : k ∈ used
  · rw [if_pos hk]
    exact h
  · rw [if_neg hk]
    by_cases hke : k = es
    · subst hke
      exact releaseEs_lookup_none s v p k
    · rw [releaseEs_lookup_other s v p k es (fun hc => hke hc.symm)]
      exact h

theorem relFold_lookup_stays_none (v : IpVer) (p : String)
    (used : List String) :
    ∀ (keys : List String) (s : AgentState) (es : String),
      lookupA (getIntFips s v p) es = none →
      lookupA (getIntFips (keys.foldl (relStep v p used) s) v p) es =
        none := by
  intro keys
  induction keys with
  | nil => exact fun s es h => h
  | cons k t ih =>
      intro s es h
      exact ih _ es (relStep_lookup_stays_none v p used s k es h)

theorem relFold_pool_mono (v : IpVer) (p : String) (used : List String) :
    ∀ (keys : List String) (s : AgentState) (w : IpVer) (x : Nat),
      x ∈ s.pool w → x ∈ (keys.foldl (relStep v p used) s).pool w := by
  intro keys
  induction keys with
  | nil => exact fun s w x h => h
  | cons k t ih =>
      intro s w x h
      refine ih _ w x ?_
      unfold relStep
      by_cases hk : k ∈ used
      · rw [if_pos hk]
        exact h
      · rw [if_neg hk]
        exact releaseEs_pool_mono s v w p k x h

theorem relFold_target (v : IpVer) (p : String) (used : List String) :
    ∀ (keys : List String) (s : AgentState) (es : String) (f : Nat),
      es ∈ keys → es ∉ used →
      lookupA (getIntFips s v p) es = some f →
      lookupA (getIntFips (keys.foldl (relStep v p used) s) v p) es = none ∧
        f ∈ (keys.foldl (relStep v p used) s).pool v := by
  intro keys
  induction keys with
  | nil =>
      intro s es f hmem
      simp at hmem
  | cons k t ih =>
      intro s es f hmem hnu hl
      by_cases hke : k = es
      · subst hke
        have hstep : relStep v p used s k = releaseIntFipEs s v p k := by
          unfold relStep
          rw [if_neg hnu]
        show lookupA (getIntFips (t.foldl (relStep v p used)
            (relStep v p used s k)) v p) k = none ∧
          f ∈ (t.foldl (relStep v p used) (relStep v p used s k)).pool v
        rw [hstep]
        refine ⟨relFold_lookup_stays_none v p used t _ k
          (releaseEs_lookup_none s v p k), ?_⟩
        exact relFold_pool_mono v p used t _ v f
          (releaseEs_pool_self s v p k f hl)
      · have hmem2 : es ∈ t := by
          rcases List.mem_cons.mp hmem with hc | hc
          · exact absurd hc.symm hke
          · exact hc
        refine ih _ es f hmem2 hnu ?_
        unfold relStep
        by_cases hk : k ∈ used
        · rw [if_pos hk]
          exact hl
        · rw [if_neg hk]
          rw [releaseEs_lookup_other s v p k es (fun hc => hke hc.symm)]
          exact hl

theorem relFold_other_ver (v : IpVer) (p : String) (used : List String)
    (w : IpVer) (hw : w ≠ v) :
    ∀ (keys : List String) (s : AgentState),
      (keys.foldl (relStep v p used) s).alloc w = s.alloc w ∧
        (keys.foldl (relStep v p used) s).pool w = s.pool w := by
  intro keys
  induction keys with
  | nil => exact fun s => ⟨rfl, rfl⟩
  | cons k t ih =>
      intro s
      have hstep : (relStep v p used s k).alloc w = s.alloc w ∧
          (relStep v p used s k).pool w = s.pool w := by
        unfold relStep
        by_cases hk : k ∈ used
        · rw [if_pos hk]
          exact ⟨rfl, rfl⟩
        · rw [if_neg hk]
          exact releaseEs_other_ver s v w p k hw
      have h2 := ih (relStep v p used s k)
      exact ⟨h2.1.trans hstep.1, h2.2.trans hstep.2⟩

/-! ### Claim C5 -/

theorem releaseStaleVer_other_ver (v : IpVer) (p : String)
    (used : List String) (s : AgentState) (w : IpVer) (hw : w ≠ v) :
    (releaseStaleVer v p used s).alloc w = s.alloc w ∧
      (releaseStaleVer v p used s).pool w = s.pool w :=
  relFold_other_ver v p used w hw _ s

theorem releaseStaleVer_target (v : IpVer) (p : String)
    (used : List String) (s : AgentState) (es : String) (f : Nat)
    (hnu : es ∉ used) (hl : lookupA (getIntFips s v p) es = some f) :
    lookupA (getIntFips (releaseStaleVer v p used s) v p) es = none ∧
      f ∈ (releaseStaleVer v p used s).pool v :=
  relFold_target v p used _ s es f ((mem_keysA _ es).mpr ⟨f, hl⟩) hnu hl

/-- C5: during a reconciliation pass (successful NAT-rule loop followed by
the post phase), an existing pool allocation for `(port, segment)` of an IP
version whose segment is not in that version's in-use set
(`es_using_int_fip[ip_ver]`) of this pass is released: the allocation entry
is gone and the address is back in that version's free set — regardless of
whether the other version still uses the segment. -/
theorem claim5_stale_alloc_released_per_version (env : Env) (s : AgentState)
    (portId : String) (g : GbpDetails) (ips : List Ip) (acc : DynAcc)
    (v : IpVer) (es : String) (f : Nat)
    (hp : processRules env portId g.appProfileName ips g.ipMapping
      ⟨s, [], [], []⟩ = Except.ok acc)
    (hpre : lookupA (getIntFips s v portId) es = some f)
    (hnu : es ∉ acc.esU v) :
    lookupA (getIntFips (fillPost portId acc).1 v portId) es = none ∧
    f ∈ (fillPost portId acc).1.pool v := by
  have hloop := processRules_untouched env portId g.appProfileName ips
    g.ipMapping ⟨s, [], [], []⟩ acc hp v es hnu
  have hacc : lookupA (getIntFips acc.st v portId) es = some f := by
    rw [hloop.1]
    exact hpre
  have hassoc := associate_frame acc.st portId
    (unionSet acc.esU4 acc.esU6)
  set X := (dissociatePortFromEs
    (associatePortWithEs acc.st portId (unionSet acc.esU4 acc.esU6)) portId
    (diffSet (getEsForPort acc.st portId)
      (unionSet acc.esU4 acc.esU6))).1 with hX
  have hdiss := dissociate_frame
    (associatePortWithEs acc.st portId (unionSet acc.esU4 acc.esU6)) portId
    (diffSet (getEsForPort acc.st portId) (unionSet acc.esU4 acc.esU6))
  have hde : lookupA (getIntFips X v portId) es = some f := by
    rw [hX, getIntFips_congr v portId ((hdiss.1 v).trans (hassoc.1 v))]
    exact hacc
  have hfp : (fillPost portId acc).1 = releaseStaleVer IpVer.v6 portId
      acc.esU6 (releaseStaleVer IpVer.v4 portId acc.esU4 X) := rfl
  rw [hfp]
  cases v with
  | v4 =>
      have htgt := releaseStaleVer_target IpVer.v4 portId acc.esU4 X es f
        hnu hde
      have hother := releaseStaleVer_other_ver IpVer.v6 portId acc.esU6
        (releaseStaleVer IpVer.v4 portId acc.esU4 X) IpVer.v4
        (by intro hc; cases hc)
      constructor
      · rw [getIntFips_congr IpVer.v4 portId hother.1]
        exact htgt.1
      · rw [hother.2]
        exact htgt.2
  | v6 =>
      have hother := releaseStaleVer_other_ver IpVer.v4 portId acc.esU4 X
        IpVer.v6 (by intro hc; cases hc)
      have hmid : lookupA (getIntFips (releaseStaleVer IpVer.v4 portId
          acc.esU4 X) IpVer.v6 portId) es = some f := by
        rw [getIntFips_congr IpVer.v6 portId hother.1]
        exact hde
      exact releaseStaleVer_target IpVer.v6 portId acc.esU6
        (releaseStaleVer IpVer.v4 portId acc.esU4 X) es f hnu hmid

/-- A state in which port `vif1` holds a v4 allocation on `ext1` while the
pass at hand will use `ext1` only for v6. -/
def exC5State : AgentState :=
  { intFipPool4 := [7]
    intFipPool6 := [20, 21]
    intFipAlloc4 := [("vif1", [("ext1", 5)])]
    intFipAlloc6 := []
    esPortDict := [("ext1", ["vif1"])]
    extSegNextHop := [("ext1", exNhResolved)]
    files := []
    uuidCounter := 0 }

/-- The loop accumulator of the C5 witness pass (one v6 fixed IP). -/
def exC5Acc : DynAcc :=
  match processRules exEnv "vif1" exGbp.appProfileName [⟨IpVer.v6, 40⟩]
      exGbp.ipMapping ⟨exC5State, [], [], []⟩ with
  | Except.ok a => a
  | Except.error _ => ⟨exC5State, [], [], []⟩

/-- Witness for C5: the stale v4 allocation `(vif1, ext1) → 5` is released
while `ext1` stays in use for v6. -/
theorem claim5_stale_alloc_released_per_version_witness :
    lookupA (getIntFips (fillPost "vif1" exC5Acc).1 IpVer.v4 "vif1")
      "ext1" = none ∧
    5 ∈ (fillPost "vif1" exC5Acc).1.pool IpVer.v4 :=
  claim5_stale_alloc_released_per_version exEnv exC5State "vif1" exGbp
    [⟨IpVer.v6, 40⟩] exC5Acc IpVer.v4 "ext1" 5 rfl rfl (by decide)

/-! ### The all-lookups-hit run of the inner loop -/

theorem processRuleIps_hits (portId es tenant epg nhIf nhMac : String)
    (fOf : IpVer → Nat) :
    ∀ (ips : List Ip) (acc : DynAcc),
      (∀ ip ∈ ips, lookupA (getIntFips acc.st ip.ver portId) es =
        some (fOf ip.ver)) →
      ∃ acc2, processRuleIps portId es tenant epg nhIf nhMac ips acc =
          Except.ok acc2 ∧
        (∀ w, acc2.st.alloc w = acc.st.alloc w) ∧
        (∀ w, acc2.st.pool w = acc.st.pool w) ∧
        acc2.st.esPortDict = acc.st.esPortDict ∧
        acc2.st.extSegNextHop = acc.st.extSegNextHop ∧
        acc2.st.files = acc.st.files ∧
        acc2.entries.map (fun en => (en.mappedIp, en.floatingIp)) =
          acc.entries.map (fun en => (en.mappedIp, en.floatingIp)) ++
            ips.map (fun ip => (ip, (⟨ip.ver, fOf ip.ver⟩ : Ip))) ∧
        (∀ w e2, e2 ∈ acc2.esU w ↔
          (e2 ∈ acc.esU w ∨ (e2 = es ∧ ∃ ip ∈ ips, ip.ver = w))) := by
  intro ips
  induction ips with
  | nil =>
      intro acc hh
      refine ⟨acc, rfl, fun _ => rfl, fun _ => rfl, rfl, rfl, rfl,
        by simp, ?_⟩
      intro w e2
      simp
  | cons ip rest ih =>
      intro acc hh
      have hip := hh ip (List.mem_cons_self _ _)
      have hstep : processRuleIps portId es tenant epg nhIf nhMac
          (ip :: rest) acc = processRuleIps portId es tenant epg nhIf nhMac
          rest (ruleIpStep tenant epg nhIf nhMac es ip (fOf ip.ver)
            acc.st acc) := by
        simp only [processRuleIps, hip]
      have hrest : ∀ ip2 ∈ rest, lookupA (getIntFips
          (ruleIpStep tenant epg nhIf nhMac es ip (fOf ip.ver)
            acc.st acc).st ip2.ver portId) es = some (fOf ip2.ver) := by
        intro ip2 h2
        rw [ruleIpStep_st]
        rw [getIntFips_congr ip2.ver portId
          ((genUuid_frame acc.st).2.2.2.2 ip2.ver)]
        exact hh ip2 (List.mem_cons_of_mem _ h2)
      obtain ⟨acc2, he, ha, hp, hd, hx, hf, hent, hesu⟩ := ih
        (ruleIpStep tenant epg nhIf nhMac es ip (fOf ip.ver) acc.st acc)
        hrest
      refine ⟨acc2, hstep.trans he, ?_, ?_, ?_, ?_, ?_, ?_, ?_⟩
      · intro w
        rw [ha w, ruleIpStep_st]
        exact (genUuid_frame acc.st).2.2.2.2 w
      · intro w
        rw [hp w, ruleIpStep_st]
        exact (genUuid_frame acc.st).2.2.2.1 w
      · rw [hd, ruleIpStep_st]
        exact (genUuid_frame acc.st).1
      · rw [hx, ruleIpStep_st]
        exact (genUuid_frame acc.st).2.1
      · rw [hf, ruleIpStep_st]
        exact (genUuid_frame acc.st).2.2.1
      · rw [hent, ruleIpStep_entries]
        simp [dynEntry]
      · intro w e2
        rw [hesu w e2, ruleIpStep_esU]
        by_cases hw : w = ip.ver
        · rw [if_pos hw]
          subst hw
          rw [mem_addSet]
          constructor
          · rintro ((h1 | h1) | h1)
            · exact Or.inr ⟨h1, ip, List.mem_cons_self _ _, rfl⟩
            · exact Or.inl h1
            · exact Or.inr ⟨h1.1, by
                obtain ⟨ip2, hm, hv2⟩ := h1.2
                exact ⟨ip2, List.mem_cons_of_mem _ hm, hv2⟩⟩
          · rintro (h1 | ⟨h1, ip2, hm, hv2⟩)
            · exact Or.inl (Or.inr h1)
            · rcases List.mem_cons.mp hm with hc | hc
              · exact Or.inl (Or.inl h1)
              · exact Or.inr ⟨h1, ip2, hc, hv2⟩
        · rw [if_neg hw]
          constructor
          · rintro (h1 | h1)
            · exact Or.inl h1
            · exact Or.inr ⟨h1.1, by
                obtain ⟨ip2, hm, hv2⟩ := h1.2
                exact ⟨ip2, List.mem_cons_of_mem _ hm, hv2⟩⟩
          · rintro (h1 | ⟨h1, ip2, hm, hv2⟩)
            · exact Or.inl h1
            · rcases List.mem_cons.mp hm with hc | hc
              · exact absurd (hc ▸ hv2) (fun hcc => hw hcc.symm)
              · exact Or.inr ⟨h1, ip2, hc, hv2⟩

/-! ### Claim C4 -/

theorem getNextHopInfoForEs_resolved (env : Env) (s : AgentState)
    (es tenant epgName : String) (nh : ExtSegNextHopInfo) (i : String)
    (hl : lookupA s.extSegNextHop es = some nh) (hv : nh.isValid = true)
    (hi : nh.nextHopIface = some i) :
    getNextHopInfoForEs env s es tenant epgName =
      ((some i, nh.nextHopMac), s) := by
  simp [getNextHopInfoForEs, hl, hv, hi]

theorem relFold_id (v : IpVer) (p : String) (used : List String) :
    ∀ (keys : List String) (s : AgentState),
      (∀ k ∈ keys, k ∈ used) → keys.foldl (relStep v p used) s = s := by
  intro keys
  induction keys with
  | nil => exact fun s _ => rfl
  | cons k t ih =>
      intro s hk
      have hstep : relStep v p used s k = s := by
        unfold relStep
        rw [if_pos (hk k (List.mem_cons_self _ _))]
      show t.foldl (relStep v p used) (relStep v p used s k) = s
      rw [hstep]
      exact ih s (fun k2 h2 => hk k2 (List.mem_cons_of_mem _ h2))

theorem keysA_single {α : Type} (k : String) (x : α) :
    keysA [(k, x)] = [k] := by
  simp [keysA, List.dedup]

theorem unionSet_nil_left (l : List String) : unionSet [] l = l := by
  simp [unionSet]

theorem unionSet_nil_right (l : List String) : unionSet l [] = l := by
  simp [unionSet]

/-- C4: for a fresh port (no existing allocations) with fixed IPs all of
one version and a single applicable segment-NAT rule whose next hop is
already resolved, the pass allocates exactly one address — the pool's first
free address `f` — records it under `(port, segment)`, and maps every fixed
IP to that same floating IP. -/
theorem claim4_one_fip_per_port_and_segment (env : Env) (s : AgentState)
    (portId : String) (g : GbpDetails) (ips : List Ip) (v : IpVer)
    (es : String) (r : IpMappingRule) (nh : ExtSegNextHopInfo)
    (i mac : String) (f : Nat)
    (hes : es = r.externalSegmentName.getD "")
    (hrule : g.ipMapping = [r])
    (hval : ruleValid ips r = true)
    (hver : ∀ ip ∈ ips, ip.ver = v)
    (hnh : lookupA s.extSegNextHop es = some nh)
    (hvalid : nh.isValid = true)
    (hiface : nh.nextHopIface = some i)
    (hmac : nh.nextHopMac = some mac)
    (hfresh4 : lookupA (s.alloc IpVer.v4) portId = none)
    (hfresh6 : lookupA (s.alloc IpVer.v6) portId = none)
    (hpool : ipsetFirst (s.pool v) = some f) :
    ∃ acc, processRules env portId g.appProfileName ips g.ipMapping
        ⟨s, [], [], []⟩ = Except.ok acc ∧
      acc.entries.map (fun en => (en.mappedIp, en.floatingIp)) =
        ips.map (fun ip => (ip, (⟨v, f⟩ : Ip))) ∧
      (fillPost portId acc).1.pool v = ipsetRemove f (s.pool v) ∧
      (∀ w, w ≠ v → (fillPost portId acc).1.pool w = s.pool w) ∧
      lookupA (getIntFips (fillPost portId acc).1 v portId) es = some f := by
  subst hes
  cases hips : ips with
  | nil =>
      rw [hips] at hval
      simp [ruleValid] at hval
  | cons ip0 rest =>
  rw [hips] at hver hval
  subst hips
  have hv0 : ip0.ver = v := hver ip0 (List.mem_cons_self _ _)
  have hfreshAll : ∀ w, getIntFips s w portId = [] := by
    intro w
    cases w
    · unfold getIntFips
      rw [hfresh4]
      rfl
    · unfold getIntFips
      rw [hfresh6]
      rfl
  have hlk0 : lookupA (getIntFips s ip0.ver portId)
      (r.externalSegmentName.getD "") = none := by
    rw [hfreshAll]
    rfl
  have hal : ∃ s1, allocIntFip s ip0.ver portId
      (r.externalSegmentName.getD "") = some (f, s1) := by
    unfold allocIntFip
    rw [hv0, hpool]
    exact ⟨_, rfl⟩
  obtain ⟨s1, hal⟩ := hal
  rw [hv0] at hal
  have hinv := allocIntFip_inv s v portId (r.externalSegmentName.getD "")
    f s1 hal
  rw [← hv0] at hal
  have hres := getNextHopInfoForEs_resolved env s
    (r.externalSegmentName.getD "") (r.natEpgTenant.getD "")
    (g.appProfileName ++ "|" ++ r.natEpgName.getD "") nh i hnh hvalid
    hiface
  have hone : processOneRule env portId g.appProfileName (ip0 :: rest)
      ⟨s, [], [], []⟩ r = processRuleIps portId
      (r.externalSegmentName.getD "") (r.natEpgTenant.getD "")
      (g.appProfileName ++ "|" ++ r.natEpgName.getD "") i mac
      (ip0 :: rest) ⟨s, [], [], []⟩ := by
    unfold processOneRule
    rw [if_pos hval, hres, hmac]
  have hstep1 : processRuleIps portId (r.externalSegmentName.getD "")
      (r.natEpgTenant.getD "")
      (g.appProfileName ++ "|" ++ r.natEpgName.getD "") i mac
      (ip0 :: rest) ⟨s, [], [], []⟩ = processRuleIps portId
      (r.externalSegmentName.getD "") (r.natEpgTenant.getD "")
      (g.appProfileName ++ "|" ++ r.natEpgName.getD "") i mac rest
      (ruleIpStep (r.natEpgTenant.getD "")
        (g.appProfileName ++ "|" ++ r.natEpgName.getD "") i mac
        (r.externalSegmentName.getD "") ip0 f s1 ⟨s, [], [], []⟩) := by
    simp only [processRuleIps, hlk0, hal]
  have hhit : ∀ ip2 ∈ rest, lookupA (getIntFips
      (ruleIpStep (r.natEpgTenant.getD "")
        (g.appProfileName ++ "|" ++ r.natEpgName.getD "") i mac
        (r.externalSegmentName.getD "") ip0 f s1
        ⟨s, [], [], []⟩).st ip2.ver portId)
      (r.externalSegmentName.getD "") =
      some ((fun _ => f) ip2.ver) := by
    intro ip2 hm
    rw [ruleIpStep_st, getIntFips_congr ip2.ver portId
      ((genUuid_frame s1).2.2.2.2 ip2.ver), hver ip2
      (List.mem_cons_of_mem _ hm), hinv.2.2.2.1, lookupA_insertA,
      if_pos rfl]
  obtain ⟨acc2, he2, ha2, hp2, _, _, _, hent2, hesu2⟩ :=
    processRuleIps_hits portId (r.externalSegmentName.getD "")
      (r.natEpgTenant.getD "")
      (g.appProfileName ++ "|" ++ r.natEpgName.getD "") i mac
      (fun _ => f) rest
      (ruleIpStep (r.natEpgTenant.getD "")
        (g.appProfileName ++ "|" ++ r.natEpgName.getD "") i mac
        (r.externalSegmentName.getD "") ip0 f s1 ⟨s, [], [], []⟩) hhit
  have hrules : processRules env portId g.appProfileName (ip0 :: rest)
      g.ipMapping ⟨s, [], [], []⟩ = Except.ok acc2 := by
    rw [hrule]
    simp only [processRules, hone, hstep1, he2]
  -- the allocation tables and pools after the loop
  have hstep_alloc : ∀ w, (ruleIpStep (r.natEpgTenant.getD "")
      (g.appProfileName ++ "|" ++ r.natEpgName.getD "") i mac
      (r.externalSegmentName.getD "") ip0 f s1
      ⟨s, [], [], []⟩).st.alloc w = s1.alloc w := by
    intro w
    rw [ruleIpStep_st]
    exact (genUuid_frame s1).2.2.2.2 w
  have hstep_pool : ∀ w, (ruleIpStep (r.natEpgTenant.getD "")
      (g.appProfileName ++ "|" ++ r.natEpgName.getD "") i mac
      (r.externalSegmentName.getD "") ip0 f s1
      ⟨s, [], [], []⟩).st.pool w = s1.pool w := by
    intro w
    rw [ruleIpStep_st]
    exact (genUuid_frame s1).2.2.2.1 w
  have htabv : getIntFips acc2.st v portId =
      insertA (getIntFips s v portId) (r.externalSegmentName.getD "") f := by
    rw [getIntFips_congr v portId ((ha2 v).trans (hstep_alloc v))]
    exact hinv.2.2.2.1
  have htabv2 : getIntFips acc2.st v portId =
      [(r.externalSegmentName.getD "", f)] := by
    rw [htabv, hfreshAll]
    rfl
  have htabw : ∀ w, w ≠ v → getIntFips acc2.st w portId = [] := by
    intro w hw
    rw [getIntFips_congr w portId ((ha2 w).trans (hstep_alloc w)),
      getIntFips_congr w portId (hinv.2.2.2.2.1 w hw)]
    exact hfreshAll w
  have hpoolv : acc2.st.pool v = ipsetRemove f (s.pool v) := by
    rw [(hp2 v).trans (hstep_pool v)]
    exact hinv.2.1
  have hpoolw : ∀ w, w ≠ v → acc2.st.pool w = s.pool w := by
    intro w hw
    rw [(hp2 w).trans (hstep_pool w)]
    exact hinv.2.2.1 w hw
  -- the segment is in use for version v
  have hmemU : (r.externalSegmentName.getD "") ∈ acc2.esU v := by
    refine (hesu2 v (r.externalSegmentName.getD "")).mpr (Or.inl ?_)
    rw [ruleIpStep_esU, hv0, if_pos rfl]
    exact self_mem_addSet _ _
  have hmemUnion : (r.externalSegmentName.getD "") ∈
      unionSet acc2.esU4 acc2.esU6 := by
    rw [mem_unionSet]
    cases v
    · exact Or.inl hmemU
    · exact Or.inr hmemU
  -- old and new segment sets coincide on membership
  have holdEs : getEsForPort acc2.st portId =
      [r.externalSegmentName.getD ""] := by
    unfold getEsForPort
    cases v
    · rw [htabv2, htabw IpVer.v6 (by intro hc; cases hc), keysA_single]
      show unionSet [r.externalSegmentName.getD ""] (keysA []) = _
      rw [show keysA ([] : List (String × Nat)) = [] from rfl,
        unionSet_nil_right]
    · rw [htabv2, htabw IpVer.v4 (by intro hc; cases hc), keysA_single]
      show unionSet (keysA []) [r.externalSegmentName.getD ""] = _
      rw [show keysA ([] : List (String × Nat)) = [] from rfl]
      exact unionSet_nil_left _
  have hdiff : diffSet (getEsForPort acc2.st portId)
      (unionSet acc2.esU4 acc2.esU6) = [] := by
    rw [holdEs]
    simp [diffSet, List.filter_cons, hmemUnion]
  -- the post phase only touches the usage index
  have hA := associate_frame acc2.st portId (unionSet acc2.esU4 acc2.esU6)
  have hfp : (fillPost portId acc2).1 = releaseStaleVer IpVer.v6 portId
      acc2.esU6 (releaseStaleVer IpVer.v4 portId acc2.esU4
        (dissociatePortFromEs (associatePortWithEs acc2.st portId
          (unionSet acc2.esU4 acc2.esU6)) portId
          (diffSet (getEsForPort acc2.st portId)
            (unionSet acc2.esU4 acc2.esU6))).1) := rfl
  have hdissid : (dissociatePortFromEs (associatePortWithEs acc2.st portId
      (unionSet acc2.esU4 acc2.esU6)) portId
      (diffSet (getEsForPort acc2.st portId)
        (unionSet acc2.esU4 acc2.esU6))).1 =
      associatePortWithEs acc2.st portId
        (unionSet acc2.esU4 acc2.esU6) := by
    rw [hdiff]
    rfl
  have hAtab : ∀ w, getIntFips (associatePortWithEs acc2.st portId
      (unionSet acc2.esU4 acc2.esU6)) w portId =
      getIntFips acc2.st w portId := by
    intro w
    exact getIntFips_congr w portId (hA.1 w)
  have hrel4 : releaseStaleVer IpVer.v4 portId acc2.esU4
      (associatePortWithEs acc2.st portId
        (unionSet acc2.esU4 acc2.esU6)) =
      associatePortWithEs acc2.st portId
        (unionSet acc2.esU4 acc2.esU6) := by
    unfold releaseStaleVer
    apply relFold_id
    intro k hk
    rw [hAtab IpVer.v4] at hk
    cases v
    · rw [htabv2, keysA_single] at hk
      simp at hk
      rw [hk]
      exact hmemU
    · rw [htabw IpVer.v4 (by intro hc; cases hc)] at hk
      simp [keysA] at hk
  have hrel6 : releaseStaleVer IpVer.v6 portId acc2.esU6
      (associatePortWithEs acc2.st portId
        (unionSet acc2.esU4 acc2.esU6)) =
      associatePortWithEs acc2.st portId
        (unionSet acc2.esU4 acc2.esU6) := by
    unfold releaseStaleVer
    apply relFold_id
    intro k hk
    rw [hAtab IpVer.v6] at hk
    cases v
    · rw [htabw IpVer.v6 (by intro hc; cases hc)] at hk
      simp [keysA] at hk
    · rw [htabv2, keysA_single] at hk
      simp at hk
      rw [hk]
      exact hmemU
  have hfinal : (fillPost portId acc2).1 =
      associatePortWithEs acc2.st portId
        (unionSet acc2.esU4 acc2.esU6) := by
    rw [hfp, hdissid, hrel4, hrel6]
  refine ⟨acc2, hrules, ?_, ?_, ?_, ?_⟩
  · rw [hent2, ruleIpStep_entries]
    show ([] ++ [dynEntry (r.natEpgTenant.getD "")
      (g.appProfileName ++ "|" ++ r.natEpgName.getD "") i mac ip0 f
      ((genUuid s1).1)]).map _ ++ _ = _
    rw [List.map_cons]
    show [((dynEntry _ _ i mac ip0 f _).mappedIp,
      (dynEntry _ _ i mac ip0 f _).floatingIp)] ++ _ = _
    have h1 : (dynEntry (r.natEpgTenant.getD "")
        (g.appProfileName ++ "|" ++ r.natEpgName.getD "") i mac ip0 f
        ((genUuid s1).1)).mappedIp = ip0 := rfl
    have h2 : (dynEntry (r.natEpgTenant.getD "")
        (g.appProfileName ++ "|" ++ r.natEpgName.getD "") i mac ip0 f
        ((genUuid s1).1)).floatingIp = ⟨v, f⟩ := by
      show (⟨ip0.ver, f⟩ : Ip) = _
      rw [hv0]
    rw [h1, h2]
    have h3 : rest.map (fun ip => (ip, (⟨ip.ver, f⟩ : Ip))) =
        rest.map (fun ip => (ip, (⟨v, f⟩ : Ip))) := by
      apply List.map_congr_left
      intro ip2 hm
      rw [hver ip2 (List.mem_cons_of_mem _ hm)]
    rw [h3]
    rfl
  · rw [hfinal, (hA.2.1 v)]
    exact hpoolv
  · intro w hw
    rw [hfinal, (hA.2.1 w)]
    exact hpoolw w hw
  · rw [hfinal, getIntFips_congr v portId (hA.1 v), htabv2, lookupA,
      if_pos rfl]

/-- Witness for C4: two v4 fixed IPs under one `ext1` rule consume one
address (`5`, the pool minimum) and both map to it. -/
theorem claim4_one_fip_per_port_and_segment_witness :
    ∃ acc, processRules exEnv "vif1" exGbp.appProfileName
        [⟨IpVer.v4, 11⟩, ⟨IpVer.v4, 12⟩] exGbp.ipMapping
        ⟨exFreshState, [], [], []⟩ = Except.ok acc ∧
      acc.entries.map (fun en => (en.mappedIp, en.floatingIp)) =
        [⟨IpVer.v4, 11⟩, ⟨IpVer.v4, 12⟩].map
          (fun ip => (ip, (⟨IpVer.v4, 5⟩ : Ip))) ∧
      (fillPost "vif1" acc).1.pool IpVer.v4 =
        ipsetRemove 5 (exFreshState.pool IpVer.v4) ∧
      (∀ w, w ≠ IpVer.v4 →
        (fillPost "vif1" acc).1.pool w = exFreshState.pool w) ∧
      lookupA (getIntFips (fillPost "vif1" acc).1 IpVer.v4 "vif1")
        "ext1" = some 5 :=
  claim4_one_fip_per_port_and_segment exEnv exFreshState "vif1" exGbp
    [⟨IpVer.v4, 11⟩, ⟨IpVer.v4, 12⟩] IpVer.v4 "ext1" exRule exNhResolved
    "uplink1" "aa:bb" 5 rfl rfl (by decide) (by decide) rfl rfl rfl rfl
    rfl rfl rfl

/-! ### Claim C7: list lemmas for the pool invariant -/

theorem lookupA_none_iff {α : Type} (l : List (String × α)) (k : String) :
    lookupA l k = none ↔ k ∉ l.map Prod.fst := by
  induction l with
  | nil => simp [lookupA]
  | cons kv t ih =>
      obtain ⟨k0, v0⟩ := kv
      by_cases h0 : k0 = k
      · subst h0
        simp [lookupA]
      · simp [lookupA, h0, ih, Ne.symm h0]

theorem lookupA_split {α : Type} (l : List (String × α)) (k : String)
    (v : α) (h : lookupA l k = some v) :
    ∃ l1 l2, l = l1 ++ (k, v) :: l2 ∧ k ∉ l1.map Prod.fst ∧
      (∀ v2, insertA l k v2 = l1 ++ (k, v2) :: l2) := by
  induction l with
  | nil => simp [lookupA] at h
  | cons kv t ih =>
      obtain ⟨k0, v0⟩ := kv
      by_cases h0 : k0 = k
      · subst h0
        rw [lookupA, if_pos rfl] at h
        simp only [Option.some.injEq] at h
        subst h
        exact ⟨[], t, rfl, by simp, fun v2 => by
          simp [insertA]⟩
      · rw [lookupA, if_neg h0] at h
        obtain ⟨l1, l2, he, hk, hins⟩ := ih h
        refine ⟨(k0, v0) :: l1, l2, by rw [he]; rfl, ?_, fun v2 => ?_⟩
        · simp [hk, Ne.symm h0]
        · simp [insertA, h0, hins v2]

theorem insertA_not_found {α : Type} (l : List (String × α)) (k : String)
    (v : α) (h : lookupA l k = none) : insertA l k v = l ++ [(k, v)] := by
  induction l with
  | nil => simp [insertA]
  | cons kv t ih =>
      obtain ⟨k0, v0⟩ := kv
      by_cases h0 : k0 = k
      · subst h0
        rw [lookupA, if_pos rfl] at h
        simp at h
      · rw [lookupA, if_neg h0] at h
        simp [insertA, h0, ih h]

theorem eraseA_not_found {α : Type} (l : List (String × α)) (k : String)
    (h : k ∉ l.map Prod.fst) : eraseA l k = l := by
  induction l with
  | nil => rfl
  | cons kv t ih =>
      obtain ⟨k0, v0⟩ := kv
      simp only [List.map_cons, List.mem_cons] at h
      push_neg at h
      rw [eraseA, if_neg (fun hc => h.1 hc.symm), ih h.2]

theorem keys_eraseA_sublist {α : Type} (l : List (String × α))
    (k : String) : ((eraseA l k).map Prod.fst).Sublist
      (l.map Prod.fst) := by
  induction l with
  | nil => simp [eraseA]
  | cons kv t ih =>
      obtain ⟨k0, v0⟩ := kv
      by_cases h0 : k0 = k
      · rw [eraseA, if_pos h0]
        exact ih.trans (List.sublist_cons_self _ _)
      · rw [eraseA, if_neg h0]
        simpa using ih.cons₂ k0

theorem eraseA_sublist {α : Type} (l : List (String × α)) (k : String) :
    (eraseA l k).Sublist l := by
  induction l with
  | nil => simp [eraseA]
  | cons kv t ih =>
      obtain ⟨k0, v0⟩ := kv
      by_cases h0 : k0 = k
      · rw [eraseA, if_pos h0]
        exact ih.trans (List.sublist_cons_self _ _)
      · rw [eraseA, if_neg h0]
        exact ih.cons₂ _

/-- The multiset of allocated addresses of an allocation table. -/
def allocValsList : List (String × List (String × Nat)) → List Nat
  | [] => []
  | pe :: t => pe.2.map Prod.snd ++ allocValsList t

theorem allocValsList_append (l1 l2 : List (String × List (String × Nat))) :
    allocValsList (l1 ++ l2) = allocValsList l1 ++ allocValsList l2 := by
  induction l1 with
  | nil => rfl
  | cons pe t ih => simp [allocValsList, ih]

/-- The allocated addresses of one IP version (the values of
`int_fip_alloc[v]`). -/
def poolVals (s : AgentState) (v : IpVer) : List Nat :=
  allocValsList (s.alloc v)

theorem foldl_ipsetAdd_mem (x : Nat) :
    ∀ (L : List Nat) (pool : List Nat),
      x ∈ L.foldl (fun p f => ipsetAdd f p) pool ↔ x ∈ L ∨ x ∈ pool := by
  intro L
  induction L with
  | nil => simp
  | cons a t ih =>
      intro pool
      rw [List.foldl_cons, ih, mem_ipsetAdd]
      constructor
      · rintro (h | h | h)
        · exact Or.inl (List.mem_cons_of_mem _ h)
        · exact Or.inl (h ▸ List.mem_cons_self a t)
        · exact Or.inr h
      · rintro (h | h)
        · rcases List.mem_cons.mp h with hc | hc
          · exact Or.inr (Or.inl hc)
          · exact Or.inl hc
        · exact Or.inr (Or.inr h)

theorem foldl_ipsetAdd_nodup :
    ∀ (L : List Nat) (pool : List Nat), pool.Nodup →
      (L.foldl (fun p f => ipsetAdd f p) pool).Nodup := by
  intro L
  induction L with
  | nil => exact fun pool h => h
  | cons a t ih =>
      intro pool h
      rw [List.foldl_cons]
      refine ih _ ?_
      unfold ipsetAdd
      by_cases ha : a ∈ pool
      · rw [if_pos ha]
        exact h
      · rw [if_neg ha]
        exact List.Nodup.cons ha h

/-- The (strengthened, inductive) per-version pool invariant, over the
allocation table, the free set and the fixed base address space of one IP
version: well-formed dictionaries, no duplicates, free/allocated disjoint,
and free ∪ allocated = base. -/
def VerInv (alloc : List (String × List (String × Nat)))
    (free : List Nat) (base : List Nat) : Prop :=
  ((alloc.map Prod.fst).Nodup) ∧
  (∀ pe ∈ alloc, (pe.2.map Prod.fst).Nodup) ∧
  free.Nodup ∧
  (allocValsList alloc).Nodup ∧
  (∀ x ∈ allocValsList alloc, x ∉ free) ∧
  (∀ x ∈ free, x ∈ base) ∧
  (∀ x ∈ allocValsList alloc, x ∈ base) ∧
  (∀ x ∈ base, x ∈ free ∨ x ∈ allocValsList alloc)

instance (alloc : List (String × List (String × Nat))) (free base : List Nat) :
    Decidable (VerInv alloc free base) := by
  unfold VerInv
  infer_instance

theorem verInv_alloc (alloc : List (String × List (String × Nat)))
    (free base : List Nat) (p es : String) (f : Nat)
    (hi : VerInv alloc free base)
    (hlk : lookupA ((lookupA alloc p).getD []) es = none)
    (hf : ipsetFirst free = some f) :
    VerInv (insertA alloc p (insertA ((lookupA alloc p).getD []) es f))
      (ipsetRemove f free) base := by
  obtain ⟨w1, w2, n1, n2, d, u1, u2, u3⟩ := hi
  have hfmem : f ∈ free := ipsetFirst_mem free f hf
  have hfnv : f ∉ allocValsList alloc := fun hc => d f hc hfmem
  have hremNodup : (ipsetRemove f free).Nodup := n1.filter _
  have hremMem : ∀ x, x ∈ ipsetRemove f free ↔ x ∈ free ∧ x ≠ f :=
    fun x => mem_ipsetRemove x f free
  cases hp : lookupA alloc p with
  | none =>
      rw [hp] at hlk
      simp only [Option.getD_none] at hlk ⊢
      have hins : insertA alloc p (insertA ([] : List (String × Nat)) es f)
          = alloc ++ [(p, [(es, f)])] := insertA_not_found alloc p _ hp
      rw [hins]
      have hvals : allocValsList (alloc ++ [(p, [(es, f)])]) =
          allocValsList alloc ++ [f] := by
        rw [allocValsList_append]
        rfl
      have hmemv : ∀ x, x ∈ allocValsList (alloc ++ [(p, [(es, f)])]) ↔
          x ∈ allocValsList alloc ∨ x = f := by
        intro x
        rw [hvals]
        simp
      refine ⟨?_, ?_, hremNodup, ?_, ?_, ?_, ?_, ?_⟩
      · rw [List.map_append]
        refine List.Nodup.append w1 (by simp) ?_
        intro a ha hb
        simp at hb
        exact ((lookupA_none_iff alloc p).mp hp) (hb ▸ ha)
      · intro pe hpe
        rcases List.mem_append.mp hpe with hc | hc
        · exact w2 pe hc
        · simp at hc
          subst hc
          simp
      · rw [hvals]
        exact List.Nodup.append n2 (by simp) (by
          intro a ha hb
          simp at hb
          exact hfnv (hb ▸ ha))
      · intro x hx
        rw [hmemv] at hx
        rw [hremMem]
        rintro ⟨hxf, hxne⟩
        rcases hx with hc | hc
        · exact d x hc hxf
        · exact hxne hc
      · intro x hx
        exact u1 x ((hremMem x).mp hx).1
      · intro x hx
        rw [hmemv] at hx
        rcases hx with hc | hc
        · exact u2 x hc
        · exact hc ▸ u1 f hfmem
      · intro x hx
        rcases u3 x hx with hc | hc
        · by_cases hxf : x = f
          · exact Or.inr ((hmemv x).mpr (Or.inr hxf))
          · exact Or.inl ((hremMem x).mpr ⟨hc, hxf⟩)
        · exact Or.inr ((hmemv x).mpr (Or.inl hc))
  | some m =>
      rw [hp] at hlk
      simp only [Option.getD_some] at hlk ⊢
      obtain ⟨l1, l2, he, hk1, hins⟩ := lookupA_split alloc p m hp
      rw [hins (insertA m es f), insertA_not_found m es f hlk]
      have hvals0 : allocValsList alloc =
          allocValsList l1 ++ m.map Prod.snd ++ allocValsList l2 := by
        rw [he, allocValsList_append]
        simp [allocValsList]
      have hvals : allocValsList (l1 ++ (p, m ++ [(es, f)]) :: l2) =
          allocValsList l1 ++ (m.map Prod.snd ++ [f]) ++
            allocValsList l2 := by
        rw [allocValsList_append]
        simp [allocValsList]
      have hperm : List.Perm
          (allocValsList (l1 ++ (p, m ++ [(es, f)]) :: l2))
          (allocValsList alloc ++ [f]) := by
        rw [hvals, hvals0]
        have h1 : allocValsList l1 ++ (m.map Prod.snd ++ [f]) ++
            allocValsList l2 = allocValsList l1 ++ (m.map Prod.snd ++
              ([f] ++ allocValsList l2)) := by
          simp [List.append_assoc]
        have h3 : List.Perm (allocValsList l1 ++ (m.map Prod.snd ++
            ([f] ++ allocValsList l2))) (allocValsList l1 ++
            (m.map Prod.snd ++ (allocValsList l2 ++ [f]))) :=
          List.Perm.append_left _
            (List.Perm.append_left _ List.perm_append_comm)
        have h4 : allocValsList l1 ++ (m.map Prod.snd ++
            (allocValsList l2 ++ [f])) = allocValsList l1 ++
            m.map Prod.snd ++ allocValsList l2 ++ [f] := by
          simp [List.append_assoc]
        rw [h1, ← h4]
        exact h3
      have hvmem : ∀ x, x ∈ allocValsList (l1 ++ (p, m ++ [(es, f)]) :: l2)
          ↔ x ∈ allocValsList alloc ∨ x = f := by
        intro x
        rw [hperm.mem_iff]
        simp
      refine ⟨?_, ?_, hremNodup, ?_, ?_, ?_, ?_, ?_⟩
      · have hkeys : (l1 ++ (p, m ++ [(es, f)]) :: l2).map Prod.fst =
            alloc.map Prod.fst := by
          rw [he]
          simp
        rw [hkeys]
        exact w1
      · intro pe hpe
        rcases List.mem_append.mp hpe with hc | hc
        · exact w2 pe (by rw [he]; exact List.mem_append.mpr (Or.inl hc))
        · rcases List.mem_cons.mp hc with hc2 | hc2
          · subst hc2
            show ((m ++ [(es, f)]).map Prod.fst).Nodup
            rw [List.map_append]
            refine List.Nodup.append ?_ (by simp) ?_
            · exact w2 (p, m) (by
                rw [he]
                exact List.mem_append.mpr (Or.inr (List.mem_cons_self _ _)))
            · intro a ha hb
              simp at hb
              exact ((lookupA_none_iff m es).mp hlk) (hb ▸ ha)
          · exact w2 pe (by
              rw [he]
              exact List.mem_append.mpr
                (Or.inr (List.mem_cons_of_mem _ hc2)))
      · rw [hperm.nodup_iff]
        exact List.Nodup.append n2 (by simp) (by
          intro a ha hb
          simp at hb
          exact hfnv (hb ▸ ha))
      · intro x hx
        rw [hvmem] at hx
        rw [hremMem]
        rintro ⟨hxf, hxne⟩
        rcases hx with hc | hc
        · exact d x hc hxf
        · exact hxne hc
      · intro x hx
        exact u1 x ((hremMem x).mp hx).1
      · intro x hx
        rw [hvmem] at hx
        rcases hx with hc | hc
        · exact u2 x hc
        · exact hc ▸ u1 f hfmem
      · intro x hx
        rcases u3 x hx with hc | hc
        · by_cases hxf : x = f
          · exact Or.inr ((hvmem x).mpr (Or.inr hxf))
          · exact Or.inl ((hremMem x).mpr ⟨hc, hxf⟩)
        · exact Or.inr ((hvmem x).mpr (Or.inl hc))

theorem eraseA_append {α : Type} (l1 l2 : List (String × α)) (k : String) :
    eraseA (l1 ++ l2) k = eraseA l1 k ++ eraseA l2 k := by
  induction l1 with
  | nil => rfl
  | cons kv t ih =>
      obtain ⟨k0, v0⟩ := kv
      by_cases h0 : k0 = k
      · simp [eraseA, h0, ih]
      · simp [eraseA, h0, ih]

theorem ipsetAdd_of_not_mem (a : Nat) (l : List Nat) (h : a ∉ l) :
    ipsetAdd a l = a :: l := by
  unfold ipsetAdd
  rw [if_neg h]

theorem verInv_release_es (alloc : List (String × List (String × Nat)))
    (free base : List Nat) (p es : String)
    (m : List (String × Nat)) (fip : Nat)
    (hi : VerInv alloc free base)
    (hm : lookupA alloc p = some m)
    (hes : lookupA m es = some fip) :
    VerInv (insertA alloc p (eraseA m es)) (ipsetAdd fip free) base := by
  obtain ⟨w1, w2, n1, n2, d, u1, u2, u3⟩ := hi
  obtain ⟨l1, l2, he, hk1, hins⟩ := lookupA_split alloc p m hm
  have hmem_alloc : (p, m) ∈ alloc := by
    rw [he]
    exact List.mem_append.mpr (Or.inr (List.mem_cons_self _ _))
  have hmkeys : (m.map Prod.fst).Nodup := w2 (p, m) hmem_alloc
  obtain ⟨m1, m2, hem, hkm1, _⟩ := lookupA_split m es fip hes
  have hkm2 : es ∉ m2.map Prod.fst := by
    intro hc
    have : ¬ (m.map Prod.fst).Nodup := by
      rw [hem]
      simp only [List.map_append, List.map_cons]
      intro hnd
      rcases List.nodup_append.mp hnd with ⟨_, hnd2, _⟩
      rcases List.nodup_cons.mp hnd2 with ⟨hne, _⟩
      exact hne hc
    exact this hmkeys
  have herase : eraseA m es = m1 ++ m2 := by
    rw [hem, eraseA_append, eraseA_not_found m1 es hkm1]
    show m1 ++ eraseA ((es, fip) :: m2) es = _
    rw [eraseA, if_pos rfl, eraseA_not_found m2 es hkm2]
  have hfipv : fip ∈ allocValsList alloc := by
    rw [he, allocValsList_append]
    refine List.mem_append.mpr (Or.inr ?_)
    show fip ∈ m.map Prod.snd ++ allocValsList l2
    refine List.mem_append.mpr (Or.inl ?_)
    exact List.mem_map.mpr ⟨(es, fip), lookupA_mem m es fip hes, rfl⟩
  have hfipfree : fip ∉ free := d fip hfipv
  have hadd : ipsetAdd fip free = fip :: free :=
    ipsetAdd_of_not_mem fip free hfipfree
  -- the new value multiset
  have hvals0 : allocValsList alloc =
      allocValsList l1 ++ m.map Prod.snd ++ allocValsList l2 := by
    rw [he, allocValsList_append]
    simp [allocValsList]
  have hvalsm : m.map Prod.snd =
      m1.map Prod.snd ++ fip :: m2.map Prod.snd := by
    rw [hem]
    simp
  have hvals' : allocValsList (insertA alloc p (eraseA m es)) =
      allocValsList l1 ++ (m1.map Prod.snd ++ m2.map Prod.snd) ++
        allocValsList l2 := by
    rw [hins (eraseA m es), herase, allocValsList_append]
    simp [allocValsList]
  have hperm : List.Perm (allocValsList alloc)
      (fip :: allocValsList (insertA alloc p (eraseA m es))) := by
    rw [hvals0, hvalsm, hvals']
    have s1 : List.Perm
        (m1.map Prod.snd ++ fip :: m2.map Prod.snd)
        (fip :: (m1.map Prod.snd ++ m2.map Prod.snd)) := List.perm_middle
    have s2 : List.Perm
        (allocValsList l1 ++ (m1.map Prod.snd ++ fip :: m2.map Prod.snd)
          ++ allocValsList l2)
        (allocValsList l1 ++ (fip :: (m1.map Prod.snd ++ m2.map Prod.snd))
          ++ allocValsList l2) :=
      List.Perm.append_right _ (List.Perm.append_left _ s1)
    have e1 : allocValsList l1 ++ (fip :: (m1.map Prod.snd ++
        m2.map Prod.snd)) ++ allocValsList l2 = allocValsList l1 ++
        fip :: ((m1.map Prod.snd ++ m2.map Prod.snd) ++
          allocValsList l2) := by
      simp
    have s3 : List.Perm (allocValsList l1 ++
        fip :: ((m1.map Prod.snd ++ m2.map Prod.snd) ++ allocValsList l2))
        (fip :: (allocValsList l1 ++ ((m1.map Prod.snd ++ m2.map Prod.snd)
          ++ allocValsList l2))) := List.perm_middle
    have e2 : allocValsList l1 ++ ((m1.map Prod.snd ++ m2.map Prod.snd) ++
        allocValsList l2) = allocValsList l1 ++ (m1.map Prod.snd ++
          m2.map Prod.snd) ++ allocValsList l2 := by
      simp [List.append_assoc]
    rw [show fip :: (allocValsList l1 ++ (m1.map Prod.snd ++
      m2.map Prod.snd) ++ allocValsList l2) = fip :: (allocValsList l1 ++
      ((m1.map Prod.snd ++ m2.map Prod.snd) ++ allocValsList l2)) from by
        rw [e2]]
    refine s2.trans ?_
    rw [e1]
    exact s3
  have hnodup_cons : (fip :: allocValsList (insertA alloc p
      (eraseA m es))).Nodup := hperm.nodup_iff.mp n2
  have hfip_notin : fip ∉ allocValsList (insertA alloc p (eraseA m es)) :=
    (List.nodup_cons.mp hnodup_cons).1
  have hvals_nodup : (allocValsList (insertA alloc p
      (eraseA m es))).Nodup := (List.nodup_cons.mp hnodup_cons).2
  have hmemv : ∀ x, x ∈ allocValsList alloc ↔
      (x = fip ∨ x ∈ allocValsList (insertA alloc p (eraseA m es))) := by
    intro x
    rw [hperm.mem_iff]
    simp
  refine ⟨?_, ?_, ?_, hvals_nodup, ?_, ?_, ?_, ?_⟩
  · have hkeys : (insertA alloc p (eraseA m es)).map Prod.fst =
        alloc.map Prod.fst := by
      rw [hins (eraseA m es), he]
      simp
    rw [hkeys]
    exact w1
  · intro pe hpe
    rw [hins (eraseA m es)] at hpe
    rcases List.mem_append.mp hpe with hc | hc
    · exact w2 pe (by rw [he]; exact List.mem_append.mpr (Or.inl hc))
    · rcases List.mem_cons.mp hc with hc2 | hc2
      · subst hc2
        show ((eraseA m es).map Prod.fst).Nodup
        exact List.Sublist.nodup (keys_eraseA_sublist m es) hmkeys
      · exact w2 pe (by
          rw [he]
          exact List.mem_append.mpr (Or.inr (List.mem_cons_of_mem _ hc2)))
  · rw [hadd]
    exact List.Nodup.cons hfipfree n1
  · intro x hx
    rw [hadd]
    intro hc
    rcases List.mem_cons.mp hc with hc2 | hc2
    · exact hfip_notin (hc2 ▸ hx)
    · exact d x ((hmemv x).mpr (Or.inr hx)) hc2
  · intro x hx
    rw [hadd] at hx
    rcases List.mem_cons.mp hx with hc | hc
    · exact hc ▸ u2 fip hfipv
    · exact u1 x hc
  · intro x hx
    exact u2 x ((hmemv x).mpr (Or.inr hx))
  · intro x hx
    rcases u3 x hx with hc | hc
    · rw [hadd]
      exact Or.inl (List.mem_cons_of_mem _ hc)
    · rcases (hmemv x).mp hc with hc2 | hc2
      · rw [hadd]
        exact Or.inl (hc2 ▸ List.mem_cons_self _ _)
      · exact Or.inr hc2

theorem verInv_release_all (alloc : List (String × List (String × Nat)))
    (free base : List Nat) (p : String) (m : List (String × Nat))
    (hi : VerInv alloc free base)
    (hm : lookupA alloc p = some m) :
    VerInv (eraseA alloc p)
      ((m.map Prod.snd).foldl (fun pl f => ipsetAdd f pl) free) base := by
  obtain ⟨w1, w2, n1, n2, d, u1, u2, u3⟩ := hi
  obtain ⟨l1, l2, he, hk1, _⟩ := lookupA_split alloc p m hm
  have hk2 : p ∉ l2.map Prod.fst := by
    intro hc
    have : ¬ (alloc.map Prod.fst).Nodup := by
      rw [he]
      simp only [List.map_append, List.map_cons]
      intro hnd
      rcases List.nodup_append.mp hnd with ⟨_, hnd2, _⟩
      rcases List.nodup_cons.mp hnd2 with ⟨hne, _⟩
      exact hne hc
    exact this w1
  have herase : eraseA alloc p = l1 ++ l2 := by
    rw [he, eraseA_append, eraseA_not_found l1 p hk1]
    show l1 ++ eraseA ((p, m) :: l2) p = _
    rw [eraseA, if_pos rfl, eraseA_not_found l2 p hk2]
  have hvals0 : allocValsList alloc =
      (allocValsList l1 ++ m.map Prod.snd) ++ allocValsList l2 := by
    rw [he, allocValsList_append]
    simp [allocValsList, List.append_assoc]
  have hvals' : allocValsList (eraseA alloc p) =
      allocValsList l1 ++ allocValsList l2 := by
    rw [herase, allocValsList_append]
  have hsub : List.Sublist (allocValsList l1 ++ allocValsList l2)
      ((allocValsList l1 ++ m.map Prod.snd) ++ allocValsList l2) :=
    List.Sublist.append_right
      (List.sublist_append_left (allocValsList l1) (m.map Prod.snd)) _
  have hmem_sub : ∀ x, x ∈ allocValsList (eraseA alloc p) →
      x ∈ allocValsList alloc := by
    intro x hx
    rw [hvals0]
    rw [hvals'] at hx
    exact hsub.mem hx
  have hmemv : ∀ x, x ∈ m.map Prod.snd → x ∈ allocValsList alloc := by
    intro x hx
    rw [hvals0]
    exact List.mem_append.mpr (Or.inl (List.mem_append.mpr (Or.inr hx)))
  have hnd := n2
  rw [hvals0] at hnd
  rcases List.nodup_append.mp hnd with ⟨hnd1, hnd2, hdisj2⟩
  rcases List.nodup_append.mp hnd1 with ⟨hndV1, _, hdisj1⟩
  have hmemfree : ∀ x, x ∈ (m.map Prod.snd).foldl
      (fun pl f => ipsetAdd f pl) free ↔
      (x ∈ m.map Prod.snd ∨ x ∈ free) := fun x =>
    foldl_ipsetAdd_mem x (m.map Prod.snd) free
  refine ⟨?_, ?_, ?_, ?_, ?_, ?_, ?_, ?_⟩
  · have hkeys : List.Sublist ((eraseA alloc p).map Prod.fst)
        (alloc.map Prod.fst) := keys_eraseA_sublist alloc p
    exact hkeys.nodup w1
  · intro pe hpe
    exact w2 pe ((eraseA_sublist alloc p).mem hpe)
  · exact foldl_ipsetAdd_nodup (m.map Prod.snd) free n1
  · rw [hvals']
    exact hsub.nodup hnd
  · intro x hx hc
    rcases (hmemfree x).mp hc with hc2 | hc2
    · rw [hvals'] at hx
      rcases List.mem_append.mp hx with h1 | h1
      · exact hdisj1 h1 hc2
      · exact hdisj2 (List.mem_append.mpr (Or.inr hc2)) h1
    · exact d x (hmem_sub x hx) hc2
  · intro x hx
    rcases (hmemfree x).mp hx with hc | hc
    · exact u2 x (hmemv x hc)
    · exact u1 x hc
  · intro x hx
    exact u2 x (hmem_sub x hx)
  · intro x hx
    rcases u3 x hx with hc | hc
    · exact Or.inl ((hmemfree x).mpr (Or.inr hc))
    · rw [hvals0] at hc
      rcases List.mem_append.mp hc with h1 | h1
      · rcases List.mem_append.mp h1 with h2 | h2
        · refine Or.inr ?_
          rw [hvals']
          exact List.mem_append.mpr (Or.inl h2)
        · exact Or.inl ((hmemfree x).mpr (Or.inl h2))
      · refine Or.inr ?_
        rw [hvals']
        exact List.mem_append.mpr (Or.inr h1)

/-- The configured address space of one IP version: the v4 list always
has the metadata address excluded (`__init__` removes it from the pool),
the v6 list is taken as configured. -/
def baseSpace (base4 base6 : List Nat) : IpVer → List Nat
  | IpVer.v4 => ipsetRemove metadataAddr base4
  | IpVer.v6 => base6

/-- The pool invariant on the whole agent state: `VerInv` for each version
against that version's configured space. -/
def StrongInv (base4 base6 : List Nat) (s : AgentState) : Prop :=
  ∀ v, VerInv (s.alloc v) (s.pool v) (baseSpace base4 base6 v)

/-- The pool invariant exactly as the specification words it: an address in
the allocation table is absent from the free set and vice versa, free ∪
allocated is the configured space minus the reserved metadata address (for
v4; the whole space for v6), and the metadata address is never free or
allocated. -/
def ClaimInv (base4 base6 : List Nat) (s : AgentState) : Prop :=
  (∀ v x, x ∈ poolVals s v → x ∉ s.pool v) ∧
  (∀ v x, x ∈ s.pool v → x ∉ poolVals s v) ∧
  (∀ x, (x ∈ s.pool IpVer.v4 ∨ x ∈ poolVals s IpVer.v4) ↔
    (x ∈ base4 ∧ x ≠ metadataAddr)) ∧
  (∀ x, (x ∈ s.pool IpVer.v6 ∨ x ∈ poolVals s IpVer.v6) ↔ x ∈ base6) ∧
  metadataAddr ∉ s.pool IpVer.v4 ∧
  metadataAddr ∉ poolVals s IpVer.v4

theorem verInv_empty (free base : List Nat) (h1 : free.Nodup)
    (h2 : ∀ x ∈ free, x ∈ base) (h3 : ∀ x ∈ base, x ∈ free) :
    VerInv [] free base := by
  refine ⟨List.nodup_nil, ?_, h1, List.nodup_nil, ?_, h2, ?_, ?_⟩
  · intro pe hpe
    cases hpe
  · intro x hx
    cases hx
  · intro x hx
    cases hx
  · intro x hx
    exact Or.inl (h3 x hx)

theorem strongInv_init (base4 base6 : List Nat)
    (esCfg : List (String × ExtSegNextHopInfo))
    (hb4 : base4.Nodup) (hb6 : base6.Nodup) :
    StrongInv base4 base6 (initState base4 base6 esCfg) := by
  intro v
  cases v with
  | v4 =>
      show VerInv [] (if metadataAddr ∈ base4 then
        ipsetRemove metadataAddr base4 else base4)
        (ipsetRemove metadataAddr base4)
      by_cases hmeta : metadataAddr ∈ base4
      · rw [if_pos hmeta]
        exact verInv_empty _ _ (hb4.filter _) (fun x hx => hx)
          (fun x hx => hx)
      · rw [if_neg hmeta]
        refine verInv_empty _ _ hb4 ?_ ?_
        · intro x hx
          exact (mem_ipsetRemove x _ _).mpr
            ⟨hx, fun he => hmeta (he ▸ hx)⟩
        · intro x hx
          exact ((mem_ipsetRemove x _ _).mp hx).1
  | v6 =>
      show VerInv [] base6 base6
      exact verInv_empty _ _ hb6 (fun x hx => hx) (fun x hx => hx)

theorem strongInv_alloc (base4 base6 : List Nat) (s : AgentState)
    (v : IpVer) (p es : String) (f : Nat) (s2 : AgentState)
    (hi : StrongInv base4 base6 s)
    (hg : lookupA (getIntFips s v p) es = none)
    (h : allocIntFip s v p es = some (f, s2)) :
    StrongInv base4 base6 s2 := by
  obtain ⟨h1, h2, h3, _, h5, _, h7⟩ := allocIntFip_inv s v p es f s2 h
  intro w
  by_cases hw : w = v
  · subst hw
    rw [h7, h2]
    exact verInv_alloc (s.alloc w) (s.pool w) _ p es f (hi w) hg h1
  · rw [h5 w hw, h3 w hw]
    exact hi w

theorem strongInv_releaseEs (base4 base6 : List Nat) (s : AgentState)
    (v : IpVer) (p es : String) (hi : StrongInv base4 base6 s) :
    StrongInv base4 base6 (releaseIntFipEs s v p es) := by
  unfold releaseIntFipEs
  split
  · exact hi
  · rename_i m hm
    split
    · exact hi
    · rename_i fip hes
      intro w
      by_cases hw : w = v
      · subst hw
        simp only [alloc_setAlloc, pool_setAlloc, pool_setPool, if_pos]
        exact verInv_release_es (s.alloc w) (s.pool w) _ p es m fip
          (hi w) hm hes
      · simp only [alloc_setAlloc, alloc_setPool, pool_setAlloc,
          pool_setPool, if_neg hw]
        exact hi w

theorem strongInv_releaseAll (base4 base6 : List Nat) (s : AgentState)
    (v : IpVer) (p : String) (hi : StrongInv base4 base6 s) :
    StrongInv base4 base6 (releaseIntFipAll s v p) := by
  unfold releaseIntFipAll
  split
  · exact hi
  · rename_i m hm
    intro w
    by_cases hw : w = v
    · subst hw
      simp only [alloc_setAlloc, pool_setAlloc, pool_setPool, if_pos]
      exact verInv_release_all (s.alloc w) (s.pool w) _ p m (hi w) hm
    · simp only [alloc_setAlloc, alloc_setPool, pool_setAlloc,
        pool_setPool, if_neg hw]
      exact hi w

theorem strongInv_claimInv (base4 base6 : List Nat) (s : AgentState)
    (hi : StrongInv base4 base6 s) : ClaimInv base4 base6 s := by
  have d4 := hi IpVer.v4
  have d6 := hi IpVer.v6
  refine ⟨?_, ?_, ?_, ?_, ?_, ?_⟩
  · intro v x hx
    exact (hi v).2.2.2.2.1 x hx
  · intro v x hx hc
    exact (hi v).2.2.2.2.1 x hc hx
  · intro x
    constructor
    · intro hx
      refine (mem_ipsetRemove x metadataAddr base4).mp ?_
      rcases hx with hc | hc
      · exact d4.2.2.2.2.2.1 x hc
      · exact d4.2.2.2.2.2.2.1 x hc
    · intro hx
      rcases d4.2.2.2.2.2.2.2 x
        ((mem_ipsetRemove x metadataAddr base4).mpr hx) with hc | hc
      · exact Or.inl hc
      · exact Or.inr hc
  · intro x
    constructor
    · intro hx
      rcases hx with hc | hc
      · exact d6.2.2.2.2.2.1 x hc
      · exact d6.2.2.2.2.2.2.1 x hc
    · intro hx
      rcases d6.2.2.2.2.2.2.2 x hx with hc | hc
      · exact Or.inl hc
      · exact Or.inr hc
  · intro hc
    have := d4.2.2.2.2.2.1 metadataAddr hc
    exact ((mem_ipsetRemove _ _ _).mp this).2 rfl
  · intro hc
    have := d4.2.2.2.2.2.2.1 metadataAddr hc
    exact ((mem_ipsetRemove _ _ _).mp this).2 rfl

/-- C7: the address-pool invariant — for each IP version an address in the
allocation table is absent from the free set and vice versa, free plus
allocated equals the configured space minus the reserved metadata address,
and 169.254.169.254 is never in the v4 free set or allocated — holds after
`__init__` (for duplicate-free configured pools) and is preserved by
`_alloc_int_fip` (under the guard with which `_fill_ip_mapping_info` calls
it: no existing allocation for that (port, segment)), by
`_release_int_fip(ver, port, es)` and by `_release_int_fip(ver, port)`. -/
theorem claim7_addresspool_invariant (base4 base6 : List Nat)
    (esCfg : List (String × ExtSegNextHopInfo))
    (hb4 : base4.Nodup) (hb6 : base6.Nodup) :
    StrongInv base4 base6 (initState base4 base6 esCfg) ∧
    (∀ s v p es f s2, StrongInv base4 base6 s →
      lookupA (getIntFips s v p) es = none →
      allocIntFip s v p es = some (f, s2) →
      StrongInv base4 base6 s2) ∧
    (∀ s v p es, StrongInv base4 base6 s →
      StrongInv base4 base6 (releaseIntFipEs s v p es)) ∧
    (∀ s v p, StrongInv base4 base6 s →
      StrongInv base4 base6 (releaseIntFipAll s v p)) ∧
    (∀ s, StrongInv base4 base6 s → ClaimInv base4 base6 s) := by
  refine ⟨strongInv_init base4 base6 esCfg hb4 hb6, ?_, ?_, ?_, ?_⟩
  · intro s v p es f s2 hi hg h
    exact strongInv_alloc base4 base6 s v p es f s2 hi hg h
  · intro s v p es hi
    exact strongInv_releaseEs base4 base6 s v p es hi
  · intro s v p hi
    exact strongInv_releaseAll base4 base6 s v p hi
  · intro s hi
    exact strongInv_claimInv base4 base6 s hi

/-- C7 witness: the theorem applied at a concrete configuration. -/
theorem claim7_addresspool_invariant_witness :
    StrongInv [metadataAddr, 10, 11] [1000]
      (initState [metadataAddr, 10, 11] [1000] []) :=
  (claim7_addresspool_invariant [metadataAddr, 10, 11] [1000] []
    (by decide) (by decide)).1

/-- The values of `es_port_dict` are never empty sets (ports are only ever
added via `add`, and a set that empties is removed from the dict). -/
def Inv1 (s : AgentState) : Prop :=
  ∀ es l, lookupA s.esPortDict es = some l → l ≠ []

/-- The port id a call is about. -/
def callVif : AgentCall → String
  | AgentCall.recon port _ _ _ => port.vifId
  | AgentCall.cleanup vifId => vifId

theorem addSet_ne_nil (x : String) (l : List String) : addSet x l ≠ [] :=
  List.ne_nil_of_mem (self_mem_addSet x l)

theorem associate_cons (s : AgentState) (p a : String) (t : List String) :
    associatePortWithEs s p (a :: t) =
      associatePortWithEs
        { s with
            esPortDict := insertA s.esPortDict a
              (addSet p ((lookupA s.esPortDict a).getD [])) } p t := rfl

theorem associate_lookup_other (s : AgentState) (p : String)
    (ess : List String) (es : String) (h : es ∉ ess) :
    lookupA (associatePortWithEs s p ess).esPortDict es =
      lookupA s.esPortDict es := by
  induction ess generalizing s with
  | nil => rfl
  | cons a t ih =>
      rw [associate_cons,
        ih _ (fun hc => h (List.mem_cons_of_mem _ hc))]
      have hne : ¬ a = es := fun he => h (by
        rw [← he]
        exact List.mem_cons_self a t)
      show lookupA (insertA s.esPortDict a _) es = _
      rw [lookupA_insertA, if_neg hne]

theorem associate_usage_mem (s : AgentState) (p : String)
    (ess : List String) (es : String) (h : es ∈ ess) :
    p ∈ usage (associatePortWithEs s p ess) es := by
  induction ess generalizing s with
  | nil => cases h
  | cons a t ih =>
      rw [associate_cons]
      by_cases ht : es ∈ t
      · exact ih _ ht
      · have ha : a = es := by
          rcases List.mem_cons.mp h with hc | hc
          · exact hc.symm
          · exact absurd hc ht
        unfold usage
        rw [associate_lookup_other _ _ _ _ ht]
        show p ∈ (lookupA (insertA s.esPortDict a _) es).getD []
        rw [lookupA_insertA, if_pos ha, Option.getD_some]
        exact self_mem_addSet p _

theorem associate_inv1 (s : AgentState) (p : String) (ess : List String)
    (h : Inv1 s) : Inv1 (associatePortWithEs s p ess) := by
  induction ess generalizing s with
  | nil => exact h
  | cons a t ih =>
      rw [associate_cons]
      refine ih _ ?_
      intro es l hl
      have hl2 : lookupA (insertA s.esPortDict a
          (addSet p ((lookupA s.esPortDict a).getD []))) es = some l := hl
      rw [lookupA_insertA] at hl2
      by_cases ha : a = es
      · rw [if_pos ha] at hl2
        injection hl2 with hl3
        rw [← hl3]
        exact addSet_ne_nil p _
      · rw [if_neg ha] at hl2
        exact h es l hl2

theorem relStep_dict_frame (v : IpVer) (p : String) (used : List String)
    (s2 : AgentState) (es : String) :
    (relStep v p used s2 es).esPortDict = s2.esPortDict ∧
    (relStep v p used s2 es).extSegNextHop = s2.extSegNextHop ∧
    (relStep v p used s2 es).files = s2.files := by
  unfold relStep
  by_cases h : es ∈ used
  · rw [if_pos h]
    exact ⟨rfl, rfl, rfl⟩
  · rw [if_neg h]
    have hf := releaseEs_frame s2 v p es
    exact ⟨hf.1, hf.2.1, hf.2.2.1⟩

theorem relFold_dict_frame (v : IpVer) (p : String) (used : List String) :
    ∀ (l : List String) (s : AgentState),
      (l.foldl (relStep v p used) s).esPortDict = s.esPortDict ∧
      (l.foldl (relStep v p used) s).extSegNextHop = s.extSegNextHop ∧
      (l.foldl (relStep v p used) s).files = s.files := by
  intro l
  induction l with
  | nil => exact fun s => ⟨rfl, rfl, rfl⟩
  | cons a t ih =>
      intro s
      have h1 := relStep_dict_frame v p used s a
      have h2 := ih (relStep v p used s a)
      exact ⟨h2.1.trans h1.1, h2.2.1.trans h1.2.1, h2.2.2.trans h1.2.2⟩

theorem releaseStaleVer_dict_frame (v : IpVer) (p : String)
    (used : List String) (s : AgentState) :
    (releaseStaleVer v p used s).esPortDict = s.esPortDict ∧
    (releaseStaleVer v p used s).extSegNextHop = s.extSegNextHop ∧
    (releaseStaleVer v p used s).files = s.files :=
  relFold_dict_frame v p used _ s

theorem releaseAll_frame (s : AgentState) (v : IpVer) (p : String) :
    (releaseIntFipAll s v p).esPortDict = s.esPortDict ∧
    (releaseIntFipAll s v p).extSegNextHop = s.extSegNextHop ∧
    (releaseIntFipAll s v p).files = s.files := by
  unfold releaseIntFipAll
  split
  · exact ⟨rfl, rfl, rfl⟩
  · rename_i m hm
    simp

theorem dissociateStep_miss (p : String) (se : AgentState × List String)
    (es : String) (h : lookupA se.1.esPortDict es = none) :
    dissociateStep p se es = se := by
  unfold dissociateStep
  rw [h]

theorem dissociateStep_hit_empty (p : String)
    (se : AgentState × List String) (es : String)
    (ports : List String)
    (h : lookupA se.1.esPortDict es = some ports)
    (hr : removeSet p ports = []) :
    lookupA (dissociateStep p se es).1.esPortDict es = none ∧
    (∀ nh, lookupA se.1.extSegNextHop es = some nh →
      lookupA (dissociateStep p se es).1.extSegNextHop es =
        some { nh with nextHopIface := none, nextHopMac := none }) ∧
    lookupA (dissociateStep p se es).1.files es = none ∧
    (dissociateStep p se es).2 = se.2 ++ [es] := by
  unfold dissociateStep
  rw [h]
  simp only [hr, if_true]
  cases hnh : lookupA se.1.extSegNextHop es with
  | none =>
      simp only [hnh]
      refine ⟨?_, ?_, ?_, by trivial⟩
      · rw [lookupA_eraseA, if_pos rfl]
      · intro nh hn
        cases hn
      · rw [lookupA_eraseA, if_pos rfl]
  | some nh =>
      simp only [hnh]
      refine ⟨?_, ?_, ?_, by trivial⟩
      · rw [lookupA_eraseA, if_pos rfl]
      · intro nh2 hn
        injection hn with hn2
        rw [← hn2]
        show lookupA (insertA se.1.extSegNextHop es _) es = _
        rw [lookupA_insertA, if_pos rfl]
      · rw [lookupA_eraseA, if_pos rfl]

theorem dissociateStep_hit_nonempty (p : String)
    (se : AgentState × List String) (es : String)
    (ports : List String)
    (h : lookupA se.1.esPortDict es = some ports)
    (hr : removeSet p ports ≠ []) :
    lookupA (dissociateStep p se es).1.esPortDict es =
      some (removeSet p ports) ∧
    lookupA (dissociateStep p se es).1.extSegNextHop es =
      lookupA se.1.extSegNextHop es ∧
    lookupA (dissociateStep p se es).1.files es =
      lookupA se.1.files es ∧
    (dissociateStep p se es).2 = se.2 := by
  unfold dissociateStep
  rw [h]
  simp only [hr, if_false]
  refine ⟨?_, by trivial, by trivial, by trivial⟩
  show lookupA (insertA se.1.esPortDict es _) es = _
  rw [lookupA_insertA, if_pos rfl]

theorem dissociateStep_other_key (p : String)
    (se : AgentState × List String) (es es2 : String) (h : es2 ≠ es) :
    lookupA (dissociateStep p se es).1.esPortDict es2 =
      lookupA se.1.esPortDict es2 ∧
    lookupA (dissociateStep p se es).1.extSegNextHop es2 =
      lookupA se.1.extSegNextHop es2 ∧
    lookupA (dissociateStep p se es).1.files es2 =
      lookupA se.1.files es2 ∧
    ((es2 ∈ (dissociateStep p se es).2) ↔ es2 ∈ se.2) ∧
    List.count es2 (dissociateStep p se es).2 = List.count es2 se.2 := by
  have hne : ¬ es = es2 := fun he => h he.symm
  unfold dissociateStep
  split
  · exact ⟨rfl, rfl, rfl, Iff.rfl, rfl⟩
  · rename_i ports hl
    dsimp only
    by_cases hr : removeSet p ports = []
    · simp only [hr, if_true]
      cases hnh : lookupA se.1.extSegNextHop es with
      | none =>
          simp only [hnh]
          refine ⟨?_, by trivial, ?_, ?_, ?_⟩
          · rw [lookupA_eraseA, if_neg hne]
          · rw [lookupA_eraseA, if_neg hne]
          · rw [List.mem_append]
            simp [h]
          · rw [List.count_append]
            simp [List.count_cons, h]
      | some nh =>
          simp only [hnh]
          refine ⟨?_, ?_, ?_, ?_, ?_⟩
          · rw [lookupA_eraseA, if_neg hne]
          · show lookupA (insertA se.1.extSegNextHop es _) es2 = _
            rw [lookupA_insertA, if_neg hne]
          · rw [lookupA_eraseA, if_neg hne]
          · rw [List.mem_append]
            simp [h]
          · rw [List.count_append]
            simp [List.count_cons, h]
    · simp only [hr, if_false]
      refine ⟨?_, by trivial, by trivial, by trivial, by trivial⟩
      show lookupA (insertA se.1.esPortDict es _) es2 = _
      rw [lookupA_insertA, if_neg hne]

theorem dissociateStep_inv1 (p : String) (se : AgentState × List String)
    (es : String) (h : Inv1 se.1) : Inv1 (dissociateStep p se es).1 := by
  unfold dissociateStep
  split
  · exact h
  · rename_i ports hl
    dsimp only
    by_cases hr : removeSet p ports = []
    · simp only [hr, if_true]
      cases hnh : lookupA se.1.extSegNextHop es with
      | none =>
          simp only [hnh]
          intro es2 l hl2
          have hl3 : lookupA (eraseA se.1.esPortDict es) es2 = some l := hl2
          rw [lookupA_eraseA] at hl3
          by_cases he : es = es2
          · rw [if_pos he] at hl3
            cases hl3
          · rw [if_neg he] at hl3
            exact h es2 l hl3
      | some nh =>
          simp only [hnh]
          intro es2 l hl2
          have hl3 : lookupA (eraseA se.1.esPortDict es) es2 = some l := hl2
          rw [lookupA_eraseA] at hl3
          by_cases he : es = es2
          · rw [if_pos he] at hl3
            cases hl3
          · rw [if_neg he] at hl3
            exact h es2 l hl3
    · simp only [hr, if_false]
      intro es2 l hl2
      have hl3 : lookupA (insertA se.1.esPortDict es (removeSet p ports))
          es2 = some l := hl2
      rw [lookupA_insertA] at hl3
      by_cases he : es = es2
      · rw [if_pos he] at hl3
        injection hl3 with hl4
        rw [← hl4]
        exact hr
      · rw [if_neg he] at hl3
        exact h es2 l hl3

theorem dissociate_fold_other_key (p : String) :
    ∀ (ess : List String) (se : AgentState × List String) (es : String),
      es ∉ ess →
      lookupA (ess.foldl (dissociateStep p) se).1.esPortDict es =
        lookupA se.1.esPortDict es ∧
      lookupA (ess.foldl (dissociateStep p) se).1.extSegNextHop es =
        lookupA se.1.extSegNextHop es ∧
      lookupA (ess.foldl (dissociateStep p) se).1.files es =
        lookupA se.1.files es ∧
      ((es ∈ (ess.foldl (dissociateStep p) se).2) ↔ es ∈ se.2) ∧
      List.count es (ess.foldl (dissociateStep p) se).2 =
        List.count es se.2 := by
  intro ess
  induction ess with
  | nil => exact fun se es _ => ⟨rfl, rfl, rfl, Iff.rfl, rfl⟩
  | cons a t ih =>
      intro se es h
      have ha : es ≠ a := fun he => h (by
        rw [he]
        exact List.mem_cons_self a t)
      have hstep := dissociateStep_other_key p se a es ha
      have hrec := ih (dissociateStep p se a) es
        (fun hc => h (List.mem_cons_of_mem _ hc))
      exact ⟨hrec.1.trans hstep.1, hrec.2.1.trans hstep.2.1,
        hrec.2.2.1.trans hstep.2.2.1,
        hrec.2.2.2.1.trans hstep.2.2.2.1,
        hrec.2.2.2.2.trans hstep.2.2.2.2⟩

theorem dissociate_fold_inv1 (p : String) :
    ∀ (ess : List String) (se : AgentState × List String),
      Inv1 se.1 → Inv1 (ess.foldl (dissociateStep p) se).1 := by
  intro ess
  induction ess with
  | nil => exact fun se h => h
  | cons a t ih =>
      intro se h
      exact ih (dissociateStep p se a) (dissociateStep_inv1 p se a h)

theorem dissociate_fold_mem (p : String) :
    ∀ (ess : List String) (se : AgentState × List String) (es : String),
      es ∈ ess → ess.Nodup →
      (lookupA se.1.esPortDict es = none →
        lookupA (ess.foldl (dissociateStep p) se).1.esPortDict es = none ∧
        lookupA (ess.foldl (dissociateStep p) se).1.extSegNextHop es =
          lookupA se.1.extSegNextHop es ∧
        lookupA (ess.foldl (dissociateStep p) se).1.files es =
          lookupA se.1.files es ∧
        ((es ∈ (ess.foldl (dissociateStep p) se).2) ↔ es ∈ se.2) ∧
        List.count es (ess.foldl (dissociateStep p) se).2 =
          List.count es se.2) ∧
      (∀ ports, lookupA se.1.esPortDict es = some ports →
        (removeSet p ports = [] →
          lookupA (ess.foldl (dissociateStep p) se).1.esPortDict es =
            none ∧
          (∀ nh, lookupA se.1.extSegNextHop es = some nh →
            lookupA (ess.foldl (dissociateStep p) se).1.extSegNextHop es =
              some { nh with nextHopIface := none, nextHopMac := none }) ∧
          lookupA (ess.foldl (dissociateStep p) se).1.files es = none ∧
          es ∈ (ess.foldl (dissociateStep p) se).2 ∧
          List.count es (ess.foldl (dissociateStep p) se).2 =
            List.count es se.2 + 1) ∧
        (removeSet p ports ≠ [] →
          lookupA (ess.foldl (dissociateStep p) se).1.esPortDict es =
            some (removeSet p ports) ∧
          lookupA (ess.foldl (dissociateStep p) se).1.extSegNextHop es =
            lookupA se.1.extSegNextHop es ∧
          lookupA (ess.foldl (dissociateStep p) se).1.files es =
            lookupA se.1.files es ∧
          ((es ∈ (ess.foldl (dissociateStep p) se).2) ↔ es ∈ se.2) ∧
          List.count es (ess.foldl (dissociateStep p) se).2 =
            List.count es se.2)) := by
  intro ess
  induction ess with
  | nil =>
      intro se es h
      cases h
  | cons a t ih =>
      intro se es h hnd
      by_cases ha : a = es
      · subst ha
        have hat : a ∉ t := (List.nodup_cons.mp hnd).1
        have hoth := dissociate_fold_other_key p t (dissociateStep p se a)
          a hat
        constructor
        · intro hmiss
          have hse : dissociateStep p se a = se :=
            dissociateStep_miss p se a hmiss
          rw [List.foldl_cons, hse]
          rw [hse] at hoth
          exact ⟨hoth.1.trans hmiss, hoth.2.1, hoth.2.2.1, hoth.2.2.2.1,
            hoth.2.2.2.2⟩
        · intro ports hports
          constructor
          · intro hr
            have hstep := dissociateStep_hit_empty p se a ports hports hr
            rw [List.foldl_cons]
            refine ⟨hoth.1.trans hstep.1, ?_, hoth.2.2.1.trans hstep.2.2.1,
              ?_, ?_⟩
            · intro nh hn
              exact hoth.2.1.trans (hstep.2.1 nh hn)
            · rw [hoth.2.2.2.1, hstep.2.2.2]
              exact List.mem_append.mpr (Or.inr (List.mem_cons_self _ _))
            · rw [hoth.2.2.2.2, hstep.2.2.2, List.count_append]
              simp [List.count_cons]
          · intro hr
            have hstep := dissociateStep_hit_nonempty p se a ports hports hr
            rw [List.foldl_cons]
            refine ⟨hoth.1.trans hstep.1, hoth.2.1.trans hstep.2.1,
              hoth.2.2.1.trans hstep.2.2.1, ?_, ?_⟩
            · rw [hoth.2.2.2.1, hstep.2.2.2]
            · rw [hoth.2.2.2.2, hstep.2.2.2]
      · have hts : es ∈ t := by
          rcases List.mem_cons.mp h with hc | hc
          · exact absurd hc.symm ha
          · exact hc
        have hstep := dissociateStep_other_key p se a es
          (fun he => ha he.symm)
        have hrec := ih (dissociateStep p se a) es hts
          (List.nodup_cons.mp hnd).2
        rw [List.foldl_cons]
        constructor
        · intro hmiss
          have h1 := hrec.1 (hstep.1.trans hmiss)
          exact ⟨h1.1, h1.2.1.trans hstep.2.1, h1.2.2.1.trans hstep.2.2.1,
            h1.2.2.2.1.trans hstep.2.2.2.1,
            h1.2.2.2.2.trans hstep.2.2.2.2⟩
        · intro ports hports
          have h2 := hrec.2 ports (hstep.1.trans hports)
          constructor
          · intro hr
            have h3 := h2.1 hr
            refine ⟨h3.1, ?_, h3.2.2.1, h3.2.2.2.1, ?_⟩
            · intro nh hn
              exact h3.2.1 nh (hstep.2.1.trans hn)
            · rw [h3.2.2.2.2, hstep.2.2.2.2]
          · intro hr
            have h3 := h2.2 hr
            exact ⟨h3.1, h3.2.1.trans hstep.2.1,
              h3.2.2.1.trans hstep.2.2.1,
              h3.2.2.2.1.trans hstep.2.2.2.1,
              h3.2.2.2.2.trans hstep.2.2.2.2⟩

theorem processRuleIps_esU_mono (portId es tenant epg nhIf nhMac : String) :
    ∀ (ips : List Ip) (acc acc2 : DynAcc) (v : IpVer) (x : String),
      processRuleIps portId es tenant epg nhIf nhMac ips acc =
        Except.ok acc2 →
      x ∈ acc.esU v → x ∈ acc2.esU v := by
  intro ips
  induction ips with
  | nil =>
      intro acc acc2 v x h hx
      simp only [processRuleIps, Except.ok.injEq] at h
      rw [← h]
      exact hx
  | cons ip rest ih =>
      intro acc acc2 v x h hx
      simp only [processRuleIps] at h
      cases hfip : (match lookupA (getIntFips acc.st ip.ver portId) es with
        | some fip => some (fip, acc.st)
        | none => allocIntFip acc.st ip.ver portId es) with
      | none =>
          rw [hfip] at h
          simp at h
      | some pr =>
          obtain ⟨fip, s1⟩ := pr
          rw [hfip] at h
          simp only at h
          refine ih _ acc2 v x h ?_
          rw [ruleIpStep_esU]
          by_cases hv : v = ip.ver
          · rw [if_pos hv]
            exact (mem_addSet x es _).mpr (Or.inr hx)
          · rw [if_neg hv]
            exact hx

theorem processRuleIps_self_esU (portId es tenant epg nhIf nhMac : String)
    (ip : Ip) (rest : List Ip) (acc acc2 : DynAcc)
    (h : processRuleIps portId es tenant epg nhIf nhMac (ip :: rest) acc =
      Except.ok acc2) :
    es ∈ acc2.esU4 ∨ es ∈ acc2.esU6 := by
  simp only [processRuleIps] at h
  cases hfip : (match lookupA (getIntFips acc.st ip.ver portId) es with
    | some fip => some (fip, acc.st)
    | none => allocIntFip acc.st ip.ver portId es) with
  | none =>
      rw [hfip] at h
      simp at h
  | some pr =>
      obtain ⟨fip, s1⟩ := pr
      rw [hfip] at h
      simp only at h
      have hmem : es ∈ (ruleIpStep tenant epg nhIf nhMac es ip fip s1
          acc).esU ip.ver := by
        rw [ruleIpStep_esU, if_pos rfl]
        exact self_mem_addSet es _
      have hfin := processRuleIps_esU_mono portId es tenant epg nhIf nhMac
        rest _ acc2 ip.ver es h hmem
      cases hip : ip.ver with
      | v4 =>
          rw [hip] at hfin
          exact Or.inl hfin
      | v6 =>
          rw [hip] at hfin
          exact Or.inr hfin

theorem processOneRule_esU_mono (env : Env) (portId appProfile : String)
    (ips : List Ip) (acc : DynAcc) (r : IpMappingRule) (acc2 : DynAcc)
    (v : IpVer) (x : String)
    (h : processOneRule env portId appProfile ips acc r = Except.ok acc2)
    (hx : x ∈ acc.esU v) : x ∈ acc2.esU v := by
  unfold processOneRule at h
  by_cases hval : ruleValid ips r
  · simp only [hval, if_true] at h
    set res := getNextHopInfoForEs env acc.st (r.externalSegmentName.getD "")
      (r.natEpgTenant.getD "")
      (appProfile ++ "|" ++ r.natEpgName.getD "") with hres
    obtain ⟨⟨oIf, oMac⟩, s2⟩ := res
    cases oIf with
    | none =>
        simp only [Except.ok.injEq] at h
        rw [← h]
        exact hx
    | some nhIf =>
        cases oMac with
        | none =>
            simp only [Except.ok.injEq] at h
            rw [← h]
            exact hx
        | some nhMac =>
            exact processRuleIps_esU_mono portId _ _ _ nhIf nhMac ips
              { acc with st := s2 } acc2 v x h hx
  · rw [if_neg hval] at h
    injection h with h2
    rw [← h2]
    exact hx

theorem processRules_esU_mono (env : Env) (portId appProfile : String)
    (ips : List Ip) :
    ∀ (rules : List IpMappingRule) (acc acc2 : DynAcc) (v : IpVer)
      (x : String),
      processRules env portId appProfile ips rules acc = Except.ok acc2 →
      x ∈ acc.esU v → x ∈ acc2.esU v := by
  intro rules
  induction rules with
  | nil =>
      intro acc acc2 v x h hx
      simp only [processRules, Except.ok.injEq] at h
      rw [← h]
      exact hx
  | cons r rest ih =>
      intro acc acc2 v x h hx
      simp only [processRules] at h
      cases hp : processOneRule env portId appProfile ips acc r with
      | error st => rw [hp] at h; simp at h
      | ok acc1 =>
          rw [hp] at h
          simp only at h
          exact ih acc1 acc2 v x h
            (processOneRule_esU_mono env portId appProfile ips acc r acc1
              v x hp hx)

theorem getNextHopInfoForEs_reg_other (env : Env) (s : AgentState)
    (es tenant epgName key : String) (h : key ≠ es) :
    lookupA (getNextHopInfoForEs env s es tenant epgName).2.extSegNextHop
      key = lookupA s.extSegNextHop key := by
  unfold getNextHopInfoForEs
  cases hl : lookupA s.extSegNextHop es with
  | none => rfl
  | some nh =>
      by_cases hv : nh.isValid
      · simp only [hv, if_true]
        cases hi : nh.nextHopIface with
        | some i => rfl
        | none =>
            simp only
            set nh1 := (match env.snatSetup es with
              | some im =>
                  { nh with nextHopIface := some im.1,
                            nextHopMac := some im.2 }
              | none => nh) with hnh1
            set s1 : AgentState :=
              { s with extSegNextHop := insertA s.extSegNextHop es nh1 }
              with hs1
            have hc := createHostEndpointFile_frame tenant epgName nh1 s1
            rw [hc.2.1, hs1]
            show lookupA (insertA s.extSegNextHop es nh1) key = _
            rw [lookupA_insertA, if_neg (fun he => h he.symm)]
      · simp only [hv, if_false]
        rfl

theorem getNextHopInfoForEs_reg_skip (env : Env) (s : AgentState)
    (es tenant epgName : String)
    (h : (getNextHopInfoForEs env s es tenant epgName).1.1 = none ∨
      (getNextHopInfoForEs env s es tenant epgName).1.2 = none) :
    ∀ key,
      lookupA (getNextHopInfoForEs env s es tenant epgName).2.extSegNextHop
        key = lookupA s.extSegNextHop key := by
  intro key
  by_cases hk : key = es
  · subst hk
    revert h
    unfold getNextHopInfoForEs
    cases hl : lookupA s.extSegNextHop key with
    | none =>
        intro _
        exact hl
    | some nh =>
        by_cases hv : nh.isValid
        · simp only [hv, if_true]
          cases hi : nh.nextHopIface with
          | some i =>
              intro _
              exact hl
          | none =>
              simp only
              cases hsn : env.snatSetup key with
              | some im =>
                  intro h
                  rcases h with hc | hc
                  · exact Option.noConfusion hc
                  · exact Option.noConfusion hc
              | none =>
                  intro _
                  set s1 : AgentState :=
                    { s with
                        extSegNextHop := insertA s.extSegNextHop key nh }
                    with hs1
                  have hc := createHostEndpointFile_frame tenant epgName
                    nh s1
                  rw [hc.2.1, hs1]
                  show lookupA (insertA s.extSegNextHop key nh) key = _
                  rw [lookupA_insertA, if_pos rfl]
        · simp only [hv, if_false]
          intro _
          exact hl
  · exact getNextHopInfoForEs_reg_other env s es tenant epgName key hk

theorem processOneRule_reg (env : Env) (portId appProfile : String)
    (ips : List Ip) (acc : DynAcc) (r : IpMappingRule) (acc2 : DynAcc)
    (es : String)
    (h : processOneRule env portId appProfile ips acc r = Except.ok acc2)
    (h4 : es ∉ acc2.esU4) (h6 : es ∉ acc2.esU6) :
    lookupA acc2.st.extSegNextHop es = lookupA acc.st.extSegNextHop es := by
  unfold processOneRule at h
  by_cases hval : ruleValid ips r
  · simp only [hval, if_true] at h
    have hres : getNextHopInfoForEs env acc.st
        (r.externalSegmentName.getD "") (r.natEpgTenant.getD "")
        (appProfile ++ "|" ++ r.natEpgName.getD "") =
        getNextHopInfoForEs env acc.st (r.externalSegmentName.getD "")
          (r.natEpgTenant.getD "")
          (appProfile ++ "|" ++ r.natEpgName.getD "") := rfl
    cases hg : getNextHopInfoForEs env acc.st
        (r.externalSegmentName.getD "") (r.natEpgTenant.getD "")
        (appProfile ++ "|" ++ r.natEpgName.getD "") with
    | mk fst s2 =>
        obtain ⟨oIf, oMac⟩ := fst
        rw [hg] at h
        cases oIf with
        | none =>
            simp only [Except.ok.injEq] at h
            rw [← h]
            show lookupA s2.extSegNextHop es = _
            have := getNextHopInfoForEs_reg_skip env acc.st
              (r.externalSegmentName.getD "") (r.natEpgTenant.getD "")
              (appProfile ++ "|" ++ r.natEpgName.getD "")
              (by rw [hg]; exact Or.inl rfl) es
            rw [hg] at this
            exact this
        | some nhIf =>
            cases oMac with
            | none =>
                simp only [Except.ok.injEq] at h
                rw [← h]
                show lookupA s2.extSegNextHop es = _
                have := getNextHopInfoForEs_reg_skip env acc.st
                  (r.externalSegmentName.getD "") (r.natEpgTenant.getD "")
                  (appProfile ++ "|" ++ r.natEpgName.getD "")
                  (by rw [hg]; exact Or.inr rfl) es
                rw [hg] at this
                exact this
            | some nhMac =>
                cases hips : ips with
                | nil =>
                    rw [hips] at hval
                    simp [ruleValid] at hval
                | cons ip rest =>
                    rw [hips] at h
                    have hne : es ≠ r.externalSegmentName.getD "" := by
                      intro he
                      rcases processRuleIps_self_esU portId
                          (r.externalSegmentName.getD "")
                          (r.natEpgTenant.getD "")
                          (appProfile ++ "|" ++ r.natEpgName.getD "")
                          nhIf nhMac ip rest { acc with st := s2 } acc2 h
                        with hc | hc
                      · exact h4 (he ▸ hc)
                      · exact h6 (he ▸ hc)
                    have hfr := (processRuleIps_frame portId
                      (r.externalSegmentName.getD "")
                      (r.natEpgTenant.getD "")
                      (appProfile ++ "|" ++ r.natEpgName.getD "") nhIf
                      nhMac (ip :: rest) { acc with st := s2 }).1 acc2 h
                    rw [hfr.2.1]
                    show lookupA s2.extSegNextHop es = _
                    have := getNextHopInfoForEs_reg_other env acc.st
                      (r.externalSegmentName.getD "")
                      (r.natEpgTenant.getD "")
                      (appProfile ++ "|" ++ r.natEpgName.getD "") es hne
                    rw [hg] at this
                    exact this
  · rw [if_neg hval] at h
    injection h with h2
    rw [← h2]

theorem processRules_reg (env : Env) (portId appProfile : String)
    (ips : List Ip) :
    ∀ (rules : List IpMappingRule) (acc acc2 : DynAcc) (es : String),
      processRules env portId appProfile ips rules acc = Except.ok acc2 →
      es ∉ acc2.esU4 → es ∉ acc2.esU6 →
      lookupA acc2.st.extSegNextHop es =
        lookupA acc.st.extSegNextHop es := by
  intro rules
  induction rules with
  | nil =>
      intro acc acc2 es h _ _
      simp only [processRules, Except.ok.injEq] at h
      rw [← h]
  | cons r rest ih =>
      intro acc acc2 es h h4 h6
      simp only [processRules] at h
      cases hp : processOneRule env portId appProfile ips acc r with
      | error st => rw [hp] at h; simp at h
      | ok acc1 =>
          rw [hp] at h
          simp only at h
          have h14 : es ∉ acc1.esU4 := fun hc =>
            h4 (processRules_esU_mono env portId appProfile ips rest acc1
              acc2 IpVer.v4 es h hc)
          have h16 : es ∉ acc1.esU6 := fun hc =>
            h6 (processRules_esU_mono env portId appProfile ips rest acc1
              acc2 IpVer.v6 es h hc)
          exact (ih acc1 acc2 es h h4 h6).trans
            (processOneRule_reg env portId appProfile ips acc r acc1 es hp
              h14 h16)

theorem usage_congr {s1 s2 : AgentState}
    (h : s1.esPortDict = s2.esPortDict) (es : String) :
    usage s1 es = usage s2 es := by
  unfold usage
  rw [h]

theorem Inv1_congr {s1 s2 : AgentState}
    (h : s1.esPortDict = s2.esPortDict) (hi : Inv1 s1) : Inv1 s2 := by
  intro es l hl
  exact hi es l (h ▸ hl)

theorem fillPost_snd (p : String) (acc : DynAcc) :
    (fillPost p acc).2 =
      (List.foldl (dissociateStep p)
        (associatePortWithEs acc.st p (unionSet acc.esU4 acc.esU6), [])
        (diffSet (getEsForPort acc.st p)
          (unionSet acc.esU4 acc.esU6))).2 := rfl

theorem fillPost_fst (p : String) (acc : DynAcc) :
    (fillPost p acc).1 =
      releaseStaleVer IpVer.v6 p acc.esU6
        (releaseStaleVer IpVer.v4 p acc.esU4
          (List.foldl (dissociateStep p)
            (associatePortWithEs acc.st p (unionSet acc.esU4 acc.esU6), [])
            (diffSet (getEsForPort acc.st p)
              (unionSet acc.esU4 acc.esU6))).1) := rfl

theorem fillPost_props (p : String) (acc : DynAcc) (es : String)
    (hinv : Inv1 acc.st) :
    Inv1 (fillPost p acc).1 ∧
    ((es ∈ (fillPost p acc).2) ↔
      (usage acc.st es ≠ [] ∧ usage (fillPost p acc).1 es = [])) ∧
    List.count es (fillPost p acc).2 ≤ 1 ∧
    ((es ∈ (fillPost p acc).2) →
      es ∉ acc.esU4 ∧ es ∉ acc.esU6 ∧
      (∀ nh, lookupA acc.st.extSegNextHop es = some nh →
        lookupA (fillPost p acc).1.extSegNextHop es =
          some { nh with nextHopIface := none, nextHopMac := none }) ∧
      lookupA (fillPost p acc).1.files es = none) := by
  set old := getEsForPort acc.st p with hold
  set new := unionSet acc.esU4 acc.esU6 with hnewdef
  set s1 := associatePortWithEs acc.st p new with hs1
  set dset := diffSet old new with hdset
  have hdnd : dset.Nodup := by
    rw [hdset]
    refine diffSet_nodup _ ?_
    rw [hold]
    unfold getEsForPort
    exact unionSet_nodup (keysA_nodup _) (keysA_nodup _)
  have hdict : (fillPost p acc).1.esPortDict =
      (List.foldl (dissociateStep p) (s1, []) dset).1.esPortDict := by
    rw [fillPost_fst,
      (releaseStaleVer_dict_frame IpVer.v6 p acc.esU6 _).1,
      (releaseStaleVer_dict_frame IpVer.v4 p acc.esU4 _).1]
  have hreg : (fillPost p acc).1.extSegNextHop =
      (List.foldl (dissociateStep p) (s1, []) dset).1.extSegNextHop := by
    rw [fillPost_fst,
      (releaseStaleVer_dict_frame IpVer.v6 p acc.esU6 _).2.1,
      (releaseStaleVer_dict_frame IpVer.v4 p acc.esU4 _).2.1]
  have hfiles : (fillPost p acc).1.files =
      (List.foldl (dissociateStep p) (s1, []) dset).1.files := by
    rw [fillPost_fst,
      (releaseStaleVer_dict_frame IpVer.v6 p acc.esU6 _).2.2,
      (releaseStaleVer_dict_frame IpVer.v4 p acc.esU4 _).2.2]
  have hev : (fillPost p acc).2 =
      (List.foldl (dissociateStep p) (s1, []) dset).2 := fillPost_snd p acc
  have husagefp : usage (fillPost p acc).1 es =
      usage (List.foldl (dissociateStep p) (s1, []) dset).1 es :=
    usage_congr hdict es
  have hinv1 : Inv1 s1 := associate_inv1 acc.st p new hinv
  refine ⟨?_, ?_, ?_, ?_⟩
  · exact Inv1_congr hdict.symm (dissociate_fold_inv1 p dset (s1, []) hinv1)
  · rw [hev, husagefp]
    by_cases hm : es ∈ dset
    · have hno : es ∉ new := ((mem_diffSet es old new).mp (hdset ▸ hm)).2
      have hus1 : lookupA s1.esPortDict es =
          lookupA acc.st.esPortDict es := by
        rw [hs1]
        exact associate_lookup_other acc.st p new es hno
      cases hlk : lookupA s1.esPortDict es with
      | none =>
          have hf := (dissociate_fold_mem p dset (s1, []) es hm hdnd).1 hlk
          constructor
          · intro hc
            exact absurd (hf.2.2.2.1.mp hc) (List.not_mem_nil es)
          · intro hc
            exfalso
            apply hc.1
            unfold usage
            rw [← hus1, hlk]
            rfl
      | some ports =>
          have hpne : ports ≠ [] := hinv es ports (hus1.symm.trans hlk)
          by_cases hr : removeSet p ports = []
          · have hf := ((dissociate_fold_mem p dset (s1, []) es hm
              hdnd).2 ports hlk).1 hr
            constructor
            · intro _
              constructor
              · unfold usage
                rw [← hus1, hlk]
                simp [hpne]
              · unfold usage
                rw [hf.1]
                rfl
            · intro _
              exact hf.2.2.2.1
          · have hf := ((dissociate_fold_mem p dset (s1, []) es hm
              hdnd).2 ports hlk).2 hr
            constructor
            · intro hc
              exact absurd (hf.2.2.2.1.mp hc) (List.not_mem_nil es)
            · intro hc
              exfalso
              apply hr
              have husr : usage (List.foldl (dissociateStep p) (s1, [])
                  dset).1 es = removeSet p ports := by
                unfold usage
                rw [hf.1]
                rfl
              rw [← husr, hc.2]
    · have hf := dissociate_fold_other_key p dset (s1, []) es hm
      constructor
      · intro hc
        exact absurd (hf.2.2.2.1.mp hc) (List.not_mem_nil es)
      · intro hc
        exfalso
        by_cases hn : es ∈ new
        · have hp2 : p ∈ usage (List.foldl (dissociateStep p) (s1, [])
              dset).1 es := by
            unfold usage
            rw [hf.1]
            exact associate_usage_mem acc.st p new es hn
          rw [hc.2] at hp2
          cases hp2
        · have husq : usage (List.foldl (dissociateStep p) (s1, [])
              dset).1 es = usage acc.st es := by
            unfold usage
            rw [hf.1, hs1, associate_lookup_other acc.st p new es hn]
          rw [husq] at hc
          exact hc.1 hc.2
  · rw [hev]
    by_cases hm : es ∈ dset
    · cases hlk : lookupA s1.esPortDict es with
      | none =>
          have hf := (dissociate_fold_mem p dset (s1, []) es hm hdnd).1 hlk
          rw [hf.2.2.2.2]
          simp
      | some ports =>
          by_cases hr : removeSet p ports = []
          · have hf := ((dissociate_fold_mem p dset (s1, []) es hm
              hdnd).2 ports hlk).1 hr
            rw [hf.2.2.2.2]
            simp
          · have hf := ((dissociate_fold_mem p dset (s1, []) es hm
              hdnd).2 ports hlk).2 hr
            rw [hf.2.2.2.2]
            simp
    · have hf := dissociate_fold_other_key p dset (s1, []) es hm
      rw [hf.2.2.2.2]
      simp
  · intro hev2
    rw [hev] at hev2
    have hm : es ∈ dset := by
      by_contra hm
      have hf := dissociate_fold_other_key p dset (s1, []) es hm
      exact absurd (hf.2.2.2.1.mp hev2) (List.not_mem_nil es)
    have hno : es ∉ new := ((mem_diffSet es old new).mp (hdset ▸ hm)).2
    have h4 : es ∉ acc.esU4 := fun hc =>
      hno ((mem_unionSet es _ _).mpr (Or.inl hc))
    have h6 : es ∉ acc.esU6 := fun hc =>
      hno ((mem_unionSet es _ _).mpr (Or.inr hc))
    cases hlk : lookupA s1.esPortDict es with
    | none =>
        have hf := (dissociate_fold_mem p dset (s1, []) es hm hdnd).1 hlk
        exact absurd (hf.2.2.2.1.mp hev2) (List.not_mem_nil es)
    | some ports =>
        by_cases hr : removeSet p ports = []
        · have hf := ((dissociate_fold_mem p dset (s1, []) es hm
            hdnd).2 ports hlk).1 hr
          refine ⟨h4, h6, ?_, ?_⟩
          · intro nh hn
            rw [hreg]
            refine hf.2.1 nh ?_
            have hr1 : s1.extSegNextHop = acc.st.extSegNextHop := by
              rw [hs1]
              exact (associate_frame acc.st p new).2.2.1
            rw [hr1]
            exact hn
          · rw [hfiles]
            exact hf.2.2.1
        · have hf := ((dissociate_fold_mem p dset (s1, []) es hm
            hdnd).2 ports hlk).2 hr
          exact absurd (hf.2.2.2.1.mp hev2) (List.not_mem_nil es)

theorem mappingCleanup_snd (s : AgentState) (vifId : String) :
    (mappingCleanup s vifId).2 =
      (List.foldl (dissociateStep vifId)
        ({ s with files := eraseA s.files vifId }, [])
        (getEsForPort { s with files := eraseA s.files vifId }
          vifId)).2 := rfl

theorem mappingCleanup_fst (s : AgentState) (vifId : String) :
    (mappingCleanup s vifId).1 =
      releaseIntFipAll
        (releaseIntFipAll
          (List.foldl (dissociateStep vifId)
            ({ s with files := eraseA s.files vifId }, [])
            (getEsForPort { s with files := eraseA s.files vifId }
              vifId)).1 IpVer.v4 vifId) IpVer.v6 vifId := rfl

theorem mappingCleanup_props (s : AgentState) (vifId es : String)
    (hinv : Inv1 s) :
    Inv1 (mappingCleanup s vifId).1 ∧
    ((es ∈ (mappingCleanup s vifId).2) ↔
      (usage s es ≠ [] ∧ usage (mappingCleanup s vifId).1 es = [])) ∧
    List.count es (mappingCleanup s vifId).2 ≤ 1 ∧
    ((es ∈ (mappingCleanup s vifId).2) →
      (∀ nh, lookupA s.extSegNextHop es = some nh →
        lookupA (mappingCleanup s vifId).1.extSegNextHop es =
          some { nh with nextHopIface := none, nextHopMac := none }) ∧
      lookupA (mappingCleanup s vifId).1.files es = none) := by
  set s1 := { s with files := eraseA s.files vifId } with hs1
  set ess := getEsForPort s1 vifId with hess
  have hnd : ess.Nodup := by
    rw [hess]
    unfold getEsForPort
    exact unionSet_nodup (keysA_nodup _) (keysA_nodup _)
  have hd1 : s1.esPortDict = s.esPortDict := rfl
  have hr1 : s1.extSegNextHop = s.extSegNextHop := rfl
  have hinv1 : Inv1 s1 := Inv1_congr hd1.symm hinv
  have hdict : (mappingCleanup s vifId).1.esPortDict =
      (List.foldl (dissociateStep vifId) (s1, []) ess).1.esPortDict := by
    rw [mappingCleanup_fst,
      (releaseAll_frame _ IpVer.v6 vifId).1,
      (releaseAll_frame _ IpVer.v4 vifId).1]
  have hreg : (mappingCleanup s vifId).1.extSegNextHop =
      (List.foldl (dissociateStep vifId) (s1, []) ess).1.extSegNextHop := by
    rw [mappingCleanup_fst,
      (releaseAll_frame _ IpVer.v6 vifId).2.1,
      (releaseAll_frame _ IpVer.v4 vifId).2.1]
  have hfiles : (mappingCleanup s vifId).1.files =
      (List.foldl (dissociateStep vifId) (s1, []) ess).1.files := by
    rw [mappingCleanup_fst,
      (releaseAll_frame _ IpVer.v6 vifId).2.2,
      (releaseAll_frame _ IpVer.v4 vifId).2.2]
  have hev : (mappingCleanup s vifId).2 =
      (List.foldl (dissociateStep vifId) (s1, []) ess).2 :=
    mappingCleanup_snd s vifId
  have husage : usage (mappingCleanup s vifId).1 es =
      usage (List.foldl (dissociateStep vifId) (s1, []) ess).1 es :=
    usage_congr hdict es
  have hus1 : lookupA s1.esPortDict es = lookupA s.esPortDict es := by
    rw [hd1]
  refine ⟨?_, ?_, ?_, ?_⟩
  · exact Inv1_congr hdict.symm
      (dissociate_fold_inv1 vifId ess (s1, []) hinv1)
  · rw [hev, husage]
    by_cases hm : es ∈ ess
    · cases hlk : lookupA s1.esPortDict es with
      | none =>
          have hf := (dissociate_fold_mem vifId ess (s1, []) es hm
            hnd).1 hlk
          constructor
          · intro hc
            exact absurd (hf.2.2.2.1.mp hc) (List.not_mem_nil es)
          · intro hc
            exfalso
            apply hc.1
            unfold usage
            rw [← hus1, hlk]
            rfl
      | some ports =>
          have hpne : ports ≠ [] := hinv es ports (hus1.symm.trans hlk)
          by_cases hr : removeSet vifId ports = []
          · have hf := ((dissociate_fold_mem vifId ess (s1, []) es hm
              hnd).2 ports hlk).1 hr
            constructor
            · intro _
              constructor
              · unfold usage
                rw [← hus1, hlk]
                simp [hpne]
              · unfold usage
                rw [hf.1]
                rfl
            · intro _
              exact hf.2.2.2.1
          · have hf := ((dissociate_fold_mem vifId ess (s1, []) es hm
              hnd).2 ports hlk).2 hr
            constructor
            · intro hc
              exact absurd (hf.2.2.2.1.mp hc) (List.not_mem_nil es)
            · intro hc
              exfalso
              apply hr
              have husr : usage (List.foldl (dissociateStep vifId)
                  (s1, []) ess).1 es = removeSet vifId ports := by
                unfold usage
                rw [hf.1]
                rfl
              rw [← husr, hc.2]
    · have hf := dissociate_fold_other_key vifId ess (s1, []) es hm
      constructor
      · intro hc
        exact absurd (hf.2.2.2.1.mp hc) (List.not_mem_nil es)
      · intro hc
        exfalso
        have husq : usage (List.foldl (dissociateStep vifId) (s1, [])
            ess).1 es = usage s es := by
          unfold usage
          rw [hf.1, hus1]
        rw [husq] at hc
        exact hc.1 hc.2
  · rw [hev]
    by_cases hm : es ∈ ess
    · cases hlk : lookupA s1.esPortDict es with
      | none =>
          have hf := (dissociate_fold_mem vifId ess (s1, []) es hm
            hnd).1 hlk
          rw [hf.2.2.2.2]
          simp
      | some ports =>
          by_cases hr : removeSet vifId ports = []
          · have hf := ((dissociate_fold_mem vifId ess (s1, []) es hm
              hnd).2 ports hlk).1 hr
            rw [hf.2.2.2.2]
            simp
          · have hf := ((dissociate_fold_mem vifId ess (s1, []) es hm
              hnd).2 ports hlk).2 hr
            rw [hf.2.2.2.2]
            simp
    · have hf := dissociate_fold_other_key vifId ess (s1, []) es hm
      rw [hf.2.2.2.2]
      simp
  · intro hev2
    rw [hev] at hev2
    have hm : es ∈ ess := by
      by_contra hm
      have hf := dissociate_fold_other_key vifId ess (s1, []) es hm
      exact absurd (hf.2.2.2.1.mp hev2) (List.not_mem_nil es)
    cases hlk : lookupA s1.esPortDict es with
    | none =>
        have hf := (dissociate_fold_mem vifId ess (s1, []) es hm
          hnd).1 hlk
        exact absurd (hf.2.2.2.1.mp hev2) (List.not_mem_nil es)
    | some ports =>
        by_cases hr : removeSet vifId ports = []
        · have hf := ((dissociate_fold_mem vifId ess (s1, []) es hm
            hnd).2 ports hlk).1 hr
          refine ⟨?_, ?_⟩
          · intro nh hn
            rw [hreg]
            refine hf.2.1 nh ?_
            rw [hr1]
            exact hn
          · rw [hfiles]
            exact hf.2.2.1
        · have hf := ((dissociate_fold_mem vifId ess (s1, []) es hm
            hnd).2 ports hlk).2 hr
          exact absurd (hf.2.2.2.1.mp hev2) (List.not_mem_nil es)

theorem runCall_router_shape (env : Env) (s : AgentState)
    (port : PortInfo) (g : GbpDetails) (ips : List Ip) (owner : String)
    (how : owner = DEVICE_OWNER_ROUTER_INTF) :
    runCall env s (AgentCall.recon port g ips owner) = (s, []) := by
  unfold runCall mappingToFile
  dsimp only
  rw [if_pos how]

theorem runCall_error_shape (env : Env) (s : AgentState)
    (port : PortInfo) (g : GbpDetails) (ips : List Ip) (owner : String)
    (st : AgentState)
    (how : ¬ owner = DEVICE_OWNER_ROUTER_INTF)
    (hpr : processRules env port.vifId g.appProfileName ips g.ipMapping
      ⟨s, [], [], []⟩ = Except.error st) :
    runCall env s (AgentCall.recon port g ips owner) = (st, []) := by
  unfold runCall mappingToFile fillIpMappingInfo
  dsimp only
  rw [if_neg how, hpr]

set_option maxHeartbeats 2000000 in
theorem runCall_ok_shape (env : Env) (s : AgentState)
    (port : PortInfo) (g : GbpDetails) (ips : List Ip) (owner : String)
    (acc : DynAcc)
    (how : ¬ owner = DEVICE_OWNER_ROUTER_INTF)
    (hpr : processRules env port.vifId g.appProfileName ips g.ipMapping
      ⟨s, [], [], []⟩ = Except.ok acc) :
    (runCall env s (AgentCall.recon port g ips owner)).2 =
      (fillPost port.vifId acc).2 ∧
    (runCall env s (AgentCall.recon port g ips owner)).1.esPortDict =
      (fillPost port.vifId acc).1.esPortDict ∧
    (runCall env s (AgentCall.recon port g ips owner)).1.extSegNextHop =
      (fillPost port.vifId acc).1.extSegNextHop ∧
    (runCall env s (AgentCall.recon port g ips owner)).1.files =
      insertA (fillPost port.vifId acc).1.files port.vifId
        { baseMapping port g ips owner with
            ipAddressMapping :=
              (baseMapping port g ips owner).ipAddressMapping
                ++ staticFipEntries g ++ acc.entries } := by
  have hrw : runCall env s (AgentCall.recon port g ips owner) =
      ({ (fillPost port.vifId acc).1 with
          files := insertA (fillPost port.vifId acc).1.files
            port.vifId
            { baseMapping port g ips owner with
                ipAddressMapping :=
                  (baseMapping port g ips owner).ipAddressMapping
                    ++ staticFipEntries g ++ acc.entries } },
        (fillPost port.vifId acc).2) := by
    unfold runCall mappingToFile fillIpMappingInfo
    dsimp only
    rw [if_neg how, hpr]
  rw [hrw]
  exact ⟨rfl, rfl, rfl, rfl⟩

set_option maxHeartbeats 1000000 in
/-- C3: starting from `__init__` (whose usage index is empty, so the stated
invariant on usage sets holds) and across any sequence of reconciliation
(`mapping_to_file`) and cleanup (`mapping_cleanup`) calls — the invariant is
preserved by every call — a segment's SNAT teardown is invoked during a call
if and only if that segment's usage set transitions from non-empty to empty
within that call, it is invoked at most once per call, and when it happens
the segment's next-hop interface and MAC are reset to null in the registry
and the segment's persisted host-endpoint record is deleted. -/
theorem claim3_teardown_iff_usage_empty (env : Env) (s : AgentState)
    (call : AgentCall) (es : String) (hinv : Inv1 s) :
    (∀ b4 b6 esCfg, Inv1 (initState b4 b6 esCfg)) ∧
    Inv1 (runCall env s call).1 ∧
    ((es ∈ (runCall env s call).2) ↔
      (usage s es ≠ [] ∧ usage (runCall env s call).1 es = [])) ∧
    List.count es (runCall env s call).2 ≤ 1 ∧
    ((es ∈ (runCall env s call).2) →
      (∀ nh, lookupA s.extSegNextHop es = some nh →
        lookupA (runCall env s call).1.extSegNextHop es =
          some { nh with nextHopIface := none, nextHopMac := none }) ∧
      (es ≠ callVif call →
        lookupA (runCall env s call).1.files es = none)) := by
  refine ⟨fun b4 b6 esCfg es2 l hl => Option.noConfusion hl, ?_⟩
  cases call with
  | cleanup vifId =>
      have hrw : runCall env s (AgentCall.cleanup vifId) =
          mappingCleanup s vifId := rfl
      rw [hrw]
      have hp := mappingCleanup_props s vifId es hinv
      exact ⟨hp.1, hp.2.1, hp.2.2.1,
        fun hm => ⟨(hp.2.2.2 hm).1, fun _ => (hp.2.2.2 hm).2⟩⟩
  | recon port g ips owner =>
      by_cases how : owner = DEVICE_OWNER_ROUTER_INTF
      · rw [runCall_router_shape env s port g ips owner how]
        refine ⟨hinv, ?_, ?_, ?_⟩
        · constructor
          · intro hc
            cases hc
          · intro hc
            exact absurd hc.2 hc.1
        · simp
        · intro hc
          cases hc
      · cases hpr : processRules env port.vifId g.appProfileName ips
            g.ipMapping ⟨s, [], [], []⟩ with
        | error st =>
            rw [runCall_error_shape env s port g ips owner st how hpr]
            have hfr := (processRules_frame env port.vifId
              g.appProfileName ips g.ipMapping ⟨s, [], [], []⟩).2 st hpr
            have hdict : st.esPortDict = s.esPortDict := hfr.1
            refine ⟨Inv1_congr hdict.symm hinv, ?_, ?_, ?_⟩
            · constructor
              · intro hc
                cases hc
              · intro hc
                rw [usage_congr hdict es] at hc
                exact absurd hc.2 hc.1
            · simp
            · intro hc
              cases hc
        | ok acc =>
            have hsh := runCall_ok_shape env s port g ips owner acc how hpr
            have hfr := (processRules_frame env port.vifId
              g.appProfileName ips g.ipMapping ⟨s, [], [], []⟩).1 acc hpr
            have hdict : acc.st.esPortDict = s.esPortDict := hfr.1
            have hinv2 : Inv1 acc.st := Inv1_congr hdict.symm hinv
            have hp := fillPost_props port.vifId acc es hinv2
            refine ⟨Inv1_congr hsh.2.1.symm hp.1, ?_, ?_, ?_⟩
            · rw [hsh.1, usage_congr hsh.2.1 es,
                show usage s es = usage acc.st es from
                  (usage_congr hdict es).symm]
              exact hp.2.1
            · rw [hsh.1]
              exact hp.2.2.1
            · rw [hsh.1]
              intro hm
              have ht := hp.2.2.2 hm
              refine ⟨?_, ?_⟩
              · intro nh hn
                have hreg0 : lookupA acc.st.extSegNextHop es =
                    lookupA s.extSegNextHop es :=
                  processRules_reg env port.vifId g.appProfileName ips
                    g.ipMapping ⟨s, [], [], []⟩ acc es hpr ht.1 ht.2.1
                rw [hsh.2.2.1]
                exact ht.2.2.1 nh (hreg0.trans hn)
              · intro hne
                rw [hsh.2.2.2, lookupA_insertA,
                  if_neg (fun he => hne he.symm)]
                exact ht.2.2.2

/-- C3 witness: the theorem applied at a concrete call. -/
theorem claim3_teardown_iff_usage_empty_witness :
    ("ext1" ∈ (runCall exEnv (initState [] [] [])
        (AgentCall.cleanup "p")).2) ↔
      (usage (initState [] [] []) "ext1" ≠ [] ∧
        usage (runCall exEnv (initState [] [] [])
          (AgentCall.cleanup "p")).1 "ext1" = []) :=
  (claim3_teardown_iff_usage_empty exEnv (initState [] [] [])
    (AgentCall.cleanup "p") "ext1"
    (fun es l hl => Option.noConfusion hl)).2.2.1

end OpflexAgent
